import Mathlib

/-!
# N-Queens over n*n 0/1 variables (src/nqueens.cpp)

A shallow embedding of the `NQueens` script: the constructor that posts the
row, column and diagonal cardinality constraints and the branching, and the
`print` method.  The Gecode operations the script calls (the `Matrix` view,
`exactly`, `atmost`, `IntVarArgs`, `branch`, the stream output of a variable)
are embedded with their documented meaning.

Integer model.  The board size `opt.size()` is an `unsigned int` and the loop
counters, the lengths of the arrays and the sides and coordinates of the
`Matrix` view are `int`, both of 32 bits.  A value is a natural number or an
integer together with the conversion the C++ expression applies to it:
`toUnsigned32` reduces modulo 2^32 (unsigned arithmetic, and the conversion of
an `int` operand) and `toInt32` converts an `unsigned int` to `int`.  The
product of the sides that the `Matrix` constructor compares with the size of
the array is taken modulo 2^32 as well.  In the loops of the script an `int`
result that does not fit (`int32`), or a counter that would have to pass
2^31 - 1 (`forUp`), makes the run fail.  A negative array length, a slice or a
coordinate outside the view and an index outside an array make the operation
fail (`none`); nothing is truncated at zero.
-/

namespace NQueens

set_option linter.unusedVariables false
/-! ## 32-bit integers -/

/-- The value of an `unsigned int` expression whose exact value is `z`: `z`
modulo 2^32. -/
def toUnsigned32 (z : Int) : Nat :=
  (z % 4294967296).toNat

/-- The conversion of an `unsigned int` to `int`: the values from 2^31 on
become negative. -/
def toInt32 (u : Nat) : Int :=
  if u < 2147483648 then (u : Int) else (u : Int) - 4294967296

/-- The value of an `int` expression whose exact value is `z`.  A result
outside -2^31 .. 2^31 - 1 is a signed overflow, undefined in C++: a failure. -/
def int32 (z : Int) : Option Int :=
  if -2147483648 ≤ z ∧ z ≤ 2147483647 then some z else none

/-- The number of variables `opt.size() * opt.size()` that line 27 hands to
the constructor of `x`: the product is computed in `unsigned int` and the
parameter is an `int`. -/
def xCount32 (size : Nat) : Int :=
  toInt32 (toUnsigned32 ((size : Int) * (size : Int)))

/-- The bound `opt.size() - i` of the inner loops of lines 46 and 55, an
`unsigned int`; the `int` counter `i` is converted to unsigned first. -/
def sizeMinus32 (size : Nat) (i : Int) : Nat :=
  toUnsigned32 ((size : Int) - (toUnsigned32 i : Int))

/-- The start value `int i = opt.size() - 2` of the loop of lines 62-68: the
difference is computed in `unsigned int` and converted to `int`. -/
def swneFirstStart32 (size : Nat) : Int :=
  toInt32 (toUnsigned32 ((size : Int) - 2))

/-! ## Loop counters -/

/-- Counter values of `for (int i = lo; i < hi; i++)`, in order. -/
def countUp (lo hi : Int) : List Int :=
  (List.range (hi - lo).toNat).map (fun (k : Nat) => lo + (k : Int))

/-- Counter values of `for (int i = hi; i >= lo; i--)`, in order. -/
def countDown (hi lo : Int) : List Int :=
  (List.range (hi + 1 - lo).toNat).map (fun (k : Nat) => hi - (k : Int))

/-- The loop `for (int i = lo; i < bound; i++)` with `lo` 0 or 1 and `bound`
an `unsigned int`: the `int` counter is converted to unsigned for the
comparison, so the body runs for `i = lo, ..., bound - 1`, and the run stops at
the first body that fails.  The counter cannot reach a bound above 2^31 - 1
(`i++` overflows first), so such a loop never ends regularly: a failure. -/
def forUp {σ : Type} (lo : Int) (bound : Nat) (body : σ → Int → Option σ) (s : σ) : Option σ :=
  if bound ≤ 2147483647 then (countUp lo bound).foldlM body s else none

/-! ## Variables, constraints, the space -/

/-- A variable of the space: `cell idx` is `x[idx]`, one of the board variables
of domain 0..1; `zero` is a variable created by `IntVarArgs(home, n, 0, 0)`,
whose domain is 0..0. -/
inductive Var where
  | cell (idx : Nat)
  | zero
  deriving DecidableEq

/-- The two counting constraints of the script: `exactly xs v m` is Gecode's
`exactly(home, xs, v, m)` (exactly `m` variables of `xs` equal `v`) and
`atmost xs v m` is `atmost(home, xs, v, m)` (at most `m` of them equal `v`). -/
inductive Constraint where
  | exactly (xs : List Var) (v m : Nat)
  | atmost (xs : List Var) (v m : Nat)
  deriving DecidableEq

/-- The random generator `Rnd r(seed)`. -/
structure Rnd where
  seed : Nat
  deriving DecidableEq

/-- Variable selection of a brancher; the script uses `INT_VAR_RND(r)`. -/
inductive IntVarBranch where
  | rnd (r : Rnd)
  deriving DecidableEq

/-- Value selection of a brancher; the script uses `INT_VAL_RND(r)`. -/
inductive IntValBranch where
  | rnd (r : Rnd)
  deriving DecidableEq

/-- One call of `branch(home, xs, vars, vals)`. -/
structure Brancher where
  xs : List Var
  vars : IntVarBranch
  vals : IntValBranch
  deriving DecidableEq

/-- What the constructor registers in the space: the size of the array `x`
(variables of domain 0..1), the number of auxiliary variables of domain 0..0
created so far, the posted constraints in posting order, and the branchers. -/
structure Space where
  xSize : Nat
  zeros : Nat
  constraints : List Constraint
  branchers : List Brancher
  deriving DecidableEq

/-- The space that holds an array `x` of `k` variables and nothing else. -/
def Space.init (k : Nat) : Space :=
  { xSize := k, zeros := 0, constraints := [], branchers := [] }

/-- The member initialiser `x(*this, n, 0, 1)`, whose length `n` is an `int`:
`n` variables of domain 0..1; a negative length is a failure. -/
def IntVarArray.create (n : Int) : Option Space :=
  if 0 ≤ n then some (Space.init n.toNat) else none

/-- Posting a constraint appends it. -/
def Space.post (s : Space) (c : Constraint) : Space :=
  { s with constraints := s.constraints ++ [c] }

/-- Registering a brancher appends it. -/
def Space.branch (s : Space) (b : Brancher) : Space :=
  { s with branchers := s.branchers ++ [b] }

/-- The array `x` as a list of variables. -/
def Space.x (s : Space) : List Var :=
  (List.range s.xSize).map Var.cell

/-- The declaration `IntVarArgs d1y(*this, n, 0, 0)`, whose length `n` is an
`int`: `n` new variables of domain 0..0; a negative length is a failure. -/
def IntVarArgs.zeros (s : Space) (n : Int) : Option (List Var × Space) :=
  if 0 ≤ n then some (List.replicate n.toNat Var.zero, { s with zeros := s.zeros + n.toNat })
  else none

/-- The assignment `d1y[j] = v`; the index must lie inside the array. -/
def IntVarArgs.store (d1y : List Var) (j : Int) (v : Var) : Option (List Var) :=
  if 0 ≤ j ∧ j < d1y.length then some (d1y.set j.toNat v) else none

/-! ## The Matrix view -/

/-- The view `Matrix<IntVarArray> m(x, width, height)` over the array `x`:
the number of elements of `x`, and the width and height, which are `int`. -/
structure Matrix where
  size : Nat
  width : Int
  height : Int
  deriving DecidableEq

/-- The constructor of the view: the product `w * h`, an `int` computed modulo
2^32, must be the size of the array, an `int` as well. -/
def Matrix.view (xSize : Nat) (w h : Int) : Option Matrix :=
  if (w * h) % 4294967296 = (xSize : Int) % 4294967296 then
    some { size := xSize, width := w, height := h }
  else none

/-- The position in `x` of the element `m(c, r)`, column `c` of row `r`:
`r * width + c`; the coordinates must lie inside the view and the position
inside the array. -/
def Matrix.index (m : Matrix) (c r : Int) : Option Nat :=
  if 0 ≤ c ∧ c < m.width ∧ 0 ≤ r ∧ r < m.height ∧ r * m.width + c < m.size then
    some (r * m.width + c).toNat
  else none

/-- The access `m(c, r)` in the constructor: the variable `x[r * width + c]`. -/
def Matrix.get (m : Matrix) (c r : Int) : Option Var :=
  (m.index c r).map Var.cell

/-- The slice `m.row(r)`, rows `r` to `r + 1` of all columns: row `r + 1` must
not lie beyond the height; the elements are `m(0, r)`, ..., `m(width - 1, r)`. -/
def Matrix.row (m : Matrix) (r : Int) : Option (List Var) :=
  if r + 1 ≤ m.height then (countUp 0 m.width).mapM (fun c => m.get c r) else none

/-- The slice `m.col(c)`, columns `c` to `c + 1` of all rows: column `c + 1`
must not lie beyond the width; the elements are `m(c, 0)`, ...,
`m(c, height - 1)`. -/
def Matrix.col (m : Matrix) (c : Int) : Option (List Var) :=
  if c + 1 ≤ m.width then (countUp 0 m.height).mapM (fun r => m.get c r) else none

/-! ## The constructor `NQueens::NQueens(const SizeOptions&)`

`size` is the value of `opt.size()`, an `unsigned int`. -/

/-- Lines 32-34, the row loop. -/
def postRows (m : Matrix) (size : Nat) (s : Space) : Option Space :=
  forUp 0 size (fun s i => do
    let xs ← m.row i
    pure (s.post (Constraint.exactly xs 1 1))) s

/-- Lines 37-39, the column loop. -/
def postCols (m : Matrix) (size : Nat) (s : Space) : Option Space :=
  forUp 0 size (fun s i => do
    let xs ← m.col i
    pure (s.post (Constraint.exactly xs 1 1))) s

/-- Lines 44-50, "NW -> SE, lower half": `d1y[j] = m(i + j, j)` for
`j < opt.size() - i`; the sum `i + j` is an `int`. -/
def postNWSELower (m : Matrix) (size : Nat) (s : Space) : Option Space :=
  forUp 0 size (fun s i => do
    let (d1y, s) ← IntVarArgs.zeros s (toInt32 size)
    let d1y ← forUp 0 (sizeMinus32 size i) (fun d1y j => do
      let c ← int32 (i + j)
      let v ← m.get c j
      IntVarArgs.store d1y j v) d1y
    pure (s.post (Constraint.atmost d1y 1 1))) s

/-- Lines 53-59, "NW -> SE, upper half": `d1y[j] = m(j, j + i)` for
`j < opt.size() - i`; the sum `j + i` is an `int`. -/
def postNWSEUpper (m : Matrix) (size : Nat) (s : Space) : Option Space :=
  forUp 1 size (fun s i => do
    let (d1y, s) ← IntVarArgs.zeros s (toInt32 size)
    let d1y ← forUp 0 (sizeMinus32 size i) (fun d1y j => do
      let r ← int32 (j + i)
      let v ← m.get j r
      IntVarArgs.store d1y j v) d1y
    pure (s.post (Constraint.atmost d1y 1 1))) s

/-- Lines 62-68, the first "SW -> NE" loop: `i` runs from `opt.size() - 2`
down to 0 and `d1y[j] = m(i - j, j)` for `j < i + 1`; the counters, `i + 1`
and `i - j` are `int`. -/
def postSWNEFirst (m : Matrix) (size : Nat) (s : Space) : Option Space :=
  (countDown (swneFirstStart32 size) 0).foldlM (fun s i => do
    let (d1y, s) ← IntVarArgs.zeros s (toInt32 size)
    let hi ← int32 (i + 1)
    let d1y ← (countUp 0 hi).foldlM (fun d1y j => do
      let c ← int32 (i - j)
      let v ← m.get c j
      IntVarArgs.store d1y j v) d1y
    pure (s.post (Constraint.atmost d1y 1 1))) s

/-- Lines 71-77, the second "SW -> NE" loop: `j` runs from `opt.size() - 1`
(an `unsigned int` converted to `int`) down to `i` and
`d1y[j] = m(i + opt.size() - 1 - j, j)`, the first coordinate computed in
`unsigned int` and passed as `int`. -/
def postSWNESecond (m : Matrix) (size : Nat) (s : Space) : Option Space :=
  forUp 0 size (fun s i => do
    let (d1y, s) ← IntVarArgs.zeros s (toInt32 size)
    let d1y ← (countDown (toInt32 (toUnsigned32 ((size : Int) - 1))) i).foldlM (fun d1y j => do
      let v ← m.get (toInt32 (toUnsigned32 (i + (size : Int) - 1 - j))) j
      IntVarArgs.store d1y j v) d1y
    pure (s.post (Constraint.atmost d1y 1 1))) s

/-- Lines 80-81: `Rnd r(1U); branch(*this, x, INT_VAR_RND(r), INT_VAL_RND(r))`. -/
def postBranching (s : Space) : Space :=
  let r : Rnd := { seed := 1 }
  s.branch { xs := s.x, vars := IntVarBranch.rnd r, vals := IntValBranch.rnd r }

/-- Lines 26-27, the member initialiser `x(*this, opt.size() * opt.size(), 0, 1)`:
the first step of the constructor. -/
def allocateX (size : Nat) : Option Space :=
  IntVarArray.create (xCount32 size)

/-- Lines 26-41 of the constructor: the array `x`, the view `m`, the row and
column loops and the declaration of line 41.  The result is the view and the
space with which the diagonal loops start. -/
def beforeDiagonals (size : Nat) : Option (Matrix × Space) := do
  let s ← allocateX size
  let m ← Matrix.view s.xSize (toInt32 size) (toInt32 size)
  let s ← postRows m size s
  let s ← postCols m size s
  let (_, s) ← IntVarArgs.zeros s (toInt32 size)
  pure (m, s)

/-- The constructor, lines 26-82, for `opt.size() = size`. -/
def construct (size : Nat) : Option Space := do
  let (m, s) ← beforeDiagonals size
  let s ← postNWSELower m size s
  let s ← postNWSEUpper m size s
  let s ← postSWNEFirst m size s
  let s ← postSWNESecond m size s
  pure (postBranching s)

/-! ## The method `NQueens::print` -/

/-- A variable of `x` as `print` finds it: assigned to the value `v`, or not
yet assigned, with the values `min..max` left. -/
inductive IntVar where
  | val (v : Nat)
  | range (min max : Nat)
  deriving DecidableEq

/-- What the stream output of a variable writes: the value of an assigned
variable, the interval of an unassigned one. -/
def IntVar.text : IntVar → String
  | IntVar.val v => toString v
  | IntVar.range lo hi => "[" ++ toString lo ++ ".." ++ toString hi ++ "]"

/-- The output stream: the text written so far and the field width that
`os.width(w)` sets for the next formatted output. -/
structure OStream where
  text : String
  width : Nat
  deriving DecidableEq

/-- The call `os.width(w)`. -/
def OStream.setWidth (os : OStream) (w : Nat) : OStream :=
  { os with width := w }

/-- The formatted output `os << s`: `s` is right-aligned in a field of the
current width, filled with blanks, and the width goes back to 0. -/
def OStream.write (os : OStream) (s : String) : OStream :=
  { text := os.text ++ String.mk (List.replicate (os.width - s.length) ' ') ++ s, width := 0 }

/-- The output `os << std::endl`. -/
def OStream.endl (os : OStream) : OStream :=
  { os with text := os.text ++ "\n" }

/-- The method `print`, lines 95-108, on the array `x`.  The side of the board
is `pow(x.size(), 0.5)` converted to `int`, the integer part of the square
root of the number of variables. -/
def print (x : List IntVar) (os : OStream) : Option OStream := do
  let matrixSize := Nat.sqrt x.length
  let m ← Matrix.view x.length matrixSize matrixSize
  (countUp 0 matrixSize).foldlM (fun os i => do
    let os := os.write "\t"
    let os ← (countUp 0 matrixSize).foldlM (fun os j => do
      let os := os.setWidth 2
      let k ← m.index i j
      let v ← x[k]?
      pure ((os.write v.text).write "  ")) os
    pure os.endl) os

/-! ## Assignments and what a constraint means -/

/-- An assignment of 0/1 to the `n * n` variables of `x`: `true` is the value 1. -/
abbrev Assignment (n : Nat) := Fin (n * n) → Bool

/-- The value of `x[idx]` under the assignment. -/
def Assignment.value {n : Nat} (a : Assignment n) (idx : Nat) : Nat :=
  if h : idx < n * n then (a ⟨idx, h⟩).toNat else 0

/-- The value of a variable: a variable of domain 0..0 has the value 0. -/
def Var.value {n : Nat} (a : Assignment n) : Var → Nat
  | Var.cell idx => a.value idx
  | Var.zero => 0

/-- The number of variables of `xs` that have the value `v`. -/
def count {n : Nat} (a : Assignment n) (xs : List Var) (v : Nat) : Nat :=
  xs.countP (fun x => x.value a == v)

/-- The meaning of a constraint under an assignment. -/
def Constraint.holds {n : Nat} (a : Assignment n) : Constraint → Prop
  | Constraint.exactly xs v m => count a xs v = m
  | Constraint.atmost xs v m => count a xs v ≤ m

instance {n : Nat} (a : Assignment n) (c : Constraint) : Decidable (c.holds a) := by
  cases c <;> unfold Constraint.holds <;> infer_instance

/-- The assignment is a solution of the space: it assigns exactly the
variables of `x` and every posted constraint holds. -/
def Space.solvedBy {n : Nat} (s : Space) (a : Assignment n) : Prop :=
  s.xSize = n * n ∧ ∀ c ∈ s.constraints, c.holds a

instance {n : Nat} (s : Space) (a : Assignment n) : Decidable (s.solvedBy a) := by
  unfold Space.solvedBy; infer_instance

/-- The array `x` under a complete assignment, as `print` reads it. -/
def Assignment.vars {n : Nat} (a : Assignment n) : List IntVar :=
  List.ofFn (fun k => IntVar.val (a k).toNat)

/-! ## N-Queens placements, in the words of the specification -/

/-- The value on the board cell of row `r` and column `c`, the variable
`m(c, r)` of the constructor's view, `x[r * n + c]`. -/
def Assignment.cell {n : Nat} (a : Assignment n) (r c : Nat) : Nat :=
  a.value (r * n + c)

/-- A valid N-Queens placement: exactly one 1 in each row, exactly one 1 in
each column, at most one 1 among the cells that share a value of `row - col`,
at most one 1 among the cells that share a value of `row + col`. -/
def ValidPlacement (n : Nat) (a : Assignment n) : Prop :=
  (∀ r < n, ((List.range n).filter (fun c => a.cell r c == 1)).length = 1) ∧
  (∀ c < n, ((List.range n).filter (fun r => a.cell r c == 1)).length = 1) ∧
  (∀ r₁ < n, ∀ c₁ < n, ∀ r₂ < n, ∀ c₂ < n, a.cell r₁ c₁ = 1 → a.cell r₂ c₂ = 1 →
    (r₁ : Int) - c₁ = (r₂ : Int) - c₂ → r₁ = r₂ ∧ c₁ = c₂) ∧
  (∀ r₁ < n, ∀ c₁ < n, ∀ r₂ < n, ∀ c₂ < n, a.cell r₁ c₁ = 1 → a.cell r₂ c₂ = 1 →
    r₁ + c₁ = r₂ + c₂ → r₁ = r₂ ∧ c₁ = c₂)

set_option synthInstance.maxSize 4000 in
set_option synthInstance.maxHeartbeats 400000 in
instance (n : Nat) (a : Assignment n) : Decidable (ValidPlacement n a) := by
  unfold ValidPlacement; infer_instance

/-! ## Closed forms of the arrays handed to `exactly` and `atmost` -/

/-- The variables of `m.row(i)` on the `n`-by-`n` view. -/
def rowVars (n i : Nat) : List Var :=
  (List.range n).map (fun c => Var.cell (i * n + c))

/-- The variables of `m.col(i)` on the `n`-by-`n` view. -/
def colVars (n i : Nat) : List Var :=
  (List.range n).map (fun r => Var.cell (r * n + i))

/-- The array `d1y` after the inner loop of lines 44-50, for the counter `i`. -/
def nwseLowerVars (n i : Nat) : List Var :=
  (List.range (n - i)).map (fun j => Var.cell (j * n + (i + j))) ++ List.replicate i Var.zero

/-- The array `d1y` after the inner loop of lines 53-59, for the counter `i`. -/
def nwseUpperVars (n i : Nat) : List Var :=
  (List.range (n - i)).map (fun j => Var.cell ((j + i) * n + j)) ++ List.replicate i Var.zero

/-- The array `d1y` after the inner loop of lines 62-68, for the counter `i`. -/
def swneFirstVars (n i : Nat) : List Var :=
  (List.range (i + 1)).map (fun j => Var.cell (j * n + (i - j)))
    ++ List.replicate (n - (i + 1)) Var.zero

/-- The array `d1y` after the inner loop of lines 71-77, for the counter `i`. -/
def swneSecondVars (n i : Nat) : List Var :=
  List.replicate i Var.zero
    ++ (List.range' i (n - i)).map (fun j => Var.cell (j * n + (i + n - 1 - j)))

/-- The arrays of the "NW -> SE, lower half" loop, in posting order. -/
def nwseLowerAll (n : Nat) : List (List Var) :=
  (List.range n).map (nwseLowerVars n)

/-- The arrays of the "NW -> SE, upper half" loop, in posting order. -/
def nwseUpperAll (n : Nat) : List (List Var) :=
  (List.range' 1 (n - 1)).map (nwseUpperVars n)

/-- The arrays of the first "SW -> NE" loop, in posting order. -/
def swneFirstAll (n : Nat) : List (List Var) :=
  (List.range (n - 1)).reverse.map (swneFirstVars n)

/-- The arrays of the second "SW -> NE" loop, in posting order. -/
def swneSecondAll (n : Nat) : List (List Var) :=
  (List.range n).map (swneSecondVars n)

/-- The constraint `atmost(home, xs, 1, 1)`. -/
def atmostOne (xs : List Var) : Constraint := Constraint.atmost xs 1 1

/-- The constraint `exactly(home, xs, 1, 1)`. -/
def exactlyOne (xs : List Var) : Constraint := Constraint.exactly xs 1 1

/-! ## Diagonals of the board, in the words of the specification -/

/-- The array `xs` ranges over exactly the board cells `m(c, r)` whose
coordinates have the difference `c - r = k`: every board variable in it is a
variable of `x`, none occurs twice, and a cell of the board is in it exactly
when its coordinates have that difference. -/
def CoversDiff (n : Nat) (k : Int) (xs : List Var) : Prop :=
  (∀ idx, Var.cell idx ∈ xs → idx < n * n) ∧
  (∀ idx, xs.count (Var.cell idx) ≤ 1) ∧
  (∀ c < n, ∀ r < n, (Var.cell (r * n + c) ∈ xs ↔ (c : Int) - (r : Int) = k))

/-- The array `xs` ranges over exactly the board cells `m(c, r)` whose
coordinates have the sum `c + r = t`, each once. -/
def CoversSum (n : Nat) (t : Nat) (xs : List Var) : Prop :=
  (∀ idx, Var.cell idx ∈ xs → idx < n * n) ∧
  (∀ idx, xs.count (Var.cell idx) ≤ 1) ∧
  (∀ c < n, ∀ r < n, (Var.cell (r * n + c) ∈ xs ↔ c + r = t))

/-! ## The printed grid, in the words of the specification -/

/-- A cell field: the value right-aligned to width 2, followed by two spaces. -/
def fieldText (v : Nat) : String :=
  String.mk (List.replicate (2 - (toString v).length) ' ') ++ toString v ++ "  "

/-- The grid of the specification: `n` newline-terminated lines, each made of
exactly `n` cell fields and nothing else; `shown i j` is the value displayed at
line `i`, field `j`. -/
def gridText (n : Nat) (shown : Nat → Nat → Nat) : String :=
  String.join ((List.range n).map (fun i =>
    String.join ((List.range n).map (fun j => fieldText (shown i j))) ++ "\n"))

/-! ## An explicit placement for every board of side at least 4 -/

/-- The column of the queen of row `r` in a placement that needs no search:
the rows of the upper half take the odd columns, those of the lower half the
even ones, with the classical rearrangement when `n % 6` is 2 or 3. -/
def queenCol (n r : Nat) : Nat :=
  if n % 6 = 2 then
    if r < n / 2 then 2 * r + 1
    else if r = n / 2 then 2
    else if r = n / 2 + 1 then 0
    else if r = n - 1 then 4
    else 2 * (r - n / 2) + 2
  else if n % 6 = 3 then
    if r + 1 < n / 2 then 2 * r + 3
    else if r + 1 = n / 2 then 1
    else if r = n - 2 then 0
    else if r = n - 1 then 2
    else 2 * (r - n / 2) + 4
  else
    if r < n / 2 then 2 * r + 1 else 2 * (r - n / 2)

/-- The assignment that puts the queen of row `r` on column `queenCol n r`. -/
def placement (n : Nat) : Assignment n :=
  fun k => decide (k.val % n = queenCol n (k.val / n))

/-! ## The printed grid with its tabs, and transposition -/

/-- A field for a variable whose stream output is `t`: `t` right-aligned to
width 2, followed by two spaces. -/
def fieldOf (t : String) : String :=
  String.mk (List.replicate (2 - t.length) ' ') ++ t ++ "  "

/-- The grid with a tab before each line: `n` newline-terminated lines, each a
tab followed by `n` cell fields; `shown i j` is the value displayed at line
`i`, field `j`. -/
def tabbedGridText (n : Nat) (shown : Nat → Nat → Nat) : String :=
  String.join ((List.range n).map (fun i => "\t"
    ++ String.join ((List.range n).map (fun j => fieldText (shown i j))) ++ "\n"))

/-- The transposed assignment: its cell of row `r` and column `c` holds the
value of the cell of row `c` and column `r`. -/
def Assignment.transpose {n : Nat} (a : Assignment n) : Assignment n :=
  fun k => decide (a.value ((k.val % n) * n + k.val / n) = 1)

/-- The 4-queens solution with queens at (row, column) = (0,1), (1,3), (2,0),
(3,2), the variables `x[1]`, `x[7]`, `x[8]`, `x[14]`. -/
def sample4 : Assignment 4 :=
  fun k => decide (k.val ∈ [1, 7, 8, 14])

/-- The (line, field) positions at which a grid of side `n` displays a 1. -/
def onesOf (n : Nat) (shown : Nat → Nat → Nat) : List (Nat × Nat) :=
  ((List.range n).map (fun i => ((List.range n).filter (fun j => shown i j == 1)).map
    (fun j => (i, j)))).flatten

/-! ## The 32-bit size arithmetic -/

theorem toUnsigned32_neg (v : Int) (hlo : -2147483648 ≤ v) (hv : v < 0) :
    (toUnsigned32 v : Int) = v + 4294967296 := by
  unfold toUnsigned32
  omega

theorem toUnsigned32_ofNat (u : Nat) (hu : u < 4294967296) : toUnsigned32 (u : Int) = u := by
  unfold toUnsigned32
  omega

theorem xCount32_exact (n : Nat) (h : n * n < 2147483648) : xCount32 n = ((n * n : Nat) : Int) := by
  have e : ((n : Int) * (n : Int)) = ((n * n : Nat) : Int) := by push_cast; ring
  unfold xCount32
  rw [e, toUnsigned32_ofNat _ (by omega)]
  simp [toInt32, h]

theorem swneFirstStart32_exact (n : Nat) (h : n ≤ 2147483649) :
    swneFirstStart32 n = (n : Int) - 2 := by
  unfold swneFirstStart32 toInt32 toUnsigned32
  split_ifs <;> omega

theorem mem_countUp (lo hi x : Int) : x ∈ countUp lo hi ↔ lo ≤ x ∧ x < hi := by
  simp only [countUp, List.mem_map, List.mem_range]
  constructor
  · rintro ⟨k, hk, rfl⟩; omega
  · rintro ⟨h1, h2⟩
    exact ⟨(x - lo).toNat, by omega, by omega⟩

theorem mem_countDown (hi lo x : Int) : x ∈ countDown hi lo ↔ lo ≤ x ∧ x ≤ hi := by
  simp only [countDown, List.mem_map, List.mem_range]
  constructor
  · rintro ⟨k, hk, rfl⟩; omega
  · rintro ⟨h1, h2⟩
    exact ⟨(hi - x).toNat, by omega, by omega⟩

theorem length_countDown (hi lo : Int) : (countDown hi lo).length = (hi + 1 - lo).toNat := by
  simp [countDown]

theorem sizeMinus32_exact (n : Nat) (i : Int) (hn : n < 4294967296) (h0 : 0 ≤ i)
    (hi : i ≤ n) : (sizeMinus32 n i : Int) = (n : Int) - i := by
  unfold sizeMinus32 toUnsigned32
  omega

theorem toInt32_ofNat (u : Nat) (hu : u < 2147483648) : toInt32 u = (u : Int) := by
  simp [toInt32, hu]

theorem toInt32_lt (u : Nat) (hu : u < 4294967296) : toInt32 u < 2147483648 := by
  unfold toInt32
  split_ifs <;> omega

theorem toUnsigned32_lt (z : Int) : toUnsigned32 z < 4294967296 := by
  unfold toUnsigned32
  omega

theorem xCount32_lt (n : Nat) : xCount32 n < 2147483648 :=
  toInt32_lt _ (toUnsigned32_lt _)

theorem int32_exact (z : Int) (h1 : -2147483648 ≤ z) (h2 : z ≤ 2147483647) :
    int32 z = some z := by
  simp [int32, h1, h2]

theorem forUp_exact {σ : Type} (lo : Int) (bound : Nat) (body : σ → Int → Option σ) (s : σ)
    (h : bound ≤ 2147483647) :
    forUp lo bound body s = (countUp lo bound).foldlM body s := by
  simp [forUp, h]

theorem forUp_large {σ : Type} (lo : Int) (bound : Nat) (body : σ → Int → Option σ) (s : σ)
    (h : 2147483647 < bound) : forUp lo bound body s = none := by
  have h2 : ¬ bound ≤ 2147483647 := by omega
  simp [forUp, h2]

theorem zeros_ofNat (s : Space) (n : Nat) :
    IntVarArgs.zeros s (n : Int)
      = some (List.replicate n Var.zero, { s with zeros := s.zeros + n }) := by
  simp [IntVarArgs.zeros]

theorem sizeMinus32_ofNat (n i : Nat) (hn : n < 4294967296) (hi : i ≤ n) :
    sizeMinus32 n (i : Int) = n - i := by
  have := sizeMinus32_exact n i hn (by omega) (by omega)
  omega

theorem lt_of_sq_lt (n : Nat) (h : n * n < 2147483648) : n < 2147483648 := by
  rcases Nat.eq_zero_or_pos n with h0 | h0
  · omega
  · have := Nat.le_mul_of_pos_left n h0
    omega

theorem toUnsigned32_cast (z : Int) : (toUnsigned32 z : Int) = z % 4294967296 := by
  unfold toUnsigned32
  omega
/-! ## The loops in closed form -/

theorem countUp_ofNat (a b : Nat) :
    countUp a b = (List.range' a (b - a)).map (fun k : Nat => (k : Int)) := by
  have h : ((b : Int) - a).toNat = b - a := by omega
  simp only [countUp, h, List.range'_eq_map_range, List.map_map]
  apply List.map_congr_left
  intro k _
  simp

theorem countDown_ofNat (a b : Nat) :
    countDown ((a : Int) - 1) b = (List.range' b (a - b)).reverse.map (fun k : Nat => (k : Int)) := by
  have h : ((a : Int) - 1 + 1 - b).toNat = a - b := by omega
  simp only [countDown, h, List.reverse_range', List.map_map]
  apply List.map_congr_left
  intro k hk
  have := List.mem_range.1 hk
  simp only [Function.comp]
  omega

theorem countDown_neg (hi lo : Int) (h : hi < lo) : countDown hi lo = [] := by
  have h0 : (hi + 1 - lo).toNat = 0 := by omega
  simp [countDown, h0]

theorem foldlM_store (g : Nat → Var) (body : List Var → Int → Option (List Var)) (len : Nat)
    (l : List Nat)
    (hbody : ∀ d : List Var, d.length = len → ∀ j ∈ l,
      body d (j : Int) = some (d.set j (g j))) :
    ∀ d : List Var, d.length = len →
      (l.map (fun k : Nat => (k : Int))).foldlM body d
        = some (l.foldl (fun d j => d.set j (g j)) d) := by
  induction l with
  | nil => intro d _; rfl
  | cons j l ih =>
    intro d hd
    have h1 := hbody d hd j (List.mem_cons_self _ _)
    have ih2 := ih (fun d hd k hk => hbody d hd k (List.mem_cons_of_mem _ hk))
      (d.set j (g j)) (by simpa using hd)
    simp only [List.map_cons, List.foldlM_cons, h1, List.foldl_cons]
    exact ih2

theorem foldl_set_getElem? (g : Nat → Var) (l : List Nat) :
    ∀ (d : List Var) (p : Nat),
      (l.foldl (fun d j => d.set j (g j)) d)[p]?
        = if p ∈ l ∧ p < d.length then some (g p) else d[p]? := by
  induction l with
  | nil => intro d p; simp
  | cons j l ih =>
    intro d p
    rw [List.foldl_cons, ih, List.length_set, List.getElem?_set]
    by_cases hp : p ∈ l
    · by_cases hlt : p < d.length
      · simp [hp, hlt]
      · have : d[p]? = none := by simp; omega
        simp [hp, hlt, this]
        intro h; omega
    · by_cases hj : j = p
      · subst hj
        by_cases hlt : j < d.length
        · simp [hp, hlt]
        · have : d[j]? = none := by simp; omega
          simp [hp, hlt, this]
      · have hj2 : ¬ p = j := fun h => hj h.symm
        simp [hp, hj, hj2]

theorem foldl_set_range (g : Nat → Var) (n k : Nat) (hk : k ≤ n) :
    (List.range k).foldl (fun d j => d.set j (g j)) (List.replicate n Var.zero)
      = (List.range k).map g ++ List.replicate (n - k) Var.zero := by
  apply List.ext_getElem?
  intro p
  rw [foldl_set_getElem?]
  by_cases hp : p < k
  · have hpn : p < n := by omega
    simp [List.getElem?_append_left, hp, hpn, List.getElem?_range]
  · have hp2 : k ≤ p := by omega
    rw [List.getElem?_append_right (by simpa using hp2)]
    simp [hp, List.getElem?_replicate]
    by_cases hpn : p < n
    · have : p - k < n - k := by omega
      simp [hpn, this]
    · have : ¬ p - k < n - k := by omega
      simp [hpn, this]

theorem foldl_set_range_down (g : Nat → Var) (n b : Nat) (hb : b ≤ n) :
    (List.range' b (n - b)).reverse.foldl (fun d j => d.set j (g j)) (List.replicate n Var.zero)
      = List.replicate b Var.zero ++ (List.range' b (n - b)).map g := by
  apply List.ext_getElem?
  intro p
  rw [foldl_set_getElem?]
  by_cases hp : p < b
  · have hpn : p < n := by omega
    rw [List.getElem?_append_left (by simpa using hp)]
    have : ¬ (b ≤ p) := by omega
    simp [List.mem_range', List.getElem?_replicate, hp, hpn, this]
    intro x _ hx; omega
  · have hp2 : b ≤ p := by omega
    rw [List.getElem?_append_right (by simpa using hp2)]
    simp only [List.mem_reverse, List.mem_range'_1, List.length_replicate, List.getElem?_replicate,
      List.getElem?_map]
    by_cases hpn : p < n
    · have h1 : p < b + (n - b) := by omega
      have h2 : p - b < n - b := by omega
      simp [hp2, hpn, h1, List.getElem?_range', h2]
    · have h1 : ¬ p < b + (n - b) := by omega
      have h2 : ¬ p - b < n - b := by omega
      have h3 : (List.range' b (n - b))[p - b]? = none := by simp; omega
      simp [hpn, h1, h2, h3]

theorem index_lt (n r c : Nat) (hr : r < n) (hc : c < n) : r * n + c < n * n := by
  have h1 : (r + 1) * n ≤ n * n := Nat.mul_le_mul_right n (by omega)
  have h2 : (r + 1) * n = r * n + n := Nat.succ_mul r n
  omega

theorem index_ofNat (n c r : Nat) (hc : c < n) (hr : r < n) :
    (Matrix.mk (n * n) n n).index c r = some (r * n + c) := by
  have e : ((r:Int) * n + c) = ((r * n + c : Nat) : Int) := by push_cast; ring
  have h : (0:Int) ≤ c ∧ (c:Int) < n ∧ (0:Int) ≤ r ∧ (r:Int) < n ∧
      (r:Int) * n + c < ((n * n : Nat) : Int) := by
    refine ⟨by omega, by omega, by omega, by omega, ?_⟩
    rw [e]
    exact_mod_cast index_lt n r c hr hc
  have h2 : ((r:Int) * n + c).toNat = r * n + c := by
    rw [e, Int.toNat_ofNat]
  simp only [Matrix.index, h, and_self, if_true, h2]

theorem get_ofNat (n c r : Nat) (hc : c < n) (hr : r < n) :
    (Matrix.mk (n * n) n n).get c r = some (Var.cell (r * n + c)) := by
  simp [Matrix.get, index_ofNat n c r hc hr]

theorem store_ofNat (d : List Var) (j : Nat) (v : Var) (hj : j < d.length) :
    IntVarArgs.store d j v = some (d.set j v) := by
  have h : (0:Int) ≤ j ∧ (j:Int) < d.length := by omega
  simp [IntVarArgs.store, h]

theorem fill_up (n k : Nat) (hk : k ≤ n) (body : List Var → Int → Option (List Var))
    (g : Nat → Var)
    (hbody : ∀ d : List Var, d.length = n → ∀ j : Nat, j < k →
      body d (j : Int) = some (d.set j (g j))) :
    (countUp 0 (k : Int)).foldlM body (List.replicate n Var.zero)
      = some ((List.range k).map g ++ List.replicate (n - k) Var.zero) := by
  have h0 : countUp 0 (k : Int) = (List.range k).map (fun j : Nat => (j : Int)) := by
    have := countUp_ofNat 0 k
    simpa [List.range_eq_range'] using this
  rw [h0, foldlM_store g _ n (List.range k) _ _ (by simp), foldl_set_range g n k hk]
  intro d hd j hj
  exact hbody d hd j (List.mem_range.1 hj)

theorem fill_down (n b : Nat) (hb : b ≤ n) (body : List Var → Int → Option (List Var))
    (g : Nat → Var)
    (hbody : ∀ d : List Var, d.length = n → ∀ j : Nat, b ≤ j → j < n →
      body d (j : Int) = some (d.set j (g j))) :
    (countDown ((n : Int) - 1) (b : Int)).foldlM body (List.replicate n Var.zero)
      = some (List.replicate b Var.zero ++ (List.range' b (n - b)).map g) := by
  rw [countDown_ofNat, foldlM_store g _ n (List.range' b (n - b)).reverse _ _ (by simp),
    foldl_set_range_down g n b hb]
  intro d hd j hj
  have hj2 : b ≤ j ∧ j < n := by
    have := List.mem_range'_1.1 (List.mem_reverse.1 hj)
    omega
  exact hbody d hd j hj2.1 hj2.2

theorem mapM_ofNat (f : Int → Option Var) (g : Nat → Var) (l : List Nat)
    (hf : ∀ j ∈ l, f (j : Int) = some (g j)) :
    (l.map (fun k : Nat => (k : Int))).mapM f = some (l.map g) := by
  induction l with
  | nil => rfl
  | cons j l ih =>
    have h1 := hf j (List.mem_cons_self _ _)
    have h2 := ih (fun k hk => hf k (List.mem_cons_of_mem _ hk))
    simp only [List.map_cons, List.mapM_cons, h1, h2]
    rfl

theorem foldlM_post (body : Space → Int → Option Space) (c : Nat → Constraint) (z : Nat)
    (l : List Nat)
    (hbody : ∀ (s : Space), ∀ i ∈ l, body s (i : Int)
      = some { s with zeros := s.zeros + z, constraints := s.constraints ++ [c i] }) :
    ∀ s : Space, (l.map (fun k : Nat => (k : Int))).foldlM body s
      = some { s with zeros := s.zeros + z * l.length,
                      constraints := s.constraints ++ l.map c } := by
  induction l with
  | nil => intro s; simp
  | cons i l ih =>
    intro s
    have h1 := hbody s i (List.mem_cons_self _ _)
    have h2 := ih (fun s k hk => hbody s k (List.mem_cons_of_mem _ hk))
      { s with zeros := s.zeros + z, constraints := s.constraints ++ [c i] }
    simp only [List.map_cons, List.foldlM_cons, h1]
    refine h2.trans ?_
    simp only [List.length_cons, List.append_assoc, List.singleton_append]
    congr 2
    ring

theorem countUp_zero (n : Nat) :
    countUp 0 (n : Int) = (List.range n).map (fun j : Nat => (j : Int)) := by
  have := countUp_ofNat 0 n
  simpa [List.range_eq_range'] using this

theorem row_ofNat (n r : Nat) (hr : r < n) : (Matrix.mk (n * n) n n).row r = some (rowVars n r) := by
  have h1 : (r : Int) + 1 ≤ (n : Int) := by omega
  simp only [Matrix.row, h1, if_true, countUp_zero, rowVars]
  apply mapM_ofNat
  intro c hc
  exact get_ofNat n c r (List.mem_range.1 hc) hr

theorem col_ofNat (n c : Nat) (hc : c < n) : (Matrix.mk (n * n) n n).col c = some (colVars n c) := by
  have h1 : (c : Int) + 1 ≤ (n : Int) := by omega
  simp only [Matrix.col, h1, if_true, countUp_zero, colVars]
  apply mapM_ofNat
  intro r hr
  exact get_ofNat n c r hc (List.mem_range.1 hr)

theorem postRows_eq (n : Nat) (hn : n < 2147483648) (s : Space) :
    postRows (Matrix.mk (n * n) n n) n s
      = some { s with constraints := s.constraints ++ (List.range n).map (fun i => exactlyOne (rowVars n i)) } := by
  unfold postRows
  rw [forUp_exact _ _ _ _ (by omega), countUp_zero,
    foldlM_post _ (fun i => exactlyOne (rowVars n i)) 0 (List.range n)]
  · simp
  · intro s i hi
    simp [row_ofNat n i (List.mem_range.1 hi), Space.post, exactlyOne]

theorem postCols_eq (n : Nat) (hn : n < 2147483648) (s : Space) :
    postCols (Matrix.mk (n * n) n n) n s
      = some { s with constraints := s.constraints ++ (List.range n).map (fun i => exactlyOne (colVars n i)) } := by
  unfold postCols
  rw [forUp_exact _ _ _ _ (by omega), countUp_zero,
    foldlM_post _ (fun i => exactlyOne (colVars n i)) 0 (List.range n)]
  · simp
  · intro s i hi
    simp [col_ofNat n i (List.mem_range.1 hi), Space.post, exactlyOne]

theorem postNWSELower_eq (n : Nat) (hn : n < 2147483648) (s : Space) :
    postNWSELower (Matrix.mk (n * n) n n) n s
      = some { s with zeros := s.zeros + n * n,
                      constraints := s.constraints ++ (nwseLowerAll n).map atmostOne } := by
  unfold postNWSELower
  rw [forUp_exact _ _ _ _ (by omega), countUp_zero,
    foldlM_post _ (fun i => atmostOne (nwseLowerVars n i)) n (List.range n)]
  · simp [nwseLowerAll]
  · intro s i hi
    have hi2 : i < n := List.mem_range.1 hi
    have h1 : sizeMinus32 n (i : Int) = n - i := sizeMinus32_ofNat n i (by omega) (by omega)
    have h2 := fill_up n (n - i) (by omega)
      (fun d1y j => do
        let c ← int32 (i + j)
        let v ← (Matrix.mk (n * n) n n).get c j
        IntVarArgs.store d1y j v)
      (fun j => Var.cell (j * n + (i + j))) (by
        intro d hd j hj
        have hg := get_ofNat n (i + j) j (by omega) (by omega)
        have hc : int32 ((i : Int) + (j : Int)) = some (((i + j : Nat) : Int)) := by
          rw [int32_exact _ (by omega) (by omega)]; simp
        simp only [hc, hg, Option.bind_eq_bind, Option.some_bind]
        exact store_ofNat d j _ (by omega))
    have h3 : n - (n - i) = i := by omega
    simp only [toInt32_ofNat n hn, zeros_ofNat, h1, forUp_exact _ _ _ _ (show n - i ≤ 2147483647 by omega),
      Option.bind_eq_bind, Option.some_bind]
    simp only [Option.bind_eq_bind] at h2
    rw [h2]
    simp [Space.post, atmostOne, nwseLowerVars, h3]

theorem postNWSEUpper_eq (n : Nat) (hn : n < 2147483648) (s : Space) :
    postNWSEUpper (Matrix.mk (n * n) n n) n s
      = some { s with zeros := s.zeros + n * (n - 1),
                      constraints := s.constraints ++ (nwseUpperAll n).map atmostOne } := by
  unfold postNWSEUpper
  have hc : countUp 1 (n : Int) = (List.range' 1 (n - 1)).map (fun j : Nat => (j : Int)) := by
    have := countUp_ofNat 1 n
    simpa using this
  rw [forUp_exact _ _ _ _ (by omega), hc,
    foldlM_post _ (fun i => atmostOne (nwseUpperVars n i)) n (List.range' 1 (n - 1))]
  · simp [nwseUpperAll]
  · intro s i hi
    have hi2 : 1 ≤ i ∧ i < n := by
      have := List.mem_range'_1.1 hi
      omega
    have h1 : sizeMinus32 n (i : Int) = n - i := sizeMinus32_ofNat n i (by omega) (by omega)
    have h2 := fill_up n (n - i) (by omega)
      (fun d1y j => do
        let r ← int32 (j + i)
        let v ← (Matrix.mk (n * n) n n).get j r
        IntVarArgs.store d1y j v)
      (fun j => Var.cell ((j + i) * n + j)) (by
        intro d hd j hj
        have hg := get_ofNat n j (j + i) (by omega) (by omega)
        have hc : int32 ((j : Int) + (i : Int)) = some (((j + i : Nat) : Int)) := by
          rw [int32_exact _ (by omega) (by omega)]; simp
        simp only [hc, hg, Option.bind_eq_bind, Option.some_bind]
        exact store_ofNat d j _ (by omega))
    have h3 : n - (n - i) = i := by omega
    simp only [toInt32_ofNat n hn, zeros_ofNat, h1, forUp_exact _ _ _ _ (show n - i ≤ 2147483647 by omega),
      Option.bind_eq_bind, Option.some_bind]
    simp only [Option.bind_eq_bind] at h2
    rw [h2]
    simp [Space.post, atmostOne, nwseUpperVars, h3]

theorem swneFirstStart32_ofNat (n : Nat) (hn : n < 2147483648) :
    swneFirstStart32 n = (n : Int) - 2 :=
  swneFirstStart32_exact n (by omega)

theorem postSWNEFirst_eq (n : Nat) (hn : n < 2147483648) (s : Space) :
    postSWNEFirst (Matrix.mk (n * n) n n) n s
      = some { s with zeros := s.zeros + n * (n - 1),
                      constraints := s.constraints ++ (swneFirstAll n).map atmostOne } := by
  unfold postSWNEFirst
  have hc : countDown ((n : Int) - 2) 0
      = (List.range (n - 1)).reverse.map (fun j : Nat => (j : Int)) := by
    rcases Nat.eq_zero_or_pos n with h0 | hpos
    · subst h0
      simp [countDown_neg]
    · have h1 : ((n : Int) - 2) = (((n - 1 : Nat) : Int) - 1) := by omega
      have := countDown_ofNat (n - 1) 0
      rw [h1]
      simpa [List.range_eq_range'] using this
  rw [swneFirstStart32_ofNat n hn, hc,
    foldlM_post _ (fun i => atmostOne (swneFirstVars n i)) n (List.range (n - 1)).reverse]
  · simp [swneFirstAll]
  · intro s i hi
    have hi2 : i + 1 < n := by
      have := List.mem_range.1 (List.mem_reverse.1 hi)
      omega
    have h1 : int32 ((i : Int) + 1) = some (((i + 1 : Nat) : Int)) := by
      rw [int32_exact _ (by omega) (by omega)]; simp
    have h2 := fill_up n (i + 1) (by omega)
      (fun d1y j => do
        let c ← int32 (i - j)
        let v ← (Matrix.mk (n * n) n n).get c j
        IntVarArgs.store d1y j v)
      (fun j => Var.cell (j * n + (i - j))) (by
        intro d hd j hj
        have hg := get_ofNat n (i - j) j (by omega) (by omega)
        have hc : int32 ((i : Int) - (j : Int)) = some (((i - j : Nat) : Int)) := by
          have e : (i : Int) - (j : Int) = ((i - j : Nat) : Int) := by omega
          rw [e, int32_exact _ (by omega) (by omega)]
        simp only [hc, hg, Option.bind_eq_bind, Option.some_bind]
        exact store_ofNat d j _ (by omega))
    simp only [toInt32_ofNat n hn, zeros_ofNat, h1, Option.bind_eq_bind, Option.some_bind]
    simp only [Option.bind_eq_bind] at h2
    rw [h2]
    simp [Space.post, atmostOne, swneFirstVars]

theorem postSWNESecond_eq (n : Nat) (hn : n < 2147483648) (s : Space) :
    postSWNESecond (Matrix.mk (n * n) n n) n s
      = some { s with zeros := s.zeros + n * n,
                      constraints := s.constraints ++ (swneSecondAll n).map atmostOne } := by
  unfold postSWNESecond
  rw [forUp_exact _ _ _ _ (by omega), countUp_zero,
    foldlM_post _ (fun i => atmostOne (swneSecondVars n i)) n (List.range n)]
  · simp [swneSecondAll]
  · intro s i hi
    have hi2 : i < n := List.mem_range.1 hi
    have h1 : toInt32 (toUnsigned32 ((n : Int) - 1)) = (n : Int) - 1 := by
      unfold toInt32 toUnsigned32
      split_ifs <;> omega
    have h2 := fill_down n i (by omega)
      (fun d1y j => do
        let v ← (Matrix.mk (n * n) n n).get (toInt32 (toUnsigned32 (i + (n : Int) - 1 - j))) j
        IntVarArgs.store d1y j v)
      (fun j => Var.cell (j * n + (i + n - 1 - j))) (by
        intro d hd j hj1 hj2
        have hg := get_ofNat n (i + n - 1 - j) j (by omega) (by omega)
        have hc : toInt32 (toUnsigned32 ((i : Int) + (n : Int) - 1 - (j : Int)))
            = (((i + n - 1 - j : Nat) : Int)) := by
          unfold toInt32 toUnsigned32
          split_ifs <;> omega
        simp only [hc, hg, Option.bind_eq_bind, Option.some_bind]
        exact store_ofNat d j _ (by omega))
    simp only [toInt32_ofNat n hn, zeros_ofNat, h1, Option.bind_eq_bind, Option.some_bind]
    simp only [Option.bind_eq_bind] at h2
    rw [h2]
    simp [Space.post, atmostOne, swneSecondVars]

theorem allocateX_exact (n : Nat) (hb : n * n < 2147483648) :
    allocateX n = some (Space.init (n * n)) := by
  unfold allocateX IntVarArray.create
  rw [xCount32_exact n hb, if_pos (by omega), Int.toNat_ofNat]

theorem view_ofNat (n : Nat) : Matrix.view (n * n) n n = some (Matrix.mk (n * n) n n) := by
  unfold Matrix.view
  rw [if_pos]
  push_cast
  ring

/-- The state in which the diagonal loops start. -/
theorem beforeDiagonals_eq (n : Nat) (hb : n * n < 2147483648) :
    beforeDiagonals n = some (Matrix.mk (n * n) n n,
      { xSize := n * n
        zeros := n
        constraints :=
          (List.range n).map (fun i => exactlyOne (rowVars n i))
            ++ (List.range n).map (fun i => exactlyOne (colVars n i))
        branchers := [] }) := by
  have hn := lt_of_sq_lt n hb
  simp [beforeDiagonals, allocateX_exact n hb, Space.init, toInt32_ofNat n hn, view_ofNat,
    postRows_eq n hn, postCols_eq n hn, zeros_ofNat]

/-- The constraints of the constructed space, in posting order. -/
theorem construct_eq (n : Nat) (hb : n * n < 2147483648) :
    construct n = some
      { xSize := n * n
        zeros := n + n * n + n * (n - 1) + n * (n - 1) + n * n
        constraints :=
          (List.range n).map (fun i => exactlyOne (rowVars n i))
            ++ (List.range n).map (fun i => exactlyOne (colVars n i))
            ++ (nwseLowerAll n).map atmostOne ++ (nwseUpperAll n).map atmostOne
            ++ (swneFirstAll n).map atmostOne ++ (swneSecondAll n).map atmostOne
        branchers :=
          [{ xs := (List.range (n * n)).map Var.cell,
             vars := IntVarBranch.rnd { seed := 1 }, vals := IntValBranch.rnd { seed := 1 } }] } := by
  have hn := lt_of_sq_lt n hb
  simp [construct, beforeDiagonals_eq n hb,
    postNWSELower_eq n hn, postNWSEUpper_eq n hn, postSWNEFirst_eq n hn, postSWNESecond_eq n hn,
    postBranching, Space.branch, Space.x]

theorem foldlM_none_of_mem {σ : Type} (body : σ → Int → Option σ) (i : Int)
    (h : ∀ s, body s i = none) :
    ∀ (l : List Int), i ∈ l → ∀ s, l.foldlM body s = none := by
  intro l
  induction l with
  | nil => intro hi; cases hi
  | cons a l ih =>
    intro hi s
    rw [List.foldlM_cons]
    rcases List.mem_cons.1 hi with rfl | hmem
    · rw [h s]
      rfl
    · cases hb : body s a with
      | none => rfl
      | some s' => exact ih hmem s'

theorem mapM_none_of_mem (f : Int → Option Var) (c : Int) (h : f c = none) :
    ∀ (l : List Int), c ∈ l → l.mapM f = none := by
  intro l
  induction l with
  | nil => intro hc; cases hc
  | cons a l ih =>
    intro hc
    rw [List.mapM_cons]
    rcases List.mem_cons.1 hc with rfl | hmem
    · rw [h]
      rfl
    · rw [ih hmem]
      cases f a <;> rfl

/-- A row loop over an array that is too short for the view fails: the
element at the position `size` of the array is missing. -/
theorem postRows_short (n k : Nat) (hn : n ≤ 2147483647) (hk : k < n * n) (s : Space) :
    postRows (Matrix.mk k n n) n s = none := by
  have hpos : 0 < n := by
    rcases Nat.eq_zero_or_pos n with h0 | h0
    · subst h0; omega
    · exact h0
  obtain ⟨r, c, hr, hc, hidx⟩ : ∃ r c : Nat, r < n ∧ c < n ∧ r * n + c = k := by
    refine ⟨k / n, k % n, ?_, Nat.mod_lt _ hpos, ?_⟩
    · rw [Nat.div_lt_iff_lt_mul hpos]
      exact hk
    · rw [Nat.mul_comm]
      exact Nat.div_add_mod k n
  unfold postRows
  rw [forUp_exact _ _ _ _ hn]
  apply foldlM_none_of_mem _ (r : Int)
  · intro s'
    have hrow : (Matrix.mk k n n).row (r : Int) = none := by
      have h1 : (r : Int) + 1 ≤ (n : Int) := by omega
      simp only [Matrix.row, h1, if_true]
      apply mapM_none_of_mem _ (c : Int)
      · have e : (r : Int) * (n : Int) + (c : Int) = (k : Int) := by
          exact_mod_cast hidx
        have hno : ¬ ((r : Int) * (n : Int) + (c : Int) < (k : Int)) := by
          rw [e]; omega
        simp only [Matrix.get, Matrix.index, hno, and_false, if_false, Option.map_none']
      · rw [mem_countUp]
        omega
    simp only [hrow, Option.bind_eq_bind, Option.none_bind]
  · rw [mem_countUp]
    omega

/-- The constructor reaches the diagonal loops only for a size whose square
fits an `int`. -/
theorem beforeDiagonals_bound (n : Nat) (m : Matrix) (s : Space)
    (h : beforeDiagonals n = some (m, s)) : n * n < 2147483648 := by
  by_contra hb
  have hnone : beforeDiagonals n = none := by
    unfold beforeDiagonals
    cases hx : allocateX n with
    | none => rfl
    | some x =>
      have hx2 : 0 ≤ xCount32 n ∧ x = Space.init (xCount32 n).toNat := by
        unfold allocateX IntVarArray.create at hx
        split_ifs at hx with h0
        cases hx
        exact ⟨h0, rfl⟩
      cases hv : Matrix.view x.xSize (toInt32 n) (toInt32 n) with
      | none => simp [hv]
      | some m =>
        by_cases hlarge : 2147483647 < n
        · simp [postRows, forUp_large _ _ _ _ hlarge]
        · have hn : n < 2147483648 := by omega
          have hv2 := hv
          rw [toInt32_ofNat n hn] at hv2
          unfold Matrix.view at hv2
          split_ifs at hv2 with hp
          have hm : m = Matrix.mk x.xSize n n := (Option.some.inj hv2).symm
          have hlt := xCount32_lt n
          have hk : x.xSize < n * n := by
            rw [hx2.2]
            simp only [Space.init]
            omega
          simp [hv, hm, postRows_short n x.xSize (by omega) hk]
  rw [hnone] at h
  cases h

theorem construct_bound (n : Nat) (s : Space) (h : construct n = some s) :
    n * n < 2147483648 := by
  cases hb : beforeDiagonals n with
  | none => simp [construct, hb] at h
  | some p => exact beforeDiagonals_bound n p.1 p.2 hb

theorem construct_large (n : Nat) (h : 2147483648 ≤ n * n) : construct n = none := by
  cases hc : construct n with
  | none => rfl
  | some s =>
    have := construct_bound n s hc
    omega
/-! ## What the posted constraints mean -/

theorem filter_length_le_one {α : Type} (p : α → Bool) (l : List α) (hl : l.Nodup) :
    (l.filter p).length ≤ 1 ↔ ∀ x ∈ l, ∀ y ∈ l, p x = true → p y = true → x = y := by
  induction l with
  | nil => simp
  | cons a l ih =>
    have hnd := List.nodup_cons.1 hl
    have ih2 := ih hnd.2
    by_cases hpa : p a = true
    · rw [List.filter_cons_of_pos hpa]
      constructor
      · intro h x hx y hy hpx hpy
        have hnil : l.filter p = [] := by
          have : (l.filter p).length = 0 := by simp at h; simpa using h
          exact List.eq_nil_of_length_eq_zero this
        have hno : ∀ z ∈ l, ¬ p z = true := by
          intro z hz hpz
          have : z ∈ l.filter p := List.mem_filter.2 ⟨hz, hpz⟩
          rw [hnil] at this
          exact absurd this (List.not_mem_nil _)
        rcases List.mem_cons.1 hx with rfl | hx2
        · rcases List.mem_cons.1 hy with rfl | hy2
          · rfl
          · exact absurd hpy (hno y hy2)
        · exact absurd hpx (hno x hx2)
      · intro h
        have hnil : l.filter p = [] := by
          apply List.eq_nil_iff_forall_not_mem.2
          intro z hz
          have hz2 := List.mem_filter.1 hz
          have := h a (List.mem_cons_self _ _) z (List.mem_cons_of_mem _ hz2.1) hpa hz2.2
          exact hnd.1 (this ▸ hz2.1)
        simp [hnil]
    · rw [List.filter_cons_of_neg hpa, ih2]
      constructor
      · intro h x hx y hy hpx hpy
        rcases List.mem_cons.1 hx with rfl | hx2
        · exact absurd hpx hpa
        · rcases List.mem_cons.1 hy with rfl | hy2
          · exact absurd hpy hpa
          · exact h x hx2 y hy2 hpx hpy
      · intro h x hx y hy hpx hpy
        exact h x (List.mem_cons_of_mem _ hx) y (List.mem_cons_of_mem _ hy) hpx hpy

theorem filter_length_eq_one {α : Type} (p : α → Bool) (l : List α) (hl : l.Nodup) :
    (l.filter p).length = 1 ↔
      (∃ x ∈ l, p x = true) ∧ ∀ x ∈ l, ∀ y ∈ l, p x = true → p y = true → x = y := by
  rw [← filter_length_le_one p l hl]
  constructor
  · intro h
    refine ⟨?_, by omega⟩
    have hpos : 0 < (l.filter p).length := by omega
    obtain ⟨x, hx⟩ := List.exists_mem_of_length_pos hpos
    exact ⟨x, (List.mem_filter.1 hx).1, (List.mem_filter.1 hx).2⟩
  · rintro ⟨⟨x, hx, hpx⟩, h⟩
    have : 0 < (l.filter p).length := List.length_pos_of_mem (List.mem_filter.2 ⟨hx, hpx⟩)
    omega

theorem count_append {n : Nat} (a : Assignment n) (xs ys : List Var) (v : Nat) :
    count a (xs ++ ys) v = count a xs v + count a ys v := by
  simp [count]

theorem count_zeros {n : Nat} (a : Assignment n) (k : Nat) :
    count a (List.replicate k Var.zero) 1 = 0 := by
  simp [count, List.countP_replicate, Var.value]

theorem count_cells {n : Nat} (a : Assignment n) (f : Nat → Nat) (l : List Nat) :
    count a (l.map (fun j => Var.cell (f j))) 1
      = (l.filter (fun j => a.value (f j) == 1)).length := by
  rw [count, List.countP_map, List.countP_eq_length_filter]
  rfl

theorem atmost_cells_left {n : Nat} (a : Assignment n) (f : Nat → Nat) (l : List Nat)
    (hl : l.Nodup) (k : Nat) :
    (atmostOne (l.map (fun j => Var.cell (f j)) ++ List.replicate k Var.zero)).holds a ↔
      ∀ x ∈ l, ∀ y ∈ l, a.value (f x) = 1 → a.value (f y) = 1 → x = y := by
  simp only [atmostOne, Constraint.holds, count_append, count_zeros, count_cells, Nat.add_zero]
  rw [filter_length_le_one _ l hl]
  simp only [beq_iff_eq]

theorem atmost_cells_right {n : Nat} (a : Assignment n) (f : Nat → Nat) (l : List Nat)
    (hl : l.Nodup) (k : Nat) :
    (atmostOne (List.replicate k Var.zero ++ l.map (fun j => Var.cell (f j)))).holds a ↔
      ∀ x ∈ l, ∀ y ∈ l, a.value (f x) = 1 → a.value (f y) = 1 → x = y := by
  simp only [atmostOne, Constraint.holds, count_append, count_zeros, count_cells, Nat.zero_add]
  rw [filter_length_le_one _ l hl]
  simp only [beq_iff_eq]

theorem nwseLower_holds {n : Nat} (a : Assignment n) (i : Nat) :
    (atmostOne (nwseLowerVars n i)).holds a ↔
      ∀ j₁ < n - i, ∀ j₂ < n - i, a.cell j₁ (i + j₁) = 1 → a.cell j₂ (i + j₂) = 1 → j₁ = j₂ := by
  unfold nwseLowerVars
  rw [atmost_cells_left a (fun j => j * n + (i + j)) _ (List.nodup_range _)]
  simp only [List.mem_range, Assignment.cell]

theorem nwseUpper_holds {n : Nat} (a : Assignment n) (i : Nat) :
    (atmostOne (nwseUpperVars n i)).holds a ↔
      ∀ j₁ < n - i, ∀ j₂ < n - i, a.cell (j₁ + i) j₁ = 1 → a.cell (j₂ + i) j₂ = 1 → j₁ = j₂ := by
  unfold nwseUpperVars
  rw [atmost_cells_left a (fun j => (j + i) * n + j) _ (List.nodup_range _)]
  simp only [List.mem_range, Assignment.cell]

theorem swneFirst_holds {n : Nat} (a : Assignment n) (i : Nat) :
    (atmostOne (swneFirstVars n i)).holds a ↔
      ∀ j₁ < i + 1, ∀ j₂ < i + 1, a.cell j₁ (i - j₁) = 1 → a.cell j₂ (i - j₂) = 1 → j₁ = j₂ := by
  unfold swneFirstVars
  rw [atmost_cells_left a (fun j => j * n + (i - j)) _ (List.nodup_range _)]
  simp only [List.mem_range, Assignment.cell]

theorem swneSecond_holds {n : Nat} (a : Assignment n) (i : Nat) :
    (atmostOne (swneSecondVars n i)).holds a ↔
      ∀ j₁, i ≤ j₁ ∧ j₁ < i + (n - i) → ∀ j₂, i ≤ j₂ ∧ j₂ < i + (n - i) →
        a.cell j₁ (i + n - 1 - j₁) = 1 → a.cell j₂ (i + n - 1 - j₂) = 1 → j₁ = j₂ := by
  unfold swneSecondVars
  rw [atmost_cells_right a (fun j => j * n + (i + n - 1 - j)) _ (List.nodup_range' _ _)]
  simp only [List.mem_range'_1, Assignment.cell]

theorem row_holds {n : Nat} (a : Assignment n) (i : Nat) :
    (exactlyOne (rowVars n i)).holds a ↔
      ((List.range n).filter (fun c => a.cell i c == 1)).length = 1 := by
  simp only [exactlyOne, Constraint.holds, rowVars, count_cells, Assignment.cell]

theorem col_holds {n : Nat} (a : Assignment n) (i : Nat) :
    (exactlyOne (colVars n i)).holds a ↔
      ((List.range n).filter (fun r => a.cell r i == 1)).length = 1 := by
  simp only [exactlyOne, Constraint.holds, colVars, count_cells, Assignment.cell]

/-- The two "NW -> SE" loops together say: no two 1s share a value of `row - col`. -/
theorem nwse_holds_iff {n : Nat} (a : Assignment n) :
    (∀ d ∈ nwseLowerAll n ++ nwseUpperAll n, (atmostOne d).holds a) ↔
      ∀ r₁ < n, ∀ c₁ < n, ∀ r₂ < n, ∀ c₂ < n, a.cell r₁ c₁ = 1 → a.cell r₂ c₂ = 1 →
        (r₁ : Int) - c₁ = (r₂ : Int) - c₂ → r₁ = r₂ ∧ c₁ = c₂ := by
  simp only [List.forall_mem_append, nwseLowerAll, nwseUpperAll, List.forall_mem_map,
    List.mem_range, List.mem_range'_1, nwseLower_holds, nwseUpper_holds]
  constructor
  · rintro ⟨hL, hU⟩ r₁ hr₁ c₁ hc₁ r₂ hr₂ c₂ hc₂ h₁ h₂ hd
    by_cases hcase : r₁ ≤ c₁
    · have e1 : (c₁ - r₁) + r₁ = c₁ := by omega
      have e2 : (c₁ - r₁) + r₂ = c₂ := by omega
      have := hL (c₁ - r₁) (by omega) r₁ (by omega) r₂ (by omega)
        (by rw [e1]; exact h₁) (by rw [e2]; exact h₂)
      omega
    · have e1 : c₁ + (r₁ - c₁) = r₁ := by omega
      have e2 : c₂ + (r₁ - c₁) = r₂ := by omega
      have := hU (r₁ - c₁) (by omega) c₁ (by omega) c₂ (by omega)
        (by rw [e1]; exact h₁) (by rw [e2]; exact h₂)
      omega
  · intro h
    constructor
    · intro i hi j₁ hj₁ j₂ hj₂ h₁ h₂
      have := h j₁ (by omega) (i + j₁) (by omega) j₂ (by omega) (i + j₂) (by omega) h₁ h₂
        (by push_cast; ring)
      exact this.1
    · intro i hi j₁ hj₁ j₂ hj₂ h₁ h₂
      have := h (j₁ + i) (by omega) j₁ (by omega) (j₂ + i) (by omega) j₂ (by omega) h₁ h₂
        (by push_cast; ring)
      exact this.2

/-- The two "SW -> NE" loops together say: no two 1s share a value of `row + col`. -/
theorem swne_holds_iff {n : Nat} (a : Assignment n) :
    (∀ d ∈ swneFirstAll n ++ swneSecondAll n, (atmostOne d).holds a) ↔
      ∀ r₁ < n, ∀ c₁ < n, ∀ r₂ < n, ∀ c₂ < n, a.cell r₁ c₁ = 1 → a.cell r₂ c₂ = 1 →
        r₁ + c₁ = r₂ + c₂ → r₁ = r₂ ∧ c₁ = c₂ := by
  simp only [List.forall_mem_append, swneFirstAll, swneSecondAll, List.forall_mem_map,
    List.mem_range, List.mem_reverse, swneFirst_holds, swneSecond_holds]
  constructor
  · rintro ⟨hF, hS⟩ r₁ hr₁ c₁ hc₁ r₂ hr₂ c₂ hc₂ h₁ h₂ hd
    by_cases hcase : r₁ + c₁ + 1 < n
    · have e1 : (r₁ + c₁) - r₁ = c₁ := by omega
      have e2 : (r₁ + c₁) - r₂ = c₂ := by omega
      have := hF (r₁ + c₁) (by omega) r₁ (by omega) r₂ (by omega)
        (by rw [e1]; exact h₁) (by rw [e2]; exact h₂)
      omega
    · have e1 : (r₁ + c₁ + 1 - n) + n - 1 - r₁ = c₁ := by omega
      have e2 : (r₁ + c₁ + 1 - n) + n - 1 - r₂ = c₂ := by omega
      have := hS (r₁ + c₁ + 1 - n) (by omega) r₁ (by omega) r₂ (by omega)
        (by rw [e1]; exact h₁) (by rw [e2]; exact h₂)
      omega
  · intro h
    constructor
    · intro i hi j₁ hj₁ j₂ hj₂ h₁ h₂
      have := h j₁ (by omega) (i - j₁) (by omega) j₂ (by omega) (i - j₂) (by omega) h₁ h₂
        (by omega)
      exact this.1
    · intro i hi j₁ hj₁ j₂ hj₂ h₁ h₂
      have := h j₁ (by omega) (i + n - 1 - j₁) (by omega) j₂ (by omega) (i + n - 1 - j₂)
        (by omega) h₁ h₂ (by omega)
      exact this.1

/-- The solutions of the constructed space are the valid placements. -/
theorem solvedBy_iff_valid (n : Nat) (a : Assignment n) (s : Space) (hs : construct n = some s) :
    s.solvedBy a ↔ ValidPlacement n a := by
  rw [construct_eq n (construct_bound n s hs)] at hs
  have hs2 := (Option.some.inj hs).symm
  subst hs2
  have hD := nwse_holds_iff a
  have hA := swne_holds_iff a
  simp only [List.forall_mem_append] at hD hA
  simp only [Space.solvedBy, ValidPlacement, List.forall_mem_append, List.forall_mem_map,
    List.mem_range, row_holds, col_holds, true_and, and_assoc, hD, hA]

/-! ## The cells each diagonal array ranges over -/

theorem cell_index_inj (n r c r' c' : Nat) (hc : c < n) (hc' : c' < n)
    (h : r * n + c = r' * n + c') : r = r' ∧ c = c' := by
  have h1 : (r * n + c) / n = r := by
    rw [Nat.add_comm, Nat.add_mul_div_right _ _ (by omega), Nat.div_eq_of_lt hc, Nat.zero_add]
  have h2 : (r' * n + c') / n = r' := by
    rw [Nat.add_comm, Nat.add_mul_div_right _ _ (by omega), Nat.div_eq_of_lt hc', Nat.zero_add]
  have hr : r = r' := by rw [← h1, ← h2, h]
  subst hr
  exact ⟨rfl, by omega⟩

theorem cell_index_lt (n r c : Nat) (hr : r < n) (hc : c < n) : r * n + c < n * n := by
  have h1 : (r + 1) * n ≤ n * n := Nat.mul_le_mul_right n (by omega)
  rw [Nat.succ_mul] at h1
  omega

/-- Membership, bound and multiplicity of the board variables in an array of
the shape the loops build: cells `m(colf j, rowf j)` for `j` in `l`, and zeros. -/
theorem cells_spec (n : Nat) (l : List Nat) (hl : l.Nodup) (rowf colf : Nat → Nat)
    (k₁ k₂ : Nat) (hrow : ∀ j ∈ l, rowf j < n) (hcol : ∀ j ∈ l, colf j < n)
    (hinj : ∀ j ∈ l, ∀ j' ∈ l, rowf j = rowf j' → colf j = colf j' → j = j')
    (xs : List Var)
    (hxs : xs = List.replicate k₁ Var.zero ++ l.map (fun j => Var.cell (rowf j * n + colf j))
      ++ List.replicate k₂ Var.zero) :
    (∀ idx, Var.cell idx ∈ xs → idx < n * n) ∧
    (∀ idx, xs.count (Var.cell idx) ≤ 1) ∧
    (∀ c < n, ∀ r < n, (Var.cell (r * n + c) ∈ xs ↔ ∃ j ∈ l, rowf j = r ∧ colf j = c)) := by
  subst hxs
  have hmem : ∀ idx, Var.cell idx ∈ List.replicate k₁ Var.zero
      ++ l.map (fun j => Var.cell (rowf j * n + colf j)) ++ List.replicate k₂ Var.zero
      ↔ ∃ j ∈ l, rowf j * n + colf j = idx := by
    intro idx
    simp [List.mem_append, List.mem_replicate]
  refine ⟨?_, ?_, ?_⟩
  · intro idx h
    obtain ⟨j, hj, rfl⟩ := (hmem idx).1 h
    exact cell_index_lt n _ _ (hrow j hj) (hcol j hj)
  · intro idx
    have hnd : (l.map (fun j => Var.cell (rowf j * n + colf j))).Nodup := by
      apply List.Nodup.map_on _ hl
      intro j hj j' hj' h
      have h2 : rowf j * n + colf j = rowf j' * n + colf j' := by
        injection h
      have := cell_index_inj n _ _ _ _ (hcol j hj) (hcol j' hj') h2
      exact hinj j hj j' hj' this.1 this.2
    have hz : ∀ k, (List.replicate k Var.zero).count (Var.cell idx) = 0 := by
      intro k
      apply List.count_eq_zero.2
      simp [List.mem_replicate]
    rw [List.count_append, List.count_append, hz, hz]
    have := List.nodup_iff_count_le_one.1 hnd (Var.cell idx)
    omega
  · intro c hc r hr
    rw [hmem]
    constructor
    · rintro ⟨j, hj, h⟩
      have := cell_index_inj n _ _ _ _ (hcol j hj) hc h
      exact ⟨j, hj, this.1, this.2⟩
    · rintro ⟨j, hj, h1, h2⟩
      exact ⟨j, hj, by rw [h1, h2]⟩

theorem nwseLower_covers (n i : Nat) (hi : i < n) : CoversDiff n i (nwseLowerVars n i) := by
  have h := cells_spec n (List.range (n - i)) (List.nodup_range _) (fun j => j) (fun j => i + j)
    0 i (by intro j hj; have := List.mem_range.1 hj; dsimp only; omega)
    (by intro j hj; have := List.mem_range.1 hj; dsimp only; omega)
    (by intro j _ j' _ h _; exact h) (nwseLowerVars n i) (by simp [nwseLowerVars])
  refine ⟨h.1, h.2.1, ?_⟩
  intro c hc r hr
  rw [h.2.2 c hc r hr]
  simp only [List.mem_range]
  constructor
  · rintro ⟨j, _, h1, h2⟩; omega
  · intro h; exact ⟨r, by omega, rfl, by omega⟩

theorem nwseUpper_covers (n i : Nat) (hi : i < n) :
    CoversDiff n (-(i : Int)) (nwseUpperVars n i) := by
  have h := cells_spec n (List.range (n - i)) (List.nodup_range _) (fun j => j + i) (fun j => j)
    0 i (by intro j hj; have := List.mem_range.1 hj; dsimp only; omega)
    (by intro j hj; have := List.mem_range.1 hj; dsimp only; omega)
    (by intro j _ j' _ _ h; exact h) (nwseUpperVars n i) (by simp [nwseUpperVars])
  refine ⟨h.1, h.2.1, ?_⟩
  intro c hc r hr
  rw [h.2.2 c hc r hr]
  simp only [List.mem_range]
  constructor
  · rintro ⟨j, _, h1, h2⟩; omega
  · intro h; exact ⟨c, by omega, by omega, rfl⟩

theorem swneFirst_covers (n i : Nat) (hi : i + 1 < n) : CoversSum n i (swneFirstVars n i) := by
  have h := cells_spec n (List.range (i + 1)) (List.nodup_range _) (fun j => j) (fun j => i - j)
    0 (n - (i + 1)) (by intro j hj; have := List.mem_range.1 hj; dsimp only; omega)
    (by intro j hj; have := List.mem_range.1 hj; dsimp only; omega)
    (by intro j _ j' _ h _; exact h) (swneFirstVars n i) (by simp [swneFirstVars])
  refine ⟨h.1, h.2.1, ?_⟩
  intro c hc r hr
  rw [h.2.2 c hc r hr]
  simp only [List.mem_range]
  constructor
  · rintro ⟨j, _, h1, h2⟩; omega
  · intro h; exact ⟨r, by omega, rfl, by omega⟩

theorem swneSecond_covers (n i : Nat) (hi : i < n) :
    CoversSum n (i + n - 1) (swneSecondVars n i) := by
  have h := cells_spec n (List.range' i (n - i)) (List.nodup_range' _ _) (fun j => j)
    (fun j => i + n - 1 - j)
    i 0 (by intro j hj; have := List.mem_range'_1.1 hj; dsimp only; omega)
    (by intro j hj; have := List.mem_range'_1.1 hj; dsimp only; omega)
    (by intro j _ j' _ h _; exact h) (swneSecondVars n i) (by simp [swneSecondVars])
  refine ⟨h.1, h.2.1, ?_⟩
  intro c hc r hr
  rw [h.2.2 c hc r hr]
  simp only [List.mem_range'_1]
  constructor
  · rintro ⟨j, _, h1, h2⟩; omega
  · intro h; exact ⟨r, by omega, rfl, by omega⟩

theorem coversDiff_unique (n : Nat) (k k' : Int) (d : List Var)
    (hk : -((n : Int) - 1) ≤ k ∧ k ≤ (n : Int) - 1)
    (h : CoversDiff n k d) (h' : CoversDiff n k' d) : k = k' := by
  by_cases h0 : 0 ≤ k
  · have hc : k.toNat < n := by omega
    have hr : 0 < n := by omega
    have e := (h.2.2 k.toNat hc 0 hr).2 (by omega)
    have := (h'.2.2 k.toNat hc 0 hr).1 e
    omega
  · have hr : (-k).toNat < n := by omega
    have hc : 0 < n := by omega
    have e := (h.2.2 0 hc (-k).toNat hr).2 (by omega)
    have := (h'.2.2 0 hc (-k).toNat hr).1 e
    omega

theorem coversSum_unique (n : Nat) (t t' : Nat) (d : List Var) (ht : t ≤ 2 * n - 2) (hn : 1 ≤ n)
    (h : CoversSum n t d) (h' : CoversSum n t' d) : t = t' := by
  by_cases h0 : t < n
  · have e := (h.2.2 t h0 0 (by omega)).2 (by omega)
    have := (h'.2.2 t h0 0 (by omega)).1 e
    omega
  · have e := (h.2.2 (n - 1) (by omega) (t - (n - 1)) (by omega)).2 (by omega)
    have := (h'.2.2 (n - 1) (by omega) (t - (n - 1)) (by omega)).1 e
    omega

/-- The difference `c - r` of the array at position `t` of the "NW -> SE" arrays. -/
theorem nwse_at (n t : Nat) (ht : t < 2 * n - 1) :
    ∃ d, (nwseLowerAll n ++ nwseUpperAll n)[t]? = some d ∧
      CoversDiff n (if t < n then (t : Int) else -((t : Int) - n + 1)) d := by
  by_cases h : t < n
  · refine ⟨nwseLowerVars n t, ?_, ?_⟩
    · rw [List.getElem?_append_left (by simpa [nwseLowerAll] using h)]
      simp [nwseLowerAll, List.getElem?_range, h]
    · simp only [h, if_true]
      exact nwseLower_covers n t h
  · refine ⟨nwseUpperVars n (t - n + 1), ?_, ?_⟩
    · rw [List.getElem?_append_right (by simp [nwseLowerAll]; omega)]
      have h2 : t - n < n - 1 := by omega
      simp [nwseLowerAll, nwseUpperAll, List.getElem?_range', h2]
      congr 1
      omega
    · simp only [h, if_false]
      have := nwseUpper_covers n (t - n + 1) (by omega)
      have e : (-((t - n + 1 : Nat) : Int)) = -((t : Int) - n + 1) := by omega
      rw [e] at this
      exact this

theorem nwse_length (n : Nat) :
    (nwseLowerAll n).length = n ∧ (nwseUpperAll n).length = n - 1 := by
  simp [nwseLowerAll, nwseUpperAll]

/-- The sum `c + r` of the array at position `t` of the "SW -> NE" arrays. -/
theorem swne_at (n t : Nat) (ht : t < 2 * n - 1) :
    ∃ d, (swneFirstAll n ++ swneSecondAll n)[t]? = some d ∧
      CoversSum n (if t < n - 1 then n - 2 - t else t) d := by
  by_cases h : t < n - 1
  · refine ⟨swneFirstVars n (n - 2 - t), ?_, ?_⟩
    · rw [List.getElem?_append_left (by simpa [swneFirstAll] using h)]
      have hr : (List.range (n - 1)).reverse[t]? = some (n - 2 - t) := by
        rw [List.getElem?_reverse (by simpa using h), List.length_range,
          List.getElem?_range (by omega)]
        congr 1
      simp only [swneFirstAll, List.getElem?_map, hr, Option.map_some']
    · simp only [h, if_true]
      exact swneFirst_covers n (n - 2 - t) (by omega)
  · refine ⟨swneSecondVars n (t - (n - 1)), ?_, ?_⟩
    · rw [List.getElem?_append_right (by simp [swneFirstAll]; omega)]
      have h2 : t - (n - 1) < n := by omega
      simp [swneFirstAll, swneSecondAll, List.getElem?_range, h2]
    · simp only [h, if_false]
      have := swneSecond_covers n (t - (n - 1)) (by omega)
      have e : t - (n - 1) + n - 1 = t := by omega
      rw [e] at this
      exact this

theorem swne_length (n : Nat) :
    (swneFirstAll n).length = n - 1 ∧ (swneSecondAll n).length = n := by
  simp [swneFirstAll, swneSecondAll]

theorem getElem?_lt_length {α : Type} (l : List α) (t : Nat) (d : α) (h : l[t]? = some d) :
    t < l.length := by
  by_contra hc
  have : l[t]? = none := by simp; omega
  rw [this] at h
  exact absurd h (by simp)

theorem nwse_cell_unique (n r c : Nat) (hr : r < n) (hc : c < n) :
    ∃! t : Nat, ∃ d, (nwseLowerAll n ++ nwseUpperAll n)[t]? = some d ∧
      Var.cell (r * n + c) ∈ d := by
  have hlen := nwse_length n
  refine ⟨if r ≤ c then c - r else n + (r - c) - 1, ?_, ?_⟩
  · obtain ⟨d, hd, hcov⟩ := nwse_at n (if r ≤ c then c - r else n + (r - c) - 1)
      (by split_ifs <;> omega)
    refine ⟨d, hd, (hcov.2.2 c hc r hr).2 ?_⟩
    split_ifs <;> omega
  · rintro t ⟨d, hd, hmem⟩
    have ht : t < 2 * n - 1 := by
      have := getElem?_lt_length _ _ _ hd
      simp [hlen.1, hlen.2] at this
      omega
    obtain ⟨d', hd', hcov⟩ := nwse_at n t ht
    rw [hd] at hd'
    have hdd := Option.some.inj hd'
    subst hdd
    have := (hcov.2.2 c hc r hr).1 hmem
    split_ifs at this ⊢ <;> omega

theorem swne_cell_unique (n r c : Nat) (hr : r < n) (hc : c < n) :
    ∃! t : Nat, ∃ d, (swneFirstAll n ++ swneSecondAll n)[t]? = some d ∧
      Var.cell (r * n + c) ∈ d := by
  have hlen := swne_length n
  refine ⟨if c + r < n - 1 then n - 2 - (c + r) else c + r, ?_, ?_⟩
  · obtain ⟨d, hd, hcov⟩ := swne_at n (if c + r < n - 1 then n - 2 - (c + r) else c + r)
      (by split_ifs <;> omega)
    refine ⟨d, hd, (hcov.2.2 c hc r hr).2 ?_⟩
    split_ifs <;> omega
  · rintro t ⟨d, hd, hmem⟩
    have ht : t < 2 * n - 1 := by
      have := getElem?_lt_length _ _ _ hd
      simp [hlen.1, hlen.2] at this
      omega
    obtain ⟨d', hd', hcov⟩ := swne_at n t ht
    rw [hd] at hd'
    have hdd := Option.some.inj hd'
    subst hdd
    have := (hcov.2.2 c hc r hr).1 hmem
    split_ifs at this ⊢ <;> omega

theorem nwse_wellformed (n : Nat) (d : List Var) (hd : d ∈ nwseLowerAll n ++ nwseUpperAll n) :
    (∀ idx, Var.cell idx ∈ d → idx < n * n) ∧ ∀ idx, d.count (Var.cell idx) ≤ 1 := by
  obtain ⟨t, ht⟩ := List.mem_iff_getElem?.1 hd
  have hlen := nwse_length n
  have ht2 : t < 2 * n - 1 := by
    have := getElem?_lt_length _ _ _ ht
    simp [hlen.1, hlen.2] at this
    omega
  obtain ⟨d', hd', hcov⟩ := nwse_at n t ht2
  rw [ht] at hd'
  have hdd := Option.some.inj hd'
  subst hdd
  exact ⟨hcov.1, hcov.2.1⟩

theorem swne_wellformed (n : Nat) (d : List Var) (hd : d ∈ swneFirstAll n ++ swneSecondAll n) :
    (∀ idx, Var.cell idx ∈ d → idx < n * n) ∧ ∀ idx, d.count (Var.cell idx) ≤ 1 := by
  obtain ⟨t, ht⟩ := List.mem_iff_getElem?.1 hd
  have hlen := swne_length n
  have ht2 : t < 2 * n - 1 := by
    have := getElem?_lt_length _ _ _ ht
    simp [hlen.1, hlen.2] at this
    omega
  obtain ⟨d', hd', hcov⟩ := swne_at n t ht2
  rw [ht] at hd'
  have hdd := Option.some.inj hd'
  subst hdd
  exact ⟨hcov.1, hcov.2.1⟩

theorem row_cell_unique (n idx : Nat) (hidx : idx < n * n) :
    ∃! i : Nat, ∃ d, ((List.range n).map (rowVars n))[i]? = some d ∧ Var.cell idx ∈ d := by
  have hn : 0 < n := by
    rcases Nat.eq_zero_or_pos n with h | h
    · subst h; simp at hidx
    · exact h
  have hdiv : idx / n < n := Nat.div_lt_of_lt_mul hidx
  have hmod : idx % n < n := Nat.mod_lt _ hn
  have hdm : idx / n * n + idx % n = idx := Nat.div_add_mod' idx n
  refine ⟨idx / n, ⟨rowVars n (idx / n), by simp [List.getElem?_range, hdiv], ?_⟩, ?_⟩
  · simp only [rowVars, List.mem_map, List.mem_range]
    exact ⟨idx % n, hmod, by rw [hdm]⟩
  · rintro i ⟨d, hd, hmem⟩
    have hi : i < n := by
      have := getElem?_lt_length _ _ _ hd
      simpa using this
    simp only [List.getElem?_map, List.getElem?_range hi, Option.map_some',
      Option.some.injEq] at hd
    subst hd
    simp only [rowVars, List.mem_map, List.mem_range] at hmem
    obtain ⟨c, hc, h⟩ := hmem
    injection h with h
    exact (cell_index_inj n i c (idx / n) (idx % n) hc hmod (by omega)).1

theorem col_cell_unique (n idx : Nat) (hidx : idx < n * n) :
    ∃! i : Nat, ∃ d, ((List.range n).map (colVars n))[i]? = some d ∧ Var.cell idx ∈ d := by
  have hn : 0 < n := by
    rcases Nat.eq_zero_or_pos n with h | h
    · subst h; simp at hidx
    · exact h
  have hdiv : idx / n < n := Nat.div_lt_of_lt_mul hidx
  have hmod : idx % n < n := Nat.mod_lt _ hn
  have hdm : idx / n * n + idx % n = idx := Nat.div_add_mod' idx n
  refine ⟨idx % n, ⟨colVars n (idx % n), by simp [List.getElem?_range, hmod], ?_⟩, ?_⟩
  · simp only [colVars, List.mem_map, List.mem_range]
    exact ⟨idx / n, hdiv, by rw [hdm]⟩
  · rintro i ⟨d, hd, hmem⟩
    have hi : i < n := by
      have := getElem?_lt_length _ _ _ hd
      simpa using this
    simp only [List.getElem?_map, List.getElem?_range hi, Option.map_some',
      Option.some.injEq] at hd
    subst hd
    simp only [colVars, List.mem_map, List.mem_range] at hmem
    obtain ⟨r, hr, h⟩ := hmem
    injection h with h
    exact (cell_index_inj n r i (idx / n) (idx % n) hi hmod (by omega)).2

/-! ## The explicit placement is valid -/

theorem queenCol_lt (n r : Nat) (hn : 4 ≤ n) (hr : r < n) : queenCol n r < n := by
  unfold queenCol
  split_ifs <;> omega

theorem queenCol_inj (n r₁ r₂ : Nat) (hn : 4 ≤ n) (h₁ : r₁ < n) (h₂ : r₂ < n)
    (h : queenCol n r₁ = queenCol n r₂) : r₁ = r₂ := by
  unfold queenCol at h
  split_ifs at h <;> omega

theorem queenCol_diff (n r₁ r₂ : Nat) (hn : 4 ≤ n) (h₁ : r₁ < n) (h₂ : r₂ < n)
    (h : (r₁ : Int) - (queenCol n r₁ : Int) = (r₂ : Int) - (queenCol n r₂ : Int)) : r₁ = r₂ := by
  unfold queenCol at h
  split_ifs at h <;> push_cast at h <;> omega

theorem queenCol_sum (n r₁ r₂ : Nat) (hn : 4 ≤ n) (h₁ : r₁ < n) (h₂ : r₂ < n)
    (h : r₁ + queenCol n r₁ = r₂ + queenCol n r₂) : r₁ = r₂ := by
  unfold queenCol at h
  split_ifs at h <;> omega

theorem queenCol_surj (n c : Nat) (hn : 4 ≤ n) (hc : c < n) : ∃ r, r < n ∧ queenCol n r = c := by
  let f : Fin n → Fin n := fun r => ⟨queenCol n r.val, queenCol_lt n r.val hn r.isLt⟩
  have hinj : Function.Injective f := by
    intro r₁ r₂ h
    have h2 : queenCol n r₁.val = queenCol n r₂.val := congrArg Fin.val h
    exact Fin.ext (queenCol_inj n r₁.val r₂.val hn r₁.isLt r₂.isLt h2)
  have hsurj : Function.Surjective f := Finite.injective_iff_surjective.1 hinj
  obtain ⟨r, hr⟩ := hsurj ⟨c, hc⟩
  exact ⟨r.val, r.isLt, congrArg Fin.val hr⟩

theorem placement_cell (n r c : Nat) (hr : r < n) (hc : c < n) :
    (placement n).cell r c = 1 ↔ c = queenCol n r := by
  have hlt : r * n + c < n * n := cell_index_lt n r c hr hc
  have hmod : (r * n + c) % n = c := by
    rw [Nat.add_comm, Nat.add_mul_mod_self_right, Nat.mod_eq_of_lt hc]
  have hdiv : (r * n + c) / n = r := by
    rw [Nat.add_comm, Nat.add_mul_div_right _ _ (by omega), Nat.div_eq_of_lt hc, Nat.zero_add]
  simp only [Assignment.cell, Assignment.value, hlt, dif_pos, placement, hmod, hdiv]
  by_cases h : c = queenCol n r
  · simp [h]
  · simp [h]

theorem placement_valid (n : Nat) (hn : 4 ≤ n) : ValidPlacement n (placement n) := by
  refine ⟨?_, ?_, ?_, ?_⟩
  · intro r hr
    rw [filter_length_eq_one _ _ (List.nodup_range n)]
    simp only [List.mem_range, beq_iff_eq]
    constructor
    · exact ⟨queenCol n r, queenCol_lt n r hn hr,
        (placement_cell n r _ hr (queenCol_lt n r hn hr)).2 rfl⟩
    · intro c hc c' hc' h h'
      rw [(placement_cell n r c hr hc).1 h, (placement_cell n r c' hr hc').1 h']
  · intro c hc
    rw [filter_length_eq_one _ _ (List.nodup_range n)]
    simp only [List.mem_range, beq_iff_eq]
    constructor
    · obtain ⟨r, hr, h⟩ := queenCol_surj n c hn hc
      exact ⟨r, hr, (placement_cell n r c hr hc).2 h.symm⟩
    · intro r hr r' hr' h h'
      have e := (placement_cell n r c hr hc).1 h
      have e' := (placement_cell n r' c hr' hc).1 h'
      exact queenCol_inj n r r' hn hr hr' (by rw [← e, ← e'])
  · intro r₁ hr₁ c₁ hc₁ r₂ hr₂ c₂ hc₂ h₁ h₂ hd
    have e₁ := (placement_cell n r₁ c₁ hr₁ hc₁).1 h₁
    have e₂ := (placement_cell n r₂ c₂ hr₂ hc₂).1 h₂
    subst e₁ e₂
    have := queenCol_diff n r₁ r₂ hn hr₁ hr₂ hd
    subst this
    exact ⟨rfl, rfl⟩
  · intro r₁ hr₁ c₁ hc₁ r₂ hr₂ c₂ hc₂ h₁ h₂ hd
    have e₁ := (placement_cell n r₁ c₁ hr₁ hc₁).1 h₁
    have e₂ := (placement_cell n r₂ c₂ hr₂ hc₂).1 h₂
    subst e₁ e₂
    have := queenCol_sum n r₁ r₂ hn hr₁ hr₂ hd
    subst this
    exact ⟨rfl, rfl⟩

/-! ## Boards of side 2 and 3 -/

/-- In a valid placement every row has a queen, and the queens of two rows
differ in column, in `row - col` and in `row + col`. -/
theorem valid_queens (n : Nat) (a : Assignment n) (h : ValidPlacement n a) :
    (∀ r < n, ∃ c, c < n ∧ a.cell r c = 1) ∧
    (∀ r₁ < n, ∀ c₁ < n, ∀ r₂ < n, ∀ c₂ < n, a.cell r₁ c₁ = 1 → a.cell r₂ c₂ = 1 →
      r₁ ≠ r₂ → c₁ ≠ c₂ ∧ (r₁ : Int) - c₁ ≠ (r₂ : Int) - c₂ ∧ r₁ + c₁ ≠ r₂ + c₂) := by
  obtain ⟨hrow, hcol, hd, hs⟩ := h
  constructor
  · intro r hr
    obtain ⟨⟨c, hc, hq⟩, _⟩ := (filter_length_eq_one _ _ (List.nodup_range n)).1 (hrow r hr)
    exact ⟨c, List.mem_range.1 hc, by simpa using hq⟩
  · intro r₁ hr₁ c₁ hc₁ r₂ hr₂ c₂ hc₂ h₁ h₂ hne
    refine ⟨?_, ?_, ?_⟩
    · intro hcc
      subst hcc
      have hu := ((filter_length_eq_one _ _ (List.nodup_range n)).1 (hcol c₁ hc₁)).2
      exact hne (hu r₁ (List.mem_range.2 hr₁) r₂ (List.mem_range.2 hr₂) (by simpa using h₁)
        (by simpa using h₂))
    · intro hdd
      exact hne (hd r₁ hr₁ c₁ hc₁ r₂ hr₂ c₂ hc₂ h₁ h₂ hdd).1
    · intro hss
      exact hne (hs r₁ hr₁ c₁ hc₁ r₂ hr₂ c₂ hc₂ h₁ h₂ hss).1

theorem no_valid_placement_two (a : Assignment 2) : ¬ ValidPlacement 2 a := by
  intro h
  obtain ⟨hq, hp⟩ := valid_queens 2 a h
  obtain ⟨c₀, hc₀, q₀⟩ := hq 0 (by decide)
  obtain ⟨c₁, hc₁, q₁⟩ := hq 1 (by decide)
  have := hp 0 (by decide) c₀ hc₀ 1 (by decide) c₁ hc₁ q₀ q₁ (by decide)
  omega

theorem no_valid_placement_three (a : Assignment 3) : ¬ ValidPlacement 3 a := by
  intro h
  obtain ⟨hq, hp⟩ := valid_queens 3 a h
  obtain ⟨c₀, hc₀, q₀⟩ := hq 0 (by decide)
  obtain ⟨c₁, hc₁, q₁⟩ := hq 1 (by decide)
  obtain ⟨c₂, hc₂, q₂⟩ := hq 2 (by decide)
  have h01 := hp 0 (by decide) c₀ hc₀ 1 (by decide) c₁ hc₁ q₀ q₁ (by decide)
  have h02 := hp 0 (by decide) c₀ hc₀ 2 (by decide) c₂ hc₂ q₀ q₂ (by decide)
  have h12 := hp 1 (by decide) c₁ hc₁ 2 (by decide) c₂ hc₂ q₁ q₂ (by decide)
  omega

/-! ## The printed text -/

theorem join_cons (a : String) (l : List String) : String.join (a :: l) = a ++ String.join l := by
  apply String.ext
  simp [String.data_join, String.data_append]

theorem join_nil : String.join [] = "" := rfl

theorem empty_append (s : String) : String.mk [] ++ s = s := by
  apply String.ext
  simp [String.data_append]

theorem foldlM_write (body : OStream → Int → Option OStream) (f : Nat → String) (l : List Nat)
    (hbody : ∀ os : OStream, os.width = 0 → ∀ j ∈ l,
      body os (j : Int) = some { text := os.text ++ f j, width := 0 }) :
    ∀ os : OStream, os.width = 0 →
      (l.map (fun k : Nat => (k : Int))).foldlM body os
        = some { text := os.text ++ String.join (l.map f), width := 0 } := by
  induction l with
  | nil =>
    intro os hos
    cases os with
    | mk t w =>
      simp only at hos
      subst hos
      simp [join_nil]
  | cons j l ih =>
    intro os hos
    have h1 := hbody os hos j (List.mem_cons_self _ _)
    have h2 := ih (fun os hos k hk => hbody os hos k (List.mem_cons_of_mem _ hk))
      { text := os.text ++ f j, width := 0 } rfl
    simp only [List.map_cons, List.foldlM_cons, h1]
    refine h2.trans ?_
    simp only [join_cons, String.append_assoc]

theorem vars_getElem? {n : Nat} (a : Assignment n) (k : Nat) (hk : k < n * n) :
    a.vars[k]? = some (IntVar.val (a.value k)) := by
  have hlen : k < a.vars.length := by simp [Assignment.vars, hk]
  rw [List.getElem?_eq_getElem hlen]
  simp [Assignment.vars, Assignment.value, hk]

theorem write_field (os : OStream) (v : Nat) :
    (((os.setWidth 2).write (IntVar.val v).text).write "  ")
      = { text := os.text ++ fieldText v, width := 0 } := by
  simp only [OStream.setWidth, OStream.write, IntVar.text, fieldText, Nat.zero_sub,
    List.replicate_zero, String.append_assoc]
  congr 1

theorem print_row {n : Nat} (a : Assignment n) (i : Nat) (hi : i < n) (os : OStream)
    (hos : os.width = 0) :
    (do
      let os ← (countUp 0 (n : Int)).foldlM (fun os j => do
        let os := os.setWidth 2
        let k ← (Matrix.mk (n * n) n n).index i j
        let v ← a.vars[k]?
        pure ((os.write v.text).write "  ")) (os.write "\t")
      pure os.endl)
      = some (OStream.mk (os.text ++ ("\t"
          ++ String.join ((List.range n).map (fun j => fieldText (a.value (j * n + i))))
          ++ "\n")) 0) := by
  rw [countUp_zero, foldlM_write _ (fun j => fieldText (a.value (j * n + i))) (List.range n)]
  · simp only [OStream.write, hos, Nat.zero_sub, List.replicate_zero, OStream.endl,
      String.append_assoc, empty_append, Option.bind_eq_bind, Option.some_bind, Option.pure_def]
  · intro os' _ j hj
    have hj2 : j < n := List.mem_range.1 hj
    simp only [index_ofNat n i j hi hj2, Option.bind_eq_bind, Option.some_bind,
      vars_getElem? a _ (cell_index_lt n j i hj2 hi), Option.pure_def]
    exact congrArg some (write_field os' _)
  · simp [OStream.write]

/-- What `print` writes for a complete assignment, on a stream of width 0. -/
theorem print_vars_eq (n : Nat) (a : Assignment n) (os : OStream) (hos : os.width = 0) :
    print a.vars os = some
      (OStream.mk (os.text ++ String.join ((List.range n).map (fun i => "\t"
          ++ String.join ((List.range n).map (fun j => fieldText (a.value (j * n + i))))
          ++ "\n"))) 0) := by
  have hlen : a.vars.length = n * n := by simp [Assignment.vars]
  simp only [print, hlen, Nat.sqrt_eq, view_ofNat, Option.bind_eq_bind, Option.some_bind]
  have := foldlM_write (fun os i => do
      let os ← (countUp 0 (n : Int)).foldlM (fun os j => do
        let os := os.setWidth 2
        let k ← (Matrix.mk (n * n) n n).index i j
        let v ← a.vars[k]?
        pure ((os.write v.text).write "  ")) (os.write "\t")
      pure os.endl)
    (fun i => "\t"
      ++ String.join ((List.range n).map (fun j => fieldText (a.value (j * n + i)))) ++ "\n")
    (List.range n)
    (fun os hos i hi => print_row a i (List.mem_range.1 hi) os hos) os hos
  rw [← countUp_zero] at this
  exact this

/-! ## The claims -/

theorem beforeDiagonals_large (n : Nat) (h : 2147483648 ≤ n * n) : beforeDiagonals n = none := by
  cases hc : beforeDiagonals n with
  | none => rfl
  | some p =>
    have := beforeDiagonals_bound n p.1 p.2 hc
    omega

theorem row_empty (n : Nat) (hn : 1 ≤ n) : Matrix.row (Matrix.mk 0 n n) 0 = none := by
  have h1 : (0 : Int) + 1 ≤ (n : Int) := by omega
  simp only [Matrix.row, h1, if_true]
  apply mapM_none_of_mem _ 0
  · simp [Matrix.get, Matrix.index]
  · rw [mem_countUp]
    omega

/-- C1 as stated fails: for the board size 65536 line 27 asks for
65536 * 65536 modulo 2^32 = 0 variables and creates an empty `x`, not the n*n
cell variables; the view is built, 65536 * 65536 being 0 as an `int`, and the
constructor fails at the first row slice `m.row(0)` of line 33, so no posted
constraint set describes the placements on that board. -/
theorem construct_fails_at_65536 :
    xCount32 65536 = 0 ∧ allocateX 65536 = some (Space.init 0) ∧
    Matrix.view (Space.init 0).xSize (toInt32 65536) (toInt32 65536)
      = some (Matrix.mk 0 65536 65536) ∧
    Matrix.row (Matrix.mk 0 65536 65536) 0 = none ∧
    postRows (Matrix.mk 0 65536 65536) 65536 (Space.init 0) = none ∧
    construct 65536 = none :=
  ⟨by decide, by decide, by decide, row_empty 65536 (by decide),
    postRows_short 65536 0 (by decide) (by decide) _, construct_large 65536 (by decide)⟩

/-- C1, amended: for every board size n >= 1 whose square fits a 32-bit int
(n*n < 2^31) and every 0/1 assignment of the n*n cell variables, the
constructor succeeds with the n*n variables of `x`, and the assignment
satisfies all the constraints it posted if and only if it is a valid N-Queens
placement (exactly one 1 in each row and in each column, at most one 1 among
the cells sharing a value of row - col, at most one among those sharing
row + col). -/
theorem construct_solutions_are_valid_placements (n : Nat) (hn : 1 ≤ n)
    (hb : n * n < 2147483648) (a : Assignment n) :
    ∃ s, construct n = some s ∧ s.xSize = n * n ∧ (s.solvedBy a ↔ ValidPlacement n a) := by
  obtain ⟨s, hs⟩ : ∃ s, construct n = some s := ⟨_, construct_eq n hb⟩
  refine ⟨s, hs, ?_, solvedBy_iff_valid n a s hs⟩
  rw [construct_eq n hb] at hs
  rw [← Option.some.inj hs]

/-- Witness of the amended C1 on the sample 4-queens solution, which is a
valid placement: both sides of the equivalence hold. -/
theorem construct_solutions_are_valid_placements_witness :
    1 ≤ 4 ∧ 4 * 4 < 2147483648 ∧
    (∃ s, construct 4 = some s ∧ s.xSize = 4 * 4 ∧
      (s.solvedBy sample4 ↔ ValidPlacement 4 sample4)) ∧
    ValidPlacement 4 sample4 :=
  ⟨by decide, by decide,
    construct_solutions_are_valid_placements 4 (by decide) (by decide) sample4, by decide⟩

/-- C2 as stated fails: for the board size 327680 line 27 asks for
327680 * 327680 modulo 2^32 = 0 variables and creates an empty `x`; the row
loop of line 32 fails on it and the constructor fails before line 44: the two
"NW -> SE" loops post nothing. -/
theorem nwse_loops_not_reached_at_327680 :
    xCount32 327680 = 0 ∧ allocateX 327680 = some (Space.init 0) ∧
    postRows (Matrix.mk 0 327680 327680) 327680 (Space.init 0) = none ∧
    beforeDiagonals 327680 = none :=
  ⟨by decide, by decide, postRows_short 327680 0 (by decide) (by decide) _,
    beforeDiagonals_large 327680 (by decide)⟩

/-- C2, amended: for every n >= 1 with n*n < 2^31 the constructor reaches
line 44 and the two "NW -> SE" loops succeed and post n and n - 1 at-most-one
constraints, 2n - 1 together; the array of the first loop
for the counter i ranges over exactly the cells m(c, r) with c - r = i, the
array of the second loop for the counter i over exactly those with c - r = -i;
every difference k between -(n-1) and n-1 is the difference of exactly one
posted array; the main diagonal (k = 0) comes from the first loop at i = 0 and
from no array of the second loop. -/
theorem nwse_loops_post_each_diagonal_once (n : Nat) (hn : 1 ≤ n)
    (hb : n * n < 2147483648) :
    ∃ (m : Matrix) (s s₁ s₂ : Space) (ds₁ ds₂ : List (List Var)),
      beforeDiagonals n = some (m, s) ∧
      postNWSELower m n s = some s₁ ∧ postNWSEUpper m n s₁ = some s₂ ∧
      s₁.constraints = s.constraints ++ ds₁.map atmostOne ∧
      s₂.constraints = s₁.constraints ++ ds₂.map atmostOne ∧
      ds₁.length = n ∧ ds₂.length = n - 1 ∧ ds₁.length + ds₂.length = 2 * n - 1 ∧
      (∀ i : Nat, i < n → ∃ d, ds₁[i]? = some d ∧ CoversDiff n (i : Int) d) ∧
      (∀ i : Nat, 1 ≤ i → i < n → ∃ d, ds₂[i - 1]? = some d ∧ CoversDiff n (-(i : Int)) d) ∧
      (∀ k : Int, -((n : Int) - 1) ≤ k → k ≤ (n : Int) - 1 →
        ∃! t : Nat, ∃ d, (ds₁ ++ ds₂)[t]? = some d ∧ CoversDiff n k d) ∧
      (∀ d ∈ ds₂, ¬ CoversDiff n 0 d) := by
  have hn2 := lt_of_sq_lt n hb
  have hlen := nwse_length n
  refine ⟨_, _, _, _, nwseLowerAll n, nwseUpperAll n, beforeDiagonals_eq n hb,
    postNWSELower_eq n hn2 _, postNWSEUpper_eq n hn2 _, rfl, rfl, hlen.1, hlen.2,
    by rw [hlen.1, hlen.2]; omega, ?_, ?_, ?_, ?_⟩
  · intro i hi
    refine ⟨nwseLowerVars n i, ?_, nwseLower_covers n i hi⟩
    simp [nwseLowerAll, List.getElem?_range, hi]
  · intro i h1 hi
    refine ⟨nwseUpperVars n i, ?_, nwseUpper_covers n i hi⟩
    have h2 : i - 1 < n - 1 := by omega
    simp [nwseUpperAll, List.getElem?_range', h2]
    congr 1
    omega
  · intro k hk1 hk2
    refine ⟨if 0 ≤ k then k.toNat else n + (-k).toNat - 1, ?_, ?_⟩
    · by_cases h0 : 0 ≤ k
      · obtain ⟨d, hd, hc⟩ := nwse_at n k.toNat (by omega)
        refine ⟨d, by simpa [h0] using hd, ?_⟩
        have e : (if k.toNat < n then ((k.toNat : Nat) : Int) else -(((k.toNat : Nat) : Int) - n + 1))
            = k := by
          have : k.toNat < n := by omega
          simp only [this, if_true]
          omega
        rw [e] at hc
        exact hc
      · obtain ⟨d, hd, hc⟩ := nwse_at n (n + (-k).toNat - 1) (by omega)
        refine ⟨d, by simpa [h0] using hd, ?_⟩
        have e : (if n + (-k).toNat - 1 < n then (((n + (-k).toNat - 1 : Nat)) : Int)
            else -((((n + (-k).toNat - 1 : Nat)) : Int) - n + 1)) = k := by
          have : ¬ (n + (-k).toNat - 1 < n) := by omega
          simp only [this, if_false]
          omega
        rw [e] at hc
        exact hc
    · rintro t ⟨d, hd, hc⟩
      have ht : t < 2 * n - 1 := by
        have := getElem?_lt_length _ _ _ hd
        simp [hlen.1, hlen.2] at this
        omega
      obtain ⟨d', hd', hc'⟩ := nwse_at n t ht
      rw [hd] at hd'
      have hdd := Option.some.inj hd'
      subst hdd
      have := coversDiff_unique n k _ d ⟨hk1, hk2⟩ hc hc'
      by_cases h0 : 0 ≤ k
      · simp only [h0, if_true]
        split_ifs at this <;> omega
      · simp only [h0, if_false]
        split_ifs at this <;> omega
  · intro d hd hc
    obtain ⟨i, hi, rfl⟩ := List.mem_map.1 hd
    have hi2 := List.mem_range'_1.1 hi
    have := coversDiff_unique n 0 _ _ (by omega) hc (nwseUpper_covers n i (by omega))
    omega

/-- Witness of the amended C2 on the 2-by-2 board. -/
theorem nwse_loops_post_each_diagonal_once_witness :
    1 ≤ 2 ∧ 2 * 2 < 2147483648 ∧
    ∃ (m : Matrix) (s s₁ s₂ : Space) (ds₁ ds₂ : List (List Var)),
      beforeDiagonals 2 = some (m, s) ∧
      postNWSELower m 2 s = some s₁ ∧
      postNWSEUpper m 2 s₁ = some s₂ ∧
      s₁.constraints = s.constraints ++ ds₁.map atmostOne ∧
      s₂.constraints = s₁.constraints ++ ds₂.map atmostOne ∧
      ds₁.length = 2 ∧ ds₂.length = 2 - 1 ∧ ds₁.length + ds₂.length = 2 * 2 - 1 ∧
      (∀ i : Nat, i < 2 → ∃ d, ds₁[i]? = some d ∧ CoversDiff 2 (i : Int) d) ∧
      (∀ i : Nat, 1 ≤ i → i < 2 → ∃ d, ds₂[i - 1]? = some d ∧ CoversDiff 2 (-(i : Int)) d) ∧
      (∀ k : Int, -(((2 : Nat) : Int) - 1) ≤ k → k ≤ ((2 : Nat) : Int) - 1 →
        ∃! t : Nat, ∃ d, (ds₁ ++ ds₂)[t]? = some d ∧ CoversDiff 2 k d) ∧
      (∀ d ∈ ds₂, ¬ CoversDiff 2 0 d) :=
  ⟨by decide, by decide, nwse_loops_post_each_diagonal_once 2 (by decide) (by decide)⟩

/-- C3 as stated fails: for the board size 458752 line 27 asks for
458752 * 458752 modulo 2^32 = 0 variables and creates an empty `x`; the row
loop of line 32 fails on it and the constructor fails before line 62: the two
"SW -> NE" loops post nothing. -/
theorem swne_loops_not_reached_at_458752 :
    xCount32 458752 = 0 ∧ allocateX 458752 = some (Space.init 0) ∧
    postRows (Matrix.mk 0 458752 458752) 458752 (Space.init 0) = none ∧
    beforeDiagonals 458752 = none :=
  ⟨by decide, by decide, postRows_short 458752 0 (by decide) (by decide) _,
    beforeDiagonals_large 458752 (by decide)⟩

/-- C3, amended: for every n >= 1 with n*n < 2^31 the constructor reaches
line 62 and the two "SW -> NE" loops succeed and post n - 1 and n at-most-one
constraints, 2n - 1 together; the array of the first loop for
the counter i (n-2 down to 0, so at position n-2-i) ranges over exactly the
cells m(c, r) with c + r = i, the array of the second loop for the counter i
over exactly those with c + r = i + n - 1; every sum t between 0 and 2n-2 is
the sum of exactly one posted array; the central anti-diagonal (t = n-1) comes
from the second loop at i = 0 and from no array of the first loop. -/
theorem swne_loops_post_each_diagonal_once (n : Nat) (hn : 1 ≤ n)
    (hb : n * n < 2147483648) :
    ∃ (m : Matrix) (s₀ s₁ s₂ s₃ s₄ : Space) (ds₁ ds₂ : List (List Var)),
      beforeDiagonals n = some (m, s₀) ∧
      postNWSELower m n s₀ = some s₁ ∧ postNWSEUpper m n s₁ = some s₂ ∧
      postSWNEFirst m n s₂ = some s₃ ∧ postSWNESecond m n s₃ = some s₄ ∧
      s₃.constraints = s₂.constraints ++ ds₁.map atmostOne ∧
      s₄.constraints = s₃.constraints ++ ds₂.map atmostOne ∧
      ds₁.length = n - 1 ∧ ds₂.length = n ∧ ds₁.length + ds₂.length = 2 * n - 1 ∧
      (∀ i : Nat, i + 1 < n → ∃ d, ds₁[n - 2 - i]? = some d ∧ CoversSum n i d) ∧
      (∀ i : Nat, i < n → ∃ d, ds₂[i]? = some d ∧ CoversSum n (i + n - 1) d) ∧
      (∀ t : Nat, t ≤ 2 * n - 2 →
        ∃! p : Nat, ∃ d, (ds₁ ++ ds₂)[p]? = some d ∧ CoversSum n t d) ∧
      (∀ d ∈ ds₁, ¬ CoversSum n (n - 1) d) := by
  have hn2 := lt_of_sq_lt n hb
  have hlen := swne_length n
  refine ⟨_, _, _, _, _, _, swneFirstAll n, swneSecondAll n, beforeDiagonals_eq n hb,
    postNWSELower_eq n hn2 _, postNWSEUpper_eq n hn2 _,
    postSWNEFirst_eq n hn2 _, postSWNESecond_eq n hn2 _, rfl, rfl, hlen.1, hlen.2,
    by rw [hlen.1, hlen.2]; omega, ?_, ?_, ?_, ?_⟩
  · intro i hi
    obtain ⟨d, hd, hc⟩ := swne_at n (n - 2 - i) (by omega)
    rw [List.getElem?_append_left (by rw [hlen.1]; omega)] at hd
    refine ⟨d, hd, ?_⟩
    have e : (if n - 2 - i < n - 1 then n - 2 - (n - 2 - i) else n - 2 - i) = i := by
      have : n - 2 - i < n - 1 := by omega
      simp only [this, if_true]
      omega
    rw [e] at hc
    exact hc
  · intro i hi
    refine ⟨swneSecondVars n i, ?_, swneSecond_covers n i hi⟩
    simp [swneSecondAll, List.getElem?_range, hi]
  · intro t ht
    refine ⟨if t < n - 1 then n - 2 - t else t, ?_, ?_⟩
    · obtain ⟨d, hd, hc⟩ := swne_at n (if t < n - 1 then n - 2 - t else t)
        (by split_ifs <;> omega)
      refine ⟨d, hd, ?_⟩
      have e : (if (if t < n - 1 then n - 2 - t else t) < n - 1
          then n - 2 - (if t < n - 1 then n - 2 - t else t)
          else (if t < n - 1 then n - 2 - t else t)) = t := by
        split_ifs <;> omega
      rw [e] at hc
      exact hc
    · rintro p ⟨d, hd, hc⟩
      have hp : p < 2 * n - 1 := by
        have := getElem?_lt_length _ _ _ hd
        simp [hlen.1, hlen.2] at this
        omega
      obtain ⟨d', hd', hc'⟩ := swne_at n p hp
      rw [hd] at hd'
      have hdd := Option.some.inj hd'
      subst hdd
      have := coversSum_unique n t _ d ht hn hc hc'
      split_ifs at this ⊢ <;> omega
  · intro d hd hc
    obtain ⟨i, hi, rfl⟩ := List.mem_map.1 hd
    have hi2 := List.mem_range.1 (List.mem_reverse.1 hi)
    have := coversSum_unique n (n - 1) _ _ (by omega) hn hc (swneFirst_covers n i (by omega))
    omega

/-- Witness of the amended C3 on the 2-by-2 board. -/
theorem swne_loops_post_each_diagonal_once_witness :
    1 ≤ 2 ∧ 2 * 2 < 2147483648 ∧
    ∃ (m : Matrix) (s₀ s₁ s₂ s₃ s₄ : Space) (ds₁ ds₂ : List (List Var)),
      beforeDiagonals 2 = some (m, s₀) ∧
      postNWSELower m 2 s₀ = some s₁ ∧ postNWSEUpper m 2 s₁ = some s₂ ∧
      postSWNEFirst m 2 s₂ = some s₃ ∧ postSWNESecond m 2 s₃ = some s₄ ∧
      s₃.constraints = s₂.constraints ++ ds₁.map atmostOne ∧
      s₄.constraints = s₃.constraints ++ ds₂.map atmostOne ∧
      ds₁.length = 2 - 1 ∧ ds₂.length = 2 ∧ ds₁.length + ds₂.length = 2 * 2 - 1 ∧
      (∀ i : Nat, i + 1 < 2 → ∃ d, ds₁[2 - 2 - i]? = some d ∧ CoversSum 2 i d) ∧
      (∀ i : Nat, i < 2 → ∃ d, ds₂[i]? = some d ∧ CoversSum 2 (i + 2 - 1) d) ∧
      (∀ t : Nat, t ≤ 2 * 2 - 2 →
        ∃! p : Nat, ∃ d, (ds₁ ++ ds₂)[p]? = some d ∧ CoversSum 2 t d) ∧
      (∀ d ∈ ds₁, ¬ CoversSum 2 (2 - 1) d) :=
  ⟨by decide, by decide, swne_loops_post_each_diagonal_once 2 (by decide) (by decide)⟩

/-- C4 as stated fails: for the board size 131072 line 27 asks for
131072 * 131072 modulo 2^32 = 0 variables and creates an empty `x`, which has
no row and no column of 131072 variables; the first row slice `m.row(0)` of
line 33 fails, so does the row loop, and the constructor fails without having
posted an exactly-one constraint. -/
theorem rows_and_columns_not_posted_at_131072 :
    allocateX 131072 = some (Space.init 0) ∧
    Matrix.view (Space.init 0).xSize (toInt32 131072) (toInt32 131072)
      = some (Matrix.mk 0 131072 131072) ∧
    Matrix.row (Matrix.mk 0 131072 131072) 0 = none ∧
    postRows (Matrix.mk 0 131072 131072) 131072 (Space.init 0) = none ∧
    construct 131072 = none :=
  ⟨by decide, by decide, row_empty 131072 (by decide),
    postRows_short 131072 0 (by decide) (by decide) _, construct_large 131072 (by decide)⟩

/-- C4, amended: for every n >= 1 with n*n < 2^31 the constructor creates
`x` and the view, the row loop and the column loop succeed and post n
exactly-one constraints each, 2n together, and the constraints of the
constructed space are these 2n followed by at-most-one constraints only; the
i-th row constraint is over precisely the n variables x[i*n + c], c = 0..n-1,
of row i, and the i-th column constraint over precisely the n variables
x[r*n + i], r = 0..n-1, of column i; every cell variable occurs in exactly one
row constraint and in exactly one column constraint. -/
theorem rows_and_columns_post_exactly_one (n : Nat) (hn : 1 ≤ n) (hb : n * n < 2147483648) :
    ∃ (x : Space) (m : Matrix) (s₁ s₂ s : Space) (rs cs ds : List (List Var)),
      allocateX n = some x ∧ x.constraints = [] ∧
      Matrix.view x.xSize (toInt32 n) (toInt32 n) = some m ∧
      postRows m n x = some s₁ ∧ postCols m n s₁ = some s₂ ∧
      s₁.constraints = rs.map exactlyOne ∧
      s₂.constraints = rs.map exactlyOne ++ cs.map exactlyOne ∧
      construct n = some s ∧
      s.constraints = rs.map exactlyOne ++ cs.map exactlyOne ++ ds.map atmostOne ∧
      (∀ d ∈ ds, ∀ xs, atmostOne d ≠ exactlyOne xs) ∧
      rs.length = n ∧ cs.length = n ∧ rs.length + cs.length = 2 * n ∧
      (∀ i : Nat, i < n → rs[i]? = some ((List.range n).map (fun c => Var.cell (i * n + c)))) ∧
      (∀ i : Nat, i < n → cs[i]? = some ((List.range n).map (fun r => Var.cell (r * n + i)))) ∧
      (∀ idx : Nat, idx < n * n →
        (∃! i : Nat, ∃ d, rs[i]? = some d ∧ Var.cell idx ∈ d) ∧
        (∃! i : Nat, ∃ d, cs[i]? = some d ∧ Var.cell idx ∈ d)) := by
  have hn2 := lt_of_sq_lt n hb
  have hv : Matrix.view (Space.init (n * n)).xSize (toInt32 n) (toInt32 n)
      = some (Matrix.mk (n * n) n n) := by
    rw [toInt32_ofNat n hn2]
    exact view_ofNat n
  refine ⟨_, _, _, _, _, (List.range n).map (rowVars n), (List.range n).map (colVars n),
    nwseLowerAll n ++ nwseUpperAll n ++ swneFirstAll n ++ swneSecondAll n,
    allocateX_exact n hb, rfl, hv, postRows_eq n hn2 _, postCols_eq n hn2 _, by simp [Space.init, Function.comp_def],
    by simp [Space.init, Function.comp_def], construct_eq n hb, by simp [Function.comp_def], ?_, by simp, by simp, by simp; omega,
    ?_, ?_, ?_⟩
  · intro d _ xs h
    simp [atmostOne, exactlyOne] at h
  · intro i hi
    simp [List.getElem?_range, hi, rowVars]
  · intro i hi
    simp [List.getElem?_range, hi, colVars]
  · intro idx hidx
    exact ⟨row_cell_unique n idx hidx, col_cell_unique n idx hidx⟩

/-- Witness of the amended C4 on the 2-by-2 board. -/
theorem rows_and_columns_post_exactly_one_witness :
    1 ≤ 2 ∧ 2 * 2 < 2147483648 ∧
    ∃ (x : Space) (m : Matrix) (s₁ s₂ s : Space) (rs cs ds : List (List Var)),
      allocateX 2 = some x ∧ x.constraints = [] ∧
      Matrix.view x.xSize (toInt32 2) (toInt32 2) = some m ∧
      postRows m 2 x = some s₁ ∧ postCols m 2 s₁ = some s₂ ∧
      s₁.constraints = rs.map exactlyOne ∧
      s₂.constraints = rs.map exactlyOne ++ cs.map exactlyOne ∧
      construct 2 = some s ∧
      s.constraints = rs.map exactlyOne ++ cs.map exactlyOne ++ ds.map atmostOne ∧
      (∀ d ∈ ds, ∀ xs, atmostOne d ≠ exactlyOne xs) ∧
      rs.length = 2 ∧ cs.length = 2 ∧ rs.length + cs.length = 2 * 2 ∧
      (∀ i : Nat, i < 2 → rs[i]? = some ((List.range 2).map (fun c => Var.cell (i * 2 + c)))) ∧
      (∀ i : Nat, i < 2 → cs[i]? = some ((List.range 2).map (fun r => Var.cell (r * 2 + i)))) ∧
      (∀ idx : Nat, idx < 2 * 2 →
        (∃! i : Nat, ∃ d, rs[i]? = some d ∧ Var.cell idx ∈ d) ∧
        (∃! i : Nat, ∃ d, cs[i]? = some d ∧ Var.cell idx ∈ d)) :=
  ⟨by decide, by decide, rows_and_columns_post_exactly_one 2 (by decide) (by decide)⟩

/-- C9 as stated fails: for the board size 393216 line 27 asks for
393216 * 393216 modulo 2^32 = 0 variables and creates an empty `x`; the row
loop of line 32 fails on it and the constructor fails before line 44: no
diagonal constraint is posted, so no cell occurs in one. -/
theorem diagonal_loops_not_reached_at_393216 :
    xCount32 393216 = 0 ∧ allocateX 393216 = some (Space.init 0) ∧
    postRows (Matrix.mk 0 393216 393216) 393216 (Space.init 0) = none ∧
    beforeDiagonals 393216 = none :=
  ⟨by decide, by decide, postRows_short 393216 0 (by decide) (by decide) _,
    beforeDiagonals_large 393216 (by decide)⟩

/-- C9, amended: for every n >= 1 with n*n < 2^31 the constructor reaches
line 44 and the four diagonal loops succeed, and every cell
(r, c) of the board occurs in exactly one of the arrays posted by the two
"NW -> SE" loops and in exactly one of the arrays posted by the two "SW -> NE"
loops; every board variable of a posted array is a variable of `x` and occurs
in it once, so in each direction the posted cell sets partition the n*n cells. -/
theorem diagonal_arrays_partition_board (n : Nat) (hn : 1 ≤ n) (hb : n * n < 2147483648) :
    ∃ (m : Matrix) (s s₁ s₂ s₃ s₄ : Space) (ds₁ ds₂ ds₃ ds₄ : List (List Var)),
      beforeDiagonals n = some (m, s) ∧
      postNWSELower m n s = some s₁ ∧ postNWSEUpper m n s₁ = some s₂ ∧
      postSWNEFirst m n s₂ = some s₃ ∧ postSWNESecond m n s₃ = some s₄ ∧
      s₁.constraints = s.constraints ++ ds₁.map atmostOne ∧
      s₂.constraints = s₁.constraints ++ ds₂.map atmostOne ∧
      s₃.constraints = s₂.constraints ++ ds₃.map atmostOne ∧
      s₄.constraints = s₃.constraints ++ ds₄.map atmostOne ∧
      (∀ r : Nat, r < n → ∀ c : Nat, c < n →
        (∃! t : Nat, ∃ d, (ds₁ ++ ds₂)[t]? = some d ∧ Var.cell (r * n + c) ∈ d) ∧
        (∃! t : Nat, ∃ d, (ds₃ ++ ds₄)[t]? = some d ∧ Var.cell (r * n + c) ∈ d)) ∧
      (∀ d ∈ ds₁ ++ ds₂ ++ (ds₃ ++ ds₄),
        (∀ idx, Var.cell idx ∈ d → idx < n * n) ∧ ∀ idx, d.count (Var.cell idx) ≤ 1) := by
  have hn2 := lt_of_sq_lt n hb
  refine ⟨_, _, _, _, _, _, nwseLowerAll n, nwseUpperAll n, swneFirstAll n, swneSecondAll n,
    beforeDiagonals_eq n hb, postNWSELower_eq n hn2 _, postNWSEUpper_eq n hn2 _,
    postSWNEFirst_eq n hn2 _, postSWNESecond_eq n hn2 _, rfl, rfl, rfl, rfl, ?_, ?_⟩
  · intro r hr c hc
    exact ⟨nwse_cell_unique n r c hr hc, swne_cell_unique n r c hr hc⟩
  · intro d hd
    rcases List.mem_append.1 hd with h | h
    · exact nwse_wellformed n d h
    · exact swne_wellformed n d h

/-- Witness of the amended C9 on the 2-by-2 board. -/
theorem diagonal_arrays_partition_board_witness :
    1 ≤ 2 ∧ 2 * 2 < 2147483648 ∧
    ∃ (m : Matrix) (s s₁ s₂ s₃ s₄ : Space) (ds₁ ds₂ ds₃ ds₄ : List (List Var)),
      beforeDiagonals 2 = some (m, s) ∧
      postNWSELower m 2 s = some s₁ ∧
      postNWSEUpper m 2 s₁ = some s₂ ∧
      postSWNEFirst m 2 s₂ = some s₃ ∧
      postSWNESecond m 2 s₃ = some s₄ ∧
      s₁.constraints = s.constraints ++ ds₁.map atmostOne ∧
      s₂.constraints = s₁.constraints ++ ds₂.map atmostOne ∧
      s₃.constraints = s₂.constraints ++ ds₃.map atmostOne ∧
      s₄.constraints = s₃.constraints ++ ds₄.map atmostOne ∧
      (∀ r : Nat, r < 2 → ∀ c : Nat, c < 2 →
        (∃! t : Nat, ∃ d, (ds₁ ++ ds₂)[t]? = some d ∧ Var.cell (r * 2 + c) ∈ d) ∧
        (∃! t : Nat, ∃ d, (ds₃ ++ ds₄)[t]? = some d ∧ Var.cell (r * 2 + c) ∈ d)) ∧
      (∀ d ∈ ds₁ ++ ds₂ ++ (ds₃ ++ ds₄),
        (∀ idx, Var.cell idx ∈ d → idx < 2 * 2) ∧ ∀ idx, d.count (Var.cell idx) ≤ 1) :=
  ⟨by decide, by decide, diagonal_arrays_partition_board 2 (by decide) (by decide)⟩

/-- C5 as stated fails: 196608 is a board size of at least 4 for which line 27
asks for 196608 * 196608 modulo 2^32 = 0 variables, not n*n; the row loop of
line 32 fails on the empty `x` and the constructor fails: there is no posted
model that an assignment of the n*n cells could satisfy. -/
theorem construct_fails_at_196608 :
    4 ≤ 196608 ∧ xCount32 196608 = 0 ∧ allocateX 196608 = some (Space.init 0) ∧
    postRows (Matrix.mk 0 196608 196608) 196608 (Space.init 0) = none ∧
    construct 196608 = none :=
  ⟨by decide, by decide, by decide, postRows_short 196608 0 (by decide) (by decide) _,
    construct_large 196608 (by decide)⟩

/-- C5, amended: for every board size n >= 4 with n*n < 2^31 the constructor
succeeds and some 0/1 assignment of the n*n cell variables satisfies every
constraint it posted. -/
theorem construct_satisfiable (n : Nat) (hn : 4 ≤ n) (hb : n * n < 2147483648) :
    ∃ s, construct n = some s ∧ ∃ a : Assignment n, s.solvedBy a := by
  obtain ⟨s, hs⟩ : ∃ s, construct n = some s := ⟨_, construct_eq n hb⟩
  exact ⟨s, hs, placement n, (solvedBy_iff_valid n (placement n) s hs).2 (placement_valid n hn)⟩

/-- Witness of the amended C5 on the 4-by-4 board. -/
theorem construct_satisfiable_witness :
    4 ≤ 4 ∧ 4 * 4 < 2147483648 ∧ ∃ s, construct 4 = some s ∧ ∃ a : Assignment 4, s.solvedBy a :=
  ⟨by decide, by decide, construct_satisfiable 4 (by decide) (by decide)⟩

/-- C6: for n = 2 and for n = 3 the constructor succeeds and no 0/1 assignment
of the n*n cell variables satisfies all the constraints it posted. -/
theorem construct_unsatisfiable_two_three :
    (∃ s, construct 2 = some s ∧ ∀ a : Assignment 2, ¬ s.solvedBy a) ∧
    (∃ s, construct 3 = some s ∧ ∀ a : Assignment 3, ¬ s.solvedBy a) := by
  constructor
  · obtain ⟨s, hs⟩ : ∃ s, construct 2 = some s := ⟨_, construct_eq 2 (by decide)⟩
    exact ⟨s, hs, fun a h => no_valid_placement_two a ((solvedBy_iff_valid 2 a s hs).1 h)⟩
  · obtain ⟨s, hs⟩ : ∃ s, construct 3 = some s := ⟨_, construct_eq 3 (by decide)⟩
    exact ⟨s, hs, fun a h => no_valid_placement_three a ((solvedBy_iff_valid 3 a s hs).1 h)⟩

/-- C7: for n = 1 the constructor succeeds and the constraints it posted have
exactly one satisfying assignment, the one that sets the single cell to 1. -/
theorem construct_one_unique_solution :
    ∃ s, construct 1 = some s ∧ s.solvedBy (fun _ => true : Assignment 1) ∧
      ∀ a : Assignment 1, s.solvedBy a → a = fun _ => true := by
  refine ⟨_, construct_eq 1 (by decide), by decide, ?_⟩
  decide

/-- C8: for n = 0 the constructor creates no variable (none in `x`, none of
domain 0..0) and posts no constraint, the counter lists of the six constraint
loops are empty, and the empty assignment is a solution of the space. -/
theorem construct_zero_empty :
    ∃ s, construct 0 = some s ∧ s.xSize = 0 ∧ s.zeros = 0 ∧ s.constraints = [] ∧
      countUp 0 ((0 : Nat) : Int) = [] ∧ countUp 1 ((0 : Nat) : Int) = [] ∧
      countDown (((0 : Nat) : Int) - 2) 0 = [] ∧
      ∀ a : Assignment 0, s.solvedBy a := by
  refine ⟨_, construct_eq 0 (by decide), rfl, rfl, by decide, by decide, by decide, by decide, ?_⟩
  decide

/-- C10 as stated fails: on the 1-by-1 board with its cell set to 1, `print`
writes a tab before the field, so the line is not made of cell fields only. -/
theorem print_line_begins_with_tab :
    (print (Assignment.vars (fun _ => true : Assignment 1)) (OStream.mk "" 0)).map OStream.text
        = some "\t 1  \n" ∧
    (print (Assignment.vars (fun _ => true : Assignment 1)) (OStream.mk "" 0)).map OStream.text
        ≠ some (gridText 1 (fun i j => Assignment.cell (fun _ => true : Assignment 1) i j)) := by
  rw [print_vars_eq 1 (fun _ => true) (OStream.mk "" 0) rfl]
  constructor <;> decide

/-- C10, amended: for every n >= 1 and every complete 0/1 assignment, the text
`print` writes on a fresh stream consists of exactly n newline-terminated
lines; each line is one tab followed by exactly n cell fields, each field the
value of a cell right-aligned to width 2 and followed by two spaces (so " 0  "
or " 1  "); field j of line i shows `x[j*n + i]`. -/
theorem print_writes_tabbed_grid (n : Nat) (hn : 1 ≤ n) (a : Assignment n) :
    (print a.vars (OStream.mk "" 0)).map OStream.text
      = some (String.join ((List.range n).map (fun i => "\t"
          ++ String.join ((List.range n).map (fun j => fieldText (a.cell j i))) ++ "\n"))) ∧
    (∀ r c : Nat, a.cell r c = 0 ∨ a.cell r c = 1) ∧
    fieldText 0 = " 0  " ∧ fieldText 1 = " 1  " := by
  refine ⟨?_, ?_, by decide, by decide⟩
  · rw [print_vars_eq n a (OStream.mk "" 0) rfl]
    simp only [Option.map_some', Assignment.cell]
    congr 1
  · intro r c
    simp only [Assignment.cell, Assignment.value]
    split_ifs with h
    · cases a ⟨r * n + c, h⟩ <;> simp
    · exact Or.inl rfl

/-- Witness of the amended C10 on the 4-by-4 board with no queen. -/
theorem print_writes_tabbed_grid_witness :
    1 ≤ 4 ∧
    (print (Assignment.vars (fun _ => false : Assignment 4)) (OStream.mk "" 0)).map OStream.text
      = some (String.join ((List.range 4).map (fun i => "\t"
          ++ String.join ((List.range 4).map
              (fun j => fieldText (Assignment.cell (fun _ => false : Assignment 4) j i)))
          ++ "\n"))) ∧
    (∀ r c : Nat, Assignment.cell (fun _ => false : Assignment 4) r c = 0
      ∨ Assignment.cell (fun _ => false : Assignment 4) r c = 1) ∧
    fieldText 0 = " 0  " ∧ fieldText 1 = " 1  " :=
  ⟨by decide, print_writes_tabbed_grid 4 (by decide) (fun _ => false)⟩

/-! ## Transposition and the printed grid -/

theorem value_le_one {n : Nat} (a : Assignment n) (k : Nat) : a.value k = 0 ∨ a.value k = 1 := by
  simp only [Assignment.value]
  split_ifs with h
  · cases a ⟨k, h⟩ <;> simp
  · exact Or.inl rfl

theorem cell_div_mod (n r c : Nat) (hc : c < n) :
    (r * n + c) % n = c ∧ (r * n + c) / n = r := by
  constructor
  · rw [Nat.add_comm, Nat.add_mul_mod_self_right, Nat.mod_eq_of_lt hc]
  · rw [Nat.add_comm, Nat.add_mul_div_right _ _ (by omega), Nat.div_eq_of_lt hc, Nat.zero_add]

theorem transpose_cell {n : Nat} (a : Assignment n) (r c : Nat) (hr : r < n) (hc : c < n) :
    a.transpose.cell r c = a.cell c r := by
  have hlt : r * n + c < n * n := cell_index_lt n r c hr hc
  have hdm := cell_div_mod n r c hc
  have h01 := value_le_one a (c * n + r)
  simp only [Assignment.cell]
  rw [show a.transpose.value (r * n + c)
      = (decide (a.value ((r * n + c) % n * n + (r * n + c) / n) = 1)).toNat by
    simp [Assignment.value, Assignment.transpose, hlt]]
  rw [hdm.1, hdm.2]
  rcases h01 with h | h <;> simp [h]

theorem filter_range_congr (n : Nat) (p q : Nat → Bool) (h : ∀ k < n, p k = q k) :
    (List.range n).filter p = (List.range n).filter q := by
  apply List.filter_congr
  intro k hk
  exact h k (List.mem_range.1 hk)

theorem valid_transpose (n : Nat) (a : Assignment n) (h : ValidPlacement n a) :
    ValidPlacement n a.transpose := by
  obtain ⟨hrow, hcol, hd, hs⟩ := h
  refine ⟨?_, ?_, ?_, ?_⟩
  · intro r hr
    rw [filter_range_congr n _ (fun c => a.cell c r == 1)
      (fun c hc => by simp only [transpose_cell a r c hr hc])]
    exact hcol r hr
  · intro c hc
    rw [filter_range_congr n _ (fun r => a.cell c r == 1)
      (fun r hr => by simp only [transpose_cell a r c hr hc])]
    exact hrow c hc
  · intro r₁ hr₁ c₁ hc₁ r₂ hr₂ c₂ hc₂ h₁ h₂ hdiff
    rw [transpose_cell a r₁ c₁ hr₁ hc₁] at h₁
    rw [transpose_cell a r₂ c₂ hr₂ hc₂] at h₂
    have := hd c₁ hc₁ r₁ hr₁ c₂ hc₂ r₂ hr₂ h₁ h₂ (by omega)
    exact ⟨this.2, this.1⟩
  · intro r₁ hr₁ c₁ hc₁ r₂ hr₂ c₂ hc₂ h₁ h₂ hsum
    rw [transpose_cell a r₁ c₁ hr₁ hc₁] at h₁
    rw [transpose_cell a r₂ c₂ hr₂ hc₂] at h₂
    have := hs c₁ hc₁ r₁ hr₁ c₂ hc₂ r₂ hr₂ h₁ h₂ (by omega)
    exact ⟨this.2, this.1⟩

theorem tabbedGridText_congr (n : Nat) (f g : Nat → Nat → Nat)
    (h : ∀ i < n, ∀ j < n, f i j = g i j) : tabbedGridText n f = tabbedGridText n g := by
  unfold tabbedGridText
  congr 1
  apply List.map_congr_left
  intro i hi
  congr 3
  apply List.map_congr_left
  intro j hj
  rw [h i (List.mem_range.1 hi) j (List.mem_range.1 hj)]

theorem print_text_eq (n : Nat) (a : Assignment n) :
    (print a.vars (OStream.mk "" 0)).map OStream.text
      = some (tabbedGridText n (fun i j => a.cell j i)) := by
  rw [print_vars_eq n a (OStream.mk "" 0) rfl]
  simp only [Option.map_some', Assignment.cell, tabbedGridText]
  congr 1

theorem flatten_inj_of_length {α : Type} (L : Nat) :
    ∀ (l₁ l₂ : List (List α)), l₁.length = l₂.length →
      (∀ b ∈ l₁, b.length = L) → (∀ b ∈ l₂, b.length = L) →
      l₁.flatten = l₂.flatten → l₁ = l₂ := by
  intro l₁
  induction l₁ with
  | nil =>
    intro l₂ hlen _ _ _
    cases l₂ with
    | nil => rfl
    | cons b t => simp at hlen
  | cons b₁ t₁ ih =>
    intro l₂ hlen h₁ h₂ hf
    cases l₂ with
    | nil => simp at hlen
    | cons b₂ t₂ =>
      have hb₁ := h₁ b₁ (List.mem_cons_self _ _)
      have hb₂ := h₂ b₂ (List.mem_cons_self _ _)
      simp only [List.flatten_cons] at hf
      have := List.append_inj hf (by rw [hb₁, hb₂])
      rw [this.1, ih t₂ (by simpa using hlen) (fun b hb => h₁ b (List.mem_cons_of_mem _ hb))
        (fun b hb => h₂ b (List.mem_cons_of_mem _ hb)) this.2]

theorem fieldText_data (v : Nat) (hv : v = 0 ∨ v = 1) :
    (fieldText v).data = [' ', (if v = 1 then '1' else '0'), ' ', ' '] := by
  rcases hv with h | h <;> subst h <;> decide

theorem fields_length (n : Nat) (f : Nat → Nat) (hf : ∀ j < n, f j = 0 ∨ f j = 1) :
    ((List.range n).map (fun j => (fieldText (f j)).data)).flatten.length = 4 * n := by
  rw [List.length_flatten]
  have : ((List.range n).map (fun j => (fieldText (f j)).data)).map List.length
      = (List.range n).map (fun _ => 4) := by
    rw [List.map_map]
    apply List.map_congr_left
    intro j hj
    simp [fieldText_data (f j) (hf j (List.mem_range.1 hj))]
  rw [this]
  simp
  ring

theorem line_data (n : Nat) (f : Nat → Nat) :
    ("\t" ++ String.join ((List.range n).map (fun j => fieldText (f j))) ++ "\n").data
      = '\t' :: (((List.range n).map (fun j => (fieldText (f j)).data)).flatten ++ ['\n']) := by
  simp [String.data_append, String.data_join, List.map_map, Function.comp_def]

/-- Two grids of 0/1 values with the same text display the same values. -/
theorem tabbedGridText_inj (n : Nat) (f g : Nat → Nat → Nat)
    (hf : ∀ i < n, ∀ j < n, f i j = 0 ∨ f i j = 1)
    (hg : ∀ i < n, ∀ j < n, g i j = 0 ∨ g i j = 1)
    (h : tabbedGridText n f = tabbedGridText n g) :
    ∀ i < n, ∀ j < n, f i j = g i j := by
  have hd := congrArg String.data h
  simp only [tabbedGridText, String.data_join, List.map_map, Function.comp_def, line_data] at hd
  have hlines := flatten_inj_of_length (4 * n + 2) _ _ (by simp) (by
      intro b hb
      obtain ⟨i, hi, rfl⟩ := List.mem_map.1 hb
      simp [fields_length n (f i) (hf i (List.mem_range.1 hi))]) (by
      intro b hb
      obtain ⟨i, hi, rfl⟩ := List.mem_map.1 hb
      simp [fields_length n (g i) (hg i (List.mem_range.1 hi))]) hd
  intro i hi j hj
  have hline := List.map_inj_left.1 hlines i (List.mem_range.2 hi)
  simp only [List.cons.injEq, true_and] at hline
  have hfl := (List.append_inj' hline rfl).1
  have hfields := flatten_inj_of_length 4 _ _ (by simp) (by
      intro b hb
      obtain ⟨k, hk, rfl⟩ := List.mem_map.1 hb
      simp [fieldText_data (f i k) (hf i hi k (List.mem_range.1 hk))]) (by
      intro b hb
      obtain ⟨k, hk, rfl⟩ := List.mem_map.1 hb
      simp [fieldText_data (g i k) (hg i hi k (List.mem_range.1 hk))]) hfl
  have hfield := List.map_inj_left.1 hfields j (List.mem_range.2 hj)
  rw [fieldText_data _ (hf i hi j hj), fieldText_data _ (hg i hi j hj)] at hfield
  rcases hf i hi j hj with h1 | h1 <;> rcases hg i hi j hj with h2 | h2 <;>
    simp [h1, h2] at hfield ⊢

theorem mem_onesOf (n : Nat) (shown : Nat → Nat → Nat) (i j : Nat) :
    (i, j) ∈ onesOf n shown ↔ i < n ∧ j < n ∧ shown i j = 1 := by
  simp only [onesOf, List.mem_flatten, List.mem_map, List.mem_range]
  constructor
  · rintro ⟨l, ⟨i', hi', rfl⟩, hmem⟩
    obtain ⟨j', hj', he⟩ := List.mem_map.1 hmem
    have h2 := List.mem_filter.1 hj'
    injection he with h3 h4
    subst h3 h4
    exact ⟨hi', List.mem_range.1 h2.1, by simpa using h2.2⟩
  · rintro ⟨hi, hj, hs⟩
    refine ⟨_, ⟨i, hi, rfl⟩, ?_⟩
    exact List.mem_map.2 ⟨j, List.mem_filter.2 ⟨List.mem_range.2 hj, by simpa using hs⟩, rfl⟩

theorem write_fieldOf (os : OStream) (v : IntVar) :
    (((os.setWidth 2).write v.text).write "  ")
      = OStream.mk (os.text ++ fieldOf v.text) 0 := by
  simp only [OStream.setWidth, OStream.write, fieldOf, Nat.zero_sub,
    List.replicate_zero, String.append_assoc]
  congr 1

theorem getElem?_getD (x : List IntVar) (k : Nat) (hk : k < x.length) :
    x[k]? = some (x.getD k (IntVar.val 0)) := by
  simp [List.getD, List.getElem?_eq_getElem hk]

theorem print_row_any (n : Nat) (x : List IntVar) (hx : x.length = n * n) (i : Nat) (hi : i < n)
    (os : OStream) (hos : os.width = 0) :
    (do
      let os ← (countUp 0 (n : Int)).foldlM (fun os j => do
        let os := os.setWidth 2
        let k ← (Matrix.mk (n * n) n n).index i j
        let v ← x[k]?
        pure ((os.write v.text).write "  ")) (os.write "\t")
      pure os.endl)
      = some (OStream.mk (os.text ++ ("\t"
          ++ String.join ((List.range n).map
              (fun j => fieldOf (x.getD (j * n + i) (IntVar.val 0)).text))
          ++ "\n")) 0) := by
  rw [countUp_zero, foldlM_write _ (fun j => fieldOf (x.getD (j * n + i) (IntVar.val 0)).text)
    (List.range n)]
  · simp only [OStream.write, hos, Nat.zero_sub, List.replicate_zero, OStream.endl,
      String.append_assoc, empty_append, Option.bind_eq_bind, Option.some_bind, Option.pure_def]
  · intro os' _ j hj
    have hj2 : j < n := List.mem_range.1 hj
    simp only [index_ofNat n i j hi hj2, Option.bind_eq_bind, Option.some_bind,
      getElem?_getD x _ (by rw [hx]; exact cell_index_lt n j i hj2 hi), Option.pure_def]
    exact congrArg some (write_fieldOf os' _)
  · simp [OStream.write]

/-- What `print` writes for any array of `n * n` variables, assigned or not. -/
theorem print_any_eq (n : Nat) (x : List IntVar) (hx : x.length = n * n) (os : OStream)
    (hos : os.width = 0) :
    print x os = some
      (OStream.mk (os.text ++ String.join ((List.range n).map (fun i => "\t"
          ++ String.join ((List.range n).map
              (fun j => fieldOf (x.getD (j * n + i) (IntVar.val 0)).text))
          ++ "\n"))) 0) := by
  simp only [print, hx, Nat.sqrt_eq, view_ofNat, Option.bind_eq_bind, Option.some_bind]
  have := foldlM_write (fun os i => do
      let os ← (countUp 0 (n : Int)).foldlM (fun os j => do
        let os := os.setWidth 2
        let k ← (Matrix.mk (n * n) n n).index i j
        let v ← x[k]?
        pure ((os.write v.text).write "  ")) (os.write "\t")
      pure os.endl)
    (fun i => "\t"
      ++ String.join ((List.range n).map
          (fun j => fieldOf (x.getD (j * n + i) (IntVar.val 0)).text)) ++ "\n")
    (List.range n)
    (fun os hos i hi => print_row_any n x hx i (List.mem_range.1 hi) os hos) os hos
  rw [← countUp_zero] at this
  exact this

/-! ## The padding of the diagonal arrays -/

theorem count_cons_zero {n : Nat} (a : Assignment n) (d : List Var) :
    count a (Var.zero :: d) 1 = count a d 1 := by
  simp [count, List.countP_cons, Var.value]

theorem count_cons_cell {n : Nat} (a : Assignment n) (k : Nat) (d : List Var) :
    count a (Var.cell k :: d) 1 = count a d 1 + (if a.value k = 1 then 1 else 0) := by
  simp [count, List.countP_cons, Var.value]

theorem count_eq_zero_iff {n : Nat} (a : Assignment n) (d : List Var) :
    count a d 1 = 0 ↔ ∀ idx, Var.cell idx ∈ d → a.value idx ≠ 1 := by
  simp only [count, List.countP_eq_zero, beq_iff_eq]
  constructor
  · intro h idx hmem
    exact h _ hmem
  · intro h v hv
    cases v with
    | zero => simp [Var.value]
    | cell idx => exact h idx hv

/-- An at-most-one constraint over an array in which no board variable occurs
twice says that no two of its board variables are 1; the zeros do not count. -/
theorem atmost_holds_iff {n : Nat} (a : Assignment n) (d : List Var)
    (hc : ∀ idx, d.count (Var.cell idx) ≤ 1) :
    (atmostOne d).holds a ↔
      ∀ i₁ i₂, Var.cell i₁ ∈ d → Var.cell i₂ ∈ d → a.value i₁ = 1 → a.value i₂ = 1 →
        i₁ = i₂ := by
  simp only [atmostOne, Constraint.holds]
  induction d with
  | nil => simp [count]
  | cons v d ih =>
    have hcd : ∀ idx, d.count (Var.cell idx) ≤ 1 := by
      intro idx
      have := hc idx
      rw [List.count_cons] at this
      omega
    have ih2 := ih hcd
    cases v with
    | zero =>
      rw [count_cons_zero, ih2]
      have hz : ∀ i, (Var.cell i ∈ Var.zero :: d ↔ Var.cell i ∈ d) := by
        intro i
        simp
      simp only [hz]
    | cell k =>
      have hk : Var.cell k ∉ d := by
        have := hc k
        rw [List.count_cons_self] at this
        exact List.count_eq_zero.1 (by omega)
      rw [count_cons_cell]
      by_cases hv : a.value k = 1
      · simp only [hv, if_true]
        have e : count a d 1 + 1 ≤ 1 ↔ count a d 1 = 0 := by omega
        rw [e, count_eq_zero_iff]
        constructor
        · intro h i₁ i₂ h₁ h₂ v₁ v₂
          rcases List.mem_cons.1 h₁ with e₁ | m₁
          · rcases List.mem_cons.1 h₂ with e₂ | m₂
            · injection e₁ with e₁
              injection e₂ with e₂
              omega
            · exact absurd v₂ (h i₂ m₂)
          · exact absurd v₁ (h i₁ m₁)
        · intro h idx hmem hval
          have := h idx k (List.mem_cons_of_mem _ hmem) (List.mem_cons_self _ _) hval hv
          subst this
          exact hk hmem
      · simp only [hv, if_false, Nat.add_zero]
        rw [ih2]
        constructor
        · intro h i₁ i₂ h₁ h₂ v₁ v₂
          rcases List.mem_cons.1 h₁ with e₁ | m₁
          · injection e₁ with e₁
            subst e₁
            exact absurd v₁ hv
          · rcases List.mem_cons.1 h₂ with e₂ | m₂
            · injection e₂ with e₂
              subst e₂
              exact absurd v₂ hv
            · exact h i₁ i₂ m₁ m₂ v₁ v₂
        · intro h i₁ i₂ h₁ h₂ v₁ v₂
          exact h i₁ i₂ (List.mem_cons_of_mem _ h₁) (List.mem_cons_of_mem _ h₂) v₁ v₂

/-- The meaning of an at-most-one constraint over an array that ranges over
exactly the board cells `m(c, r)` with the property `P c r`, each once. -/
theorem holds_iff_on_cells (n : Nat) (a : Assignment n) (d : List Var) (P : Nat → Nat → Prop)
    (h₁ : ∀ idx, Var.cell idx ∈ d → idx < n * n)
    (h₂ : ∀ idx, d.count (Var.cell idx) ≤ 1)
    (h₃ : ∀ c < n, ∀ r < n, (Var.cell (r * n + c) ∈ d ↔ P c r)) :
    (atmostOne d).holds a ↔
      ∀ r₁ < n, ∀ c₁ < n, ∀ r₂ < n, ∀ c₂ < n, P c₁ r₁ → P c₂ r₂ →
        a.cell r₁ c₁ = 1 → a.cell r₂ c₂ = 1 → r₁ = r₂ ∧ c₁ = c₂ := by
  rw [atmost_holds_iff a d h₂]
  constructor
  · intro h r₁ hr₁ c₁ hc₁ r₂ hr₂ c₂ hc₂ p₁ p₂ v₁ v₂
    have := h _ _ ((h₃ c₁ hc₁ r₁ hr₁).2 p₁) ((h₃ c₂ hc₂ r₂ hr₂).2 p₂) v₁ v₂
    exact cell_index_inj n r₁ c₁ r₂ c₂ hc₁ hc₂ this
  · intro h i₁ i₂ m₁ m₂ v₁ v₂
    have b₁ := h₁ i₁ m₁
    have b₂ := h₁ i₂ m₂
    have hn : 0 < n := by
      rcases Nat.eq_zero_or_pos n with h0 | h0
      · subst h0; simp at b₁
      · exact h0
    have e₁ : i₁ / n * n + i₁ % n = i₁ := Nat.div_add_mod' i₁ n
    have e₂ : i₂ / n * n + i₂ % n = i₂ := Nat.div_add_mod' i₂ n
    have hd₁ : i₁ / n < n := Nat.div_lt_of_lt_mul b₁
    have hd₂ : i₂ / n < n := Nat.div_lt_of_lt_mul b₂
    have hm₁ : i₁ % n < n := Nat.mod_lt _ hn
    have hm₂ : i₂ % n < n := Nat.mod_lt _ hn
    rw [← e₁] at m₁ v₁
    rw [← e₂] at m₂ v₂
    have := h (i₁ / n) hd₁ (i₁ % n) hm₁ (i₂ / n) hd₂ (i₂ % n) hm₂
      ((h₃ _ hm₁ _ hd₁).1 m₁) ((h₃ _ hm₂ _ hd₂).1 m₂) v₁ v₂
    rw [← e₁, ← e₂, this.1, this.2]

theorem nwse_mem_covers (n : Nat) (d : List Var) (hd : d ∈ nwseLowerAll n ++ nwseUpperAll n) :
    d.length = n ∧ ∃ k : Int, CoversDiff n k d := by
  rcases List.mem_append.1 hd with h | h
  · obtain ⟨i, hi, rfl⟩ := List.mem_map.1 h
    have hi2 := List.mem_range.1 hi
    exact ⟨by simp [nwseLowerVars]; omega, _, nwseLower_covers n i hi2⟩
  · obtain ⟨i, hi, rfl⟩ := List.mem_map.1 h
    have hi2 := List.mem_range'_1.1 hi
    exact ⟨by simp [nwseUpperVars]; omega, _, nwseUpper_covers n i (by omega)⟩

theorem swne_mem_covers (n : Nat) (d : List Var) (hd : d ∈ swneFirstAll n ++ swneSecondAll n) :
    d.length = n ∧ ∃ t : Nat, CoversSum n t d := by
  rcases List.mem_append.1 hd with h | h
  · obtain ⟨i, hi, rfl⟩ := List.mem_map.1 h
    have hi2 := List.mem_range.1 (List.mem_reverse.1 hi)
    exact ⟨by simp [swneFirstVars]; omega, _, swneFirst_covers n i (by omega)⟩
  · obtain ⟨i, hi, rfl⟩ := List.mem_map.1 h
    have hi2 := List.mem_range.1 hi
    exact ⟨by simp [swneSecondVars]; omega, _, swneSecond_covers n i hi2⟩

theorem zero_or_cell (n : Nat) (d : List Var) (h : ∀ idx, Var.cell idx ∈ d → idx < n * n) :
    ∀ v ∈ d, v = Var.zero ∨ ∃ idx, idx < n * n ∧ v = Var.cell idx := by
  intro v hv
  cases v with
  | zero => exact Or.inl rfl
  | cell idx => exact Or.inr ⟨idx, h idx hv, rfl⟩

/-- C11 as stated fails on its own sample: for the 4-queens solution with
queens at (row, column) (0,1), (1,3), (2,0), (3,2), `print` writes the 1s at
the (line, field) positions (0,2), (1,0), (2,3), (3,1), the transposed ones;
line 0, field 1 shows the cell of row 1 and column 0, which is 0. -/
theorem print_transposes_sample :
    onesOf 4 (fun r c => sample4.cell r c) = [(0, 1), (1, 3), (2, 0), (3, 2)] ∧
    (print sample4.vars (OStream.mk "" 0)).map OStream.text
      = some "\t 0   0   1   0  \n\t 1   0   0   0  \n\t 0   0   0   1  \n\t 0   1   0   0  \n" ∧
    (print sample4.vars (OStream.mk "" 0)).map OStream.text
      ≠ some (tabbedGridText 4 (fun i j => sample4.cell i j)) ∧
    (print sample4.vars (OStream.mk "" 0)).map OStream.text
      = some (tabbedGridText 4 (fun i j => sample4.cell j i)) ∧
    onesOf 4 (fun i j => sample4.cell j i) = [(0, 2), (1, 0), (2, 3), (3, 1)] := by
  rw [print_text_eq 4 sample4]
  refine ⟨by decide, by decide, by decide, rfl, by decide⟩

/-- C11, amended: for every n >= 1 and every complete 0/1 assignment, the
value `print` shows at text line i, field j is the value of the cell at
(row j, column i); any grid of 0/1 values with the printed text shows exactly
these values, so the non-zero positions of the printed grid are the transposed
queen positions; for the 4-queens solution with queens at (0,1), (1,3), (2,0),
(3,2) the printed 1s are at the (line, field) positions (0,2), (1,0), (2,3),
(3,1). -/
theorem print_shows_transposed_cells (n : Nat) (hn : 1 ≤ n) (a : Assignment n) :
    (print a.vars (OStream.mk "" 0)).map OStream.text
      = some (tabbedGridText n (fun i j => a.cell j i)) ∧
    (∀ shown : Nat → Nat → Nat, (∀ i < n, ∀ j < n, shown i j = 0 ∨ shown i j = 1) →
      (print a.vars (OStream.mk "" 0)).map OStream.text = some (tabbedGridText n shown) →
      ∀ i < n, ∀ j < n, shown i j = a.cell j i) ∧
    (∀ i j : Nat, (i, j) ∈ onesOf n (fun i j => a.cell j i) ↔ i < n ∧ j < n ∧ a.cell j i = 1) ∧
    onesOf 4 (fun i j => sample4.cell j i) = [(0, 2), (1, 0), (2, 3), (3, 1)] := by
  refine ⟨print_text_eq n a, ?_, fun i j => mem_onesOf n _ i j, by decide⟩
  intro shown h01 htext
  rw [print_text_eq n a] at htext
  have heq := Option.some.inj htext
  intro i hi j hj
  exact (tabbedGridText_inj n _ _ (fun i _ j _ => value_le_one a _) h01 heq i hi j hj).symm

/-- Witness of the amended C11 on the sample 4-queens solution. -/
theorem print_shows_transposed_cells_witness :
    1 ≤ 4 ∧
    (print sample4.vars (OStream.mk "" 0)).map OStream.text
      = some (tabbedGridText 4 (fun i j => sample4.cell j i)) ∧
    (∀ shown : Nat → Nat → Nat, (∀ i < 4, ∀ j < 4, shown i j = 0 ∨ shown i j = 1) →
      (print sample4.vars (OStream.mk "" 0)).map OStream.text = some (tabbedGridText 4 shown) →
      ∀ i < 4, ∀ j < 4, shown i j = sample4.cell j i) ∧
    (∀ i j : Nat, (i, j) ∈ onesOf 4 (fun i j => sample4.cell j i)
      ↔ i < 4 ∧ j < 4 ∧ sample4.cell j i = 1) ∧
    onesOf 4 (fun i j => sample4.cell j i) = [(0, 2), (1, 0), (2, 3), (3, 1)] :=
  ⟨by decide, print_shows_transposed_cells 4 (by decide) sample4⟩

/-- C13 as stated fails: on the 1-by-1 board whose variable still has the
values 0..1, `print` does not fail; it writes the line with the interval. -/
theorem print_unassigned_does_not_fail :
    print [IntVar.range 0 1] (OStream.mk "" 0) = some (OStream.mk "\t[0..1]  \n" 0) ∧
    print [IntVar.range 0 1] (OStream.mk "" 0) ≠ none := by
  rw [print_any_eq 1 [IntVar.range 0 1] rfl (OStream.mk "" 0) rfl]
  constructor
  · decide
  · simp

/-- C13, amended: for every n >= 1 and every array of n*n cell variables,
assigned or not, `print` does not fail: it writes the n lines of the grid, a
tab and n fields each, the field of a variable being its stream output
right-aligned to width 2 and followed by two spaces; the output of an
unassigned variable is its interval, so a variable with the values 0..1 is
shown as `[0..1]`. -/
theorem print_never_fails (n : Nat) (hn : 1 ≤ n) (x : List IntVar) (hx : x.length = n * n) :
    (print x (OStream.mk "" 0)).map OStream.text
      = some (String.join ((List.range n).map (fun i => "\t"
          ++ String.join ((List.range n).map
              (fun j => fieldOf (x.getD (j * n + i) (IntVar.val 0)).text))
          ++ "\n"))) ∧
    fieldOf (IntVar.range 0 1).text = "[0..1]  " ∧
    fieldOf (IntVar.val 0).text = " 0  " ∧ fieldOf (IntVar.val 1).text = " 1  " := by
  refine ⟨?_, by decide, by decide, by decide⟩
  rw [print_any_eq n x hx (OStream.mk "" 0) rfl]
  simp only [Option.map_some']
  congr 1

/-- Witness of the amended C13 on a 2-by-2 board with two unassigned variables. -/
theorem print_never_fails_witness :
    1 ≤ 2 ∧
    [IntVar.val 1, IntVar.range 0 1, IntVar.range 0 1, IntVar.val 0].length = 2 * 2 ∧
    (print [IntVar.val 1, IntVar.range 0 1, IntVar.range 0 1, IntVar.val 0]
        (OStream.mk "" 0)).map OStream.text
      = some (String.join ((List.range 2).map (fun i => "\t"
          ++ String.join ((List.range 2).map
              (fun j => fieldOf (([IntVar.val 1, IntVar.range 0 1, IntVar.range 0 1,
                IntVar.val 0] : List IntVar).getD (j * 2 + i) (IntVar.val 0)).text))
          ++ "\n"))) ∧
    fieldOf (IntVar.range 0 1).text = "[0..1]  " ∧
    fieldOf (IntVar.val 0).text = " 0  " ∧ fieldOf (IntVar.val 1).text = " 1  " :=
  ⟨by decide, rfl, print_never_fails 2 (by decide)
    [IntVar.val 1, IntVar.range 0 1, IntVar.range 0 1, IntVar.val 0] rfl⟩

/-- C16: for every n >= 1, if the constructor succeeds (which it does only
for n*n < 2^31) and a 0/1 assignment satisfies all the constraints it posted,
so does its transpose (the cell of row r and column c
taking the value of the cell of row c and column r); the transpose is a valid
N-Queens placement, and it is the grid `print` writes: line i, field j shows
the cell of row i and column j of the transpose. -/
theorem solutions_closed_under_transposition (n : Nat) (hn : 1 ≤ n) (a : Assignment n)
    (s : Space) (hs : construct n = some s) (ha : s.solvedBy a) :
    n * n < 2147483648 ∧
    (∀ r < n, ∀ c < n, a.transpose.cell r c = a.cell c r) ∧
    s.solvedBy a.transpose ∧
    ValidPlacement n a.transpose ∧
    (print a.vars (OStream.mk "" 0)).map OStream.text
      = some (tabbedGridText n (fun i j => a.transpose.cell i j)) := by
  have hv : ValidPlacement n a.transpose :=
    valid_transpose n a ((solvedBy_iff_valid n a s hs).1 ha)
  refine ⟨construct_bound n s hs, fun r hr c hc => transpose_cell a r c hr hc,
    (solvedBy_iff_valid n a.transpose s hs).2 hv, hv, ?_⟩
  rw [print_text_eq n a]
  congr 1
  apply tabbedGridText_congr
  intro i hi j hj
  exact (transpose_cell a i j hi hj).symm

/-- Witness of C16 on the sample 4-queens solution. -/
theorem solutions_closed_under_transposition_witness :
    1 ≤ 4 ∧ ∃ s, construct 4 = some s ∧ s.solvedBy sample4 ∧
      4 * 4 < 2147483648 ∧
      (∀ r < 4, ∀ c < 4, sample4.transpose.cell r c = sample4.cell c r) ∧
      s.solvedBy sample4.transpose ∧
      ValidPlacement 4 sample4.transpose ∧
      (print sample4.vars (OStream.mk "" 0)).map OStream.text
        = some (tabbedGridText 4 (fun i j => sample4.transpose.cell i j)) := by
  obtain ⟨s, hs⟩ : ∃ s, construct 4 = some s := ⟨_, construct_eq 4 (by decide)⟩
  have ha : s.solvedBy sample4 := (solvedBy_iff_valid 4 sample4 s hs).2 (by decide)
  exact ⟨by decide, s, hs, ha,
    solutions_closed_under_transposition 4 (by decide) sample4 s hs ha⟩
/-- C12 as stated fails: the int -1 reaches the constructor as the unsigned
size 4294967295; line 27, the first step of the constructor, asks for
4294967295 * 4294967295 modulo 2^32 = 1 variable and creates it, the view of
sides -1 and -1 over it is built, and the constructor fails only afterwards,
in the row loop of line 32, whose first slice `m.row(0)` lies outside the
view: the failure does not come before the allocation of `x`. -/
theorem negative_size_fails_after_allocation_at_minus_one :
    toUnsigned32 (-1) = 4294967295 ∧
    allocateX (toUnsigned32 (-1)) = some (Space.init 1) ∧
    Matrix.view (Space.init 1).xSize (toInt32 (toUnsigned32 (-1))) (toInt32 (toUnsigned32 (-1)))
      = some (Matrix.mk 1 (-1) (-1)) ∧
    Matrix.row (Matrix.mk 1 (-1) (-1)) 0 = none ∧
    postRows (Matrix.mk 1 (-1) (-1)) (toUnsigned32 (-1)) (Space.init 1) = none ∧
    construct (toUnsigned32 (-1)) = none :=
  ⟨by decide, by decide, by decide, by decide, forUp_large _ _ _ _ (by decide),
    construct_large _ (by decide)⟩

/-- C12, amended: a negative int v, -2^31 <= v < 0, reaches the constructor
as the unsigned size v + 2^32, at least 2^31, and the construction fails, but
not before the allocation and not by a check of the size: line 27 first asks
for (v + 2^32)^2 modulo 2^32 variables, converted to int, and creates them
when that count is not negative (v*v variables when v*v < 2^31); the view is
then built with the sides v and v; the failure comes in the row loop of
line 32, where no row slice lies inside a view of negative height. -/
theorem negative_size_fails_after_allocation (v : Int) (hlo : -2147483648 ≤ v) (hv : v < 0) :
    (toUnsigned32 v : Int) = v + 4294967296 ∧ 2147483648 ≤ toUnsigned32 v ∧
    toInt32 (toUnsigned32 v) = v ∧
    construct (toUnsigned32 v) = none ∧
    (0 ≤ xCount32 (toUnsigned32 v) →
      allocateX (toUnsigned32 v) = some (Space.init (xCount32 (toUnsigned32 v)).toNat) ∧
      Matrix.view (Space.init (xCount32 (toUnsigned32 v)).toNat).xSize
        (toInt32 (toUnsigned32 v)) (toInt32 (toUnsigned32 v))
        = some (Matrix.mk (xCount32 (toUnsigned32 v)).toNat v v)) ∧
    (v * v < 2147483648 → xCount32 (toUnsigned32 v) = v * v) ∧
    (∀ (k : Nat) (i : Int), 0 ≤ i → Matrix.row (Matrix.mk k v v) i = none) ∧
    (∀ (m : Matrix) (s : Space), postRows m (toUnsigned32 v) s = none) := by
  have h := toUnsigned32_neg v hlo hv
  have h2 : 2147483648 ≤ toUnsigned32 v := by omega
  have h3 : toInt32 (toUnsigned32 v) = v := by
    unfold toInt32
    split_ifs <;> omega
  have hsq : 2147483648 ≤ toUnsigned32 v * toUnsigned32 v := by
    have := Nat.le_mul_of_pos_left (toUnsigned32 v) (show 0 < toUnsigned32 v by omega)
    omega
  have e : ((toUnsigned32 v : Int) * (toUnsigned32 v : Int))
      = v * v + 4294967296 * (2 * v + 4294967296) := by
    rw [h]; ring
  have hu : (toUnsigned32 ((toUnsigned32 v : Int) * (toUnsigned32 v : Int)) : Int)
      = (v * v) % 4294967296 := by
    rw [toUnsigned32_cast, e, Int.add_mul_emod_self_left]
  refine ⟨h, h2, h3, construct_large _ hsq, ?_, ?_, ?_,
    fun m s => forUp_large _ _ _ _ (by omega)⟩
  · intro h0
    refine ⟨by simp [allocateX, IntVarArray.create, h0], ?_⟩
    have hc : xCount32 (toUnsigned32 v) = (v * v) % 4294967296 := by
      have hx : xCount32 (toUnsigned32 v)
          = toInt32 (toUnsigned32 ((toUnsigned32 v : Int) * (toUnsigned32 v : Int))) := rfl
      rw [hx] at h0 ⊢
      unfold toInt32 at h0 ⊢
      have hlt := toUnsigned32_lt ((toUnsigned32 v : Int) * (toUnsigned32 v : Int))
      split_ifs at h0 ⊢ with hlt2
      · exact hu
      · exfalso
        omega
    have hmod : (v * v) % 4294967296 % 4294967296 = (v * v) % 4294967296 :=
      Int.emod_emod_of_dvd _ (dvd_refl _)
    have hsz : (((Space.init (xCount32 (toUnsigned32 v)).toNat).xSize : Nat) : Int)
        = xCount32 (toUnsigned32 v) := Int.toNat_of_nonneg h0
    rw [h3]
    unfold Matrix.view
    rw [if_pos]
    · rfl
    · rw [hsz, hc, hmod]
  · intro hvv
    have hpos : 0 ≤ v * v := mul_self_nonneg v
    have hu2 : (toUnsigned32 ((toUnsigned32 v : Int) * (toUnsigned32 v : Int)) : Int) = v * v := by
      rw [hu]
      exact Int.emod_eq_of_lt hpos (by omega)
    unfold xCount32 toInt32
    split_ifs with hlt
    · exact hu2
    · exfalso
      omega
  · intro k i hi
    have hneg : ¬ (i + 1 ≤ v) := by omega
    simp [Matrix.row, hneg]

/-- Witness of the amended C12 for the int -3, which asks for 9 variables. -/
theorem negative_size_fails_after_allocation_witness :
    (-2147483648 : Int) ≤ -3 ∧ (-3 : Int) < 0 ∧
    (toUnsigned32 (-3) : Int) = -3 + 4294967296 ∧ 2147483648 ≤ toUnsigned32 (-3) ∧
    toInt32 (toUnsigned32 (-3)) = -3 ∧
    construct (toUnsigned32 (-3)) = none ∧
    (0 ≤ xCount32 (toUnsigned32 (-3)) →
      allocateX (toUnsigned32 (-3)) = some (Space.init (xCount32 (toUnsigned32 (-3))).toNat) ∧
      Matrix.view (Space.init (xCount32 (toUnsigned32 (-3))).toNat).xSize
        (toInt32 (toUnsigned32 (-3))) (toInt32 (toUnsigned32 (-3)))
        = some (Matrix.mk (xCount32 (toUnsigned32 (-3))).toNat (-3) (-3))) ∧
    ((-3 : Int) * (-3) < 2147483648 → xCount32 (toUnsigned32 (-3)) = (-3) * (-3)) ∧
    (∀ (k : Nat) (i : Int), 0 ≤ i → Matrix.row (Matrix.mk k (-3) (-3)) i = none) ∧
    (∀ (m : Matrix) (s : Space), postRows m (toUnsigned32 (-3)) s = none) :=
  ⟨by decide, by decide, negative_size_fails_after_allocation (-3) (by decide) (by decide)⟩

/-- C18 as stated fails: for the size 262144, which is at least 2, the start
value `opt.size() - 2` is 262142 = n - 2, but the loop of lines 62-68 does not
run n - 1 times: line 27 asks for 262144 * 262144 modulo 2^32 = 0 variables,
the row loop of line 32 fails on the empty `x`, and the constructor fails
before it reaches line 62. -/
theorem swne_first_loop_not_reached_at_262144 :
    2 ≤ 262144 ∧ swneFirstStart32 262144 = 262142 ∧ xCount32 262144 = 0 ∧
    allocateX 262144 = some (Space.init 0) ∧
    postRows (Matrix.mk 0 262144 262144) 262144 (Space.init 0) = none ∧
    beforeDiagonals 262144 = none :=
  ⟨by decide, by decide, by decide, by decide,
    postRows_short 262144 0 (by decide) (by decide) _,
    beforeDiagonals_large 262144 (by decide)⟩

/-- C18, amended: with the board size n an unsigned 32-bit value, the start
value `opt.size() - 2` of the first "SW -> NE" loop, computed modulo 2^32 and
converted to int, is -2 and -1 for n = 0 and n = 1, where the loop runs zero
times and leaves the space as it was, whatever the view; for every n >= 2
whose square fits an int (n*n < 2^31) it is n - 2, the constructor reaches the
loop and the loop runs exactly n - 1 times.  For every unsigned 32-bit size,
every counter value i with which `i < size` is evaluated has 0 <= i <= size,
converts to unsigned unchanged, and `size - i` does not wrap; every counter
value j with which `j < size - i` is evaluated is not negative and converts to
unsigned unchanged. -/
theorem size_arithmetic_32bit (n : Nat) (hb : n * n < 2147483648) :
    swneFirstStart32 n = (n : Int) - 2 ∧
    swneFirstStart32 0 = -2 ∧ swneFirstStart32 1 = -1 ∧
    (n ≤ 1 → swneFirstStart32 n < 0 ∧ countDown (swneFirstStart32 n) 0 = [] ∧
      ∀ (m : Matrix) (s : Space), postSWNEFirst m n s = some s) ∧
    (2 ≤ n → (countDown (swneFirstStart32 n) 0).length = n - 1 ∧
      ∃ (m : Matrix) (s₀ s₁ s₂ s₃ : Space), beforeDiagonals n = some (m, s₀) ∧
        postNWSELower m n s₀ = some s₁ ∧ postNWSEUpper m n s₁ = some s₂ ∧
        postSWNEFirst m n s₂ = some s₃ ∧
        s₃.constraints.length = s₂.constraints.length + (n - 1)) ∧
    (∀ size : Nat, size < 4294967296 →
      ∀ i : Int, (i ∈ countUp 0 size ∨ i ∈ countUp 1 size ∨ i = size) →
        0 ≤ i ∧ i ≤ size ∧ (toUnsigned32 i : Int) = i ∧
        (sizeMinus32 size i : Int) = (size : Int) - i ∧
        ∀ j : Int, (j ∈ countUp 0 (sizeMinus32 size i) ∨ j = sizeMinus32 size i) →
          0 ≤ j ∧ j ≤ size ∧ (toUnsigned32 j : Int) = j) := by
  have hn := lt_of_sq_lt n hb
  have hstart := swneFirstStart32_ofNat n hn
  refine ⟨hstart, by decide, by decide, ?_, ?_, ?_⟩
  · intro h1
    have he : countDown (swneFirstStart32 n) 0 = [] := by
      rw [hstart]
      exact countDown_neg _ _ (by omega)
    refine ⟨by omega, he, ?_⟩
    intro m s
    simp [postSWNEFirst, he]
  · intro h2
    refine ⟨?_, _, _, _, _, _, beforeDiagonals_eq n hb, postNWSELower_eq n hn _,
      postNWSEUpper_eq n hn _, postSWNEFirst_eq n hn _, ?_⟩
    · rw [hstart, length_countDown]
      omega
    · simp [swneFirstAll]
      omega
  · intro size hsize i hi
    have hr : 0 ≤ i ∧ i ≤ size := by
      rcases hi with h | h | h
      · have := (mem_countUp _ _ _).1 h; omega
      · have := (mem_countUp _ _ _).1 h; omega
      · omega
    have hs := sizeMinus32_exact size i hsize hr.1 hr.2
    refine ⟨hr.1, hr.2, ?_, hs, ?_⟩
    · unfold toUnsigned32
      omega
    · intro j hj
      have hj2 : 0 ≤ j ∧ j ≤ size := by
        rcases hj with h | h
        · have := (mem_countUp _ _ _).1 h; omega
        · omega
      refine ⟨hj2.1, hj2.2, ?_⟩
      unfold toUnsigned32
      omega

/-- Witness of the amended C18 on the board of side 5. -/
theorem size_arithmetic_32bit_witness :
    5 * 5 < 2147483648 ∧
    swneFirstStart32 5 = ((5 : Nat) : Int) - 2 ∧
    swneFirstStart32 0 = -2 ∧ swneFirstStart32 1 = -1 ∧
    (5 ≤ 1 → swneFirstStart32 5 < 0 ∧ countDown (swneFirstStart32 5) 0 = [] ∧
      ∀ (m : Matrix) (s : Space), postSWNEFirst m 5 s = some s) ∧
    (2 ≤ 5 → (countDown (swneFirstStart32 5) 0).length = 5 - 1 ∧
      ∃ (m : Matrix) (s₀ s₁ s₂ s₃ : Space), beforeDiagonals 5 = some (m, s₀) ∧
        postNWSELower m 5 s₀ = some s₁ ∧ postNWSEUpper m 5 s₁ = some s₂ ∧
        postSWNEFirst m 5 s₂ = some s₃ ∧
        s₃.constraints.length = s₂.constraints.length + (5 - 1)) ∧
    (∀ size : Nat, size < 4294967296 →
      ∀ i : Int, (i ∈ countUp 0 size ∨ i ∈ countUp 1 size ∨ i = size) →
        0 ≤ i ∧ i ≤ size ∧ (toUnsigned32 i : Int) = i ∧
        (sizeMinus32 size i : Int) = (size : Int) - i ∧
        ∀ j : Int, (j ∈ countUp 0 (sizeMinus32 size i) ∨ j = sizeMinus32 size i) →
          0 ≤ j ∧ j ≤ size ∧ (toUnsigned32 j : Int) = j) :=
  ⟨by decide, size_arithmetic_32bit 5 (by decide)⟩
theorem get_isSome (n : Nat) (c r : Int) (h : 0 ≤ c ∧ c < n ∧ 0 ≤ r ∧ r < n) :
    ((Matrix.mk (n * n) n n).get c r).isSome = true := by
  have hg := get_ofNat n c.toNat r.toNat (by omega) (by omega)
  rw [Int.toNat_of_nonneg h.1, Int.toNat_of_nonneg h.2.2.1] at hg
  rw [hg]
  rfl

theorem store_isSome (d : List Var) (j : Int) (v : Var) (h : 0 ≤ j ∧ j < d.length) :
    (IntVarArgs.store d j v).isSome = true := by
  simp [IntVarArgs.store, h]

/-- C15: for every n >= 1, whenever the constructor reaches the diagonal
loops (which it does only for n*n < 2^31), the four loops succeed; each posted
array
has exactly n entries, each entry is a variable of domain 0..0 or a variable
of `x`, and no board variable occurs twice; every array got n new variables of
domain 0..0, whose value is 0 under every assignment; each array ranges over
exactly one diagonal, and "at most one entry of the array equals 1" holds if
and only if at most one cell of that diagonal equals 1. -/
theorem padding_keeps_the_meaning (n : Nat) (hn : 1 ≤ n) (m : Matrix) (s : Space)
    (h : beforeDiagonals n = some (m, s)) :
    n * n < 2147483648 ∧
    ∃ (s₁ s₂ s₃ s₄ : Space) (ds₁ ds₂ ds₃ ds₄ : List (List Var)),
      postNWSELower m n s = some s₁ ∧ postNWSEUpper m n s₁ = some s₂ ∧
      postSWNEFirst m n s₂ = some s₃ ∧ postSWNESecond m n s₃ = some s₄ ∧
      s₁.constraints = s.constraints ++ ds₁.map atmostOne ∧
      s₂.constraints = s₁.constraints ++ ds₂.map atmostOne ∧
      s₃.constraints = s₂.constraints ++ ds₃.map atmostOne ∧
      s₄.constraints = s₃.constraints ++ ds₄.map atmostOne ∧
      s₄.zeros = s.zeros + n * (ds₁ ++ ds₂ ++ (ds₃ ++ ds₄)).length ∧
      (∀ a : Assignment n, Var.value a Var.zero = 0) ∧
      (∀ d ∈ ds₁ ++ ds₂ ++ (ds₃ ++ ds₄), d.length = n ∧
        (∀ v ∈ d, v = Var.zero ∨ ∃ idx, idx < n * n ∧ v = Var.cell idx) ∧
        ∀ idx, d.count (Var.cell idx) ≤ 1) ∧
      (∀ d ∈ ds₁ ++ ds₂, ∃ k : Int, CoversDiff n k d ∧ ∀ a : Assignment n,
        ((atmostOne d).holds a ↔
          ∀ r₁ < n, ∀ c₁ < n, ∀ r₂ < n, ∀ c₂ < n,
            (c₁ : Int) - (r₁ : Int) = k → (c₂ : Int) - (r₂ : Int) = k →
            a.cell r₁ c₁ = 1 → a.cell r₂ c₂ = 1 → r₁ = r₂ ∧ c₁ = c₂)) ∧
      (∀ d ∈ ds₃ ++ ds₄, ∃ t : Nat, CoversSum n t d ∧ ∀ a : Assignment n,
        ((atmostOne d).holds a ↔
          ∀ r₁ < n, ∀ c₁ < n, ∀ r₂ < n, ∀ c₂ < n, c₁ + r₁ = t → c₂ + r₂ = t →
            a.cell r₁ c₁ = 1 → a.cell r₂ c₂ = 1 → r₁ = r₂ ∧ c₁ = c₂)) := by
  have hb := beforeDiagonals_bound n m s h
  have hn2 := lt_of_sq_lt n hb
  have hm := (Prod.mk.inj (Option.some.inj ((beforeDiagonals_eq n hb).symm.trans h))).1
  subst hm
  refine ⟨hb, _, _, _, _, nwseLowerAll n, nwseUpperAll n, swneFirstAll n, swneSecondAll n,
    postNWSELower_eq n hn2 s, postNWSEUpper_eq n hn2 _, postSWNEFirst_eq n hn2 _,
    postSWNESecond_eq n hn2 _, rfl, rfl, rfl, rfl, ?_, fun _ => rfl, ?_, ?_, ?_⟩
  · simp only [List.length_append, (nwse_length n).1, (nwse_length n).2, (swne_length n).1,
      (swne_length n).2]
    ring
  · intro d hd
    rcases List.mem_append.1 hd with h | h
    · obtain ⟨hl, k, hk⟩ := nwse_mem_covers n d h
      exact ⟨hl, zero_or_cell n d hk.1, hk.2.1⟩
    · obtain ⟨hl, t, ht⟩ := swne_mem_covers n d h
      exact ⟨hl, zero_or_cell n d ht.1, ht.2.1⟩
  · intro d hd
    obtain ⟨_, k, hk⟩ := nwse_mem_covers n d hd
    exact ⟨k, hk, fun a => holds_iff_on_cells n a d (fun c r => (c : Int) - (r : Int) = k)
      hk.1 hk.2.1 hk.2.2⟩
  · intro d hd
    obtain ⟨_, t, ht⟩ := swne_mem_covers n d hd
    exact ⟨t, ht, fun a => holds_iff_on_cells n a d (fun c r => c + r = t)
      ht.1 ht.2.1 ht.2.2⟩

/-- Witness of C15 on the 2-by-2 board. -/
theorem padding_keeps_the_meaning_witness :
    1 ≤ 2 ∧ ∃ (m : Matrix) (s : Space), beforeDiagonals 2 = some (m, s) ∧
    2 * 2 < 2147483648 ∧
    ∃ (s₁ s₂ s₃ s₄ : Space) (ds₁ ds₂ ds₃ ds₄ : List (List Var)),
      postNWSELower m 2 s = some s₁ ∧
      postNWSEUpper m 2 s₁ = some s₂ ∧
      postSWNEFirst m 2 s₂ = some s₃ ∧
      postSWNESecond m 2 s₃ = some s₄ ∧
      s₁.constraints = s.constraints ++ ds₁.map atmostOne ∧
      s₂.constraints = s₁.constraints ++ ds₂.map atmostOne ∧
      s₃.constraints = s₂.constraints ++ ds₃.map atmostOne ∧
      s₄.constraints = s₃.constraints ++ ds₄.map atmostOne ∧
      s₄.zeros = s.zeros + 2 * (ds₁ ++ ds₂ ++ (ds₃ ++ ds₄)).length ∧
      (∀ a : Assignment 2, Var.value a Var.zero = 0) ∧
      (∀ d ∈ ds₁ ++ ds₂ ++ (ds₃ ++ ds₄), d.length = 2 ∧
        (∀ v ∈ d, v = Var.zero ∨ ∃ idx, idx < 2 * 2 ∧ v = Var.cell idx) ∧
        ∀ idx, d.count (Var.cell idx) ≤ 1) ∧
      (∀ d ∈ ds₁ ++ ds₂, ∃ k : Int, CoversDiff 2 k d ∧ ∀ a : Assignment 2,
        ((atmostOne d).holds a ↔
          ∀ r₁ : Nat, r₁ < 2 → ∀ c₁ : Nat, c₁ < 2 → ∀ r₂ : Nat, r₂ < 2 → ∀ c₂ : Nat, c₂ < 2 →
            (c₁ : Int) - (r₁ : Int) = k → (c₂ : Int) - (r₂ : Int) = k →
            a.cell r₁ c₁ = 1 → a.cell r₂ c₂ = 1 → r₁ = r₂ ∧ c₁ = c₂)) ∧
      (∀ d ∈ ds₃ ++ ds₄, ∃ t : Nat, CoversSum 2 t d ∧ ∀ a : Assignment 2,
        ((atmostOne d).holds a ↔
          ∀ r₁ < 2, ∀ c₁ < 2, ∀ r₂ < 2, ∀ c₂ < 2, c₁ + r₁ = t → c₂ + r₂ = t →
            a.cell r₁ c₁ = 1 → a.cell r₂ c₂ = 1 → r₁ = r₂ ∧ c₁ = c₂)) := by
  obtain ⟨m, s, h⟩ : ∃ m s, beforeDiagonals 2 = some (m, s) :=
    ⟨_, _, beforeDiagonals_eq 2 (by decide)⟩
  exact ⟨by decide, m, s, h, padding_keeps_the_meaning 2 (by decide) m s h⟩

/-- C17: for every n >= 1, whenever the constructor reaches the diagonal
loops (which it does only for n*n < 2^31, over the n-by-n view), the four
loops run to their end, and for every pair of counter values (i, j) they
reach, the coordinates of the Matrix access are computed without overflow or
wrap-around and lie in [0, n), so the access succeeds, and the index j of the
write `d1y[j]` lies in [0, n), so the write into an array of n entries
succeeds; in the last loop j lies in [i, n-1] and the first coordinate
i + n - 1 - j too. -/
theorem diagonal_loops_stay_in_range (n : Nat) (hn : 1 ≤ n) (m : Matrix) (s : Space)
    (h : beforeDiagonals n = some (m, s)) :
    n * n < 2147483648 ∧ m = Matrix.mk (n * n) n n ∧ toInt32 n = n ∧
    (∃ s₁ s₂ s₃ s₄ : Space,
      postNWSELower m n s = some s₁ ∧ postNWSEUpper m n s₁ = some s₂ ∧
      postSWNEFirst m n s₂ = some s₃ ∧ postSWNESecond m n s₃ = some s₄) ∧
    (∀ i ∈ countUp 0 (n : Int), ∀ j ∈ countUp 0 (sizeMinus32 n i : Int),
      int32 (i + j) = some (i + j) ∧
      (0 ≤ i + j ∧ i + j < n ∧ 0 ≤ j ∧ j < n) ∧ (m.get (i + j) j).isSome = true ∧
      ∀ (d : List Var) (v : Var), d.length = n → (IntVarArgs.store d j v).isSome = true) ∧
    (∀ i ∈ countUp 1 (n : Int), ∀ j ∈ countUp 0 (sizeMinus32 n i : Int),
      int32 (j + i) = some (j + i) ∧
      (0 ≤ j ∧ j < n ∧ 0 ≤ j + i ∧ j + i < n) ∧ (m.get j (j + i)).isSome = true ∧
      ∀ (d : List Var) (v : Var), d.length = n → (IntVarArgs.store d j v).isSome = true) ∧
    (∀ i ∈ countDown (swneFirstStart32 n) 0, int32 (i + 1) = some (i + 1) ∧
      ∀ j ∈ countUp 0 (i + 1), int32 (i - j) = some (i - j) ∧
      (0 ≤ i - j ∧ i - j < n ∧ 0 ≤ j ∧ j < n) ∧ (m.get (i - j) j).isSome = true ∧
      ∀ (d : List Var) (v : Var), d.length = n → (IntVarArgs.store d j v).isSome = true) ∧
    (∀ i ∈ countUp 0 (n : Int), ∀ j ∈ countDown (toInt32 (toUnsigned32 ((n : Int) - 1))) i,
      toInt32 (toUnsigned32 (i + (n : Int) - 1 - j)) = i + n - 1 - j ∧
      (i ≤ j ∧ j ≤ (n : Int) - 1 ∧ i ≤ i + n - 1 - j ∧ i + n - 1 - j ≤ (n : Int) - 1) ∧
      (m.get (toInt32 (toUnsigned32 (i + (n : Int) - 1 - j))) j).isSome = true ∧
      ∀ (d : List Var) (v : Var), d.length = n → (IntVarArgs.store d j v).isSome = true) := by
  have hb := beforeDiagonals_bound n m s h
  have hn2 := lt_of_sq_lt n hb
  have hm := (Prod.mk.inj (Option.some.inj ((beforeDiagonals_eq n hb).symm.trans h))).1
  subst hm
  have hlast : toInt32 (toUnsigned32 ((n : Int) - 1)) = (n : Int) - 1 := by
    unfold toInt32 toUnsigned32
    split_ifs <;> omega
  refine ⟨hb, rfl, toInt32_ofNat n hn2, ⟨_, _, _, _, postNWSELower_eq n hn2 s,
    postNWSEUpper_eq n hn2 _, postSWNEFirst_eq n hn2 _, postSWNESecond_eq n hn2 _⟩,
    ?_, ?_, ?_, ?_⟩
  · intro i hi j hj
    have h1 := (mem_countUp _ _ _).1 hi
    have hs := sizeMinus32_exact n i (by omega) (by omega) (by omega)
    have h2 := (mem_countUp _ _ _).1 hj
    have hr : 0 ≤ i + j ∧ i + j < n ∧ 0 ≤ j ∧ j < n := by omega
    exact ⟨int32_exact _ (by omega) (by omega), hr, get_isSome n _ _ hr,
      fun d v hd => store_isSome d j v (by rw [hd]; omega)⟩
  · intro i hi j hj
    have h1 := (mem_countUp _ _ _).1 hi
    have hs := sizeMinus32_exact n i (by omega) (by omega) (by omega)
    have h2 := (mem_countUp _ _ _).1 hj
    have hr : 0 ≤ j ∧ j < n ∧ 0 ≤ j + i ∧ j + i < n := by omega
    exact ⟨int32_exact _ (by omega) (by omega), hr, get_isSome n _ _ hr,
      fun d v hd => store_isSome d j v (by rw [hd]; omega)⟩
  · intro i hi
    rw [swneFirstStart32_ofNat n hn2] at hi
    have h1 := (mem_countDown _ _ _).1 hi
    refine ⟨int32_exact _ (by omega) (by omega), ?_⟩
    intro j hj
    have h2 := (mem_countUp _ _ _).1 hj
    have hr : 0 ≤ i - j ∧ i - j < n ∧ 0 ≤ j ∧ j < n := by omega
    exact ⟨int32_exact _ (by omega) (by omega), hr, get_isSome n _ _ hr,
      fun d v hd => store_isSome d j v (by rw [hd]; omega)⟩
  · intro i hi j hj
    rw [hlast] at hj
    have h1 := (mem_countUp _ _ _).1 hi
    have h2 := (mem_countDown _ _ _).1 hj
    have hr : i ≤ j ∧ j ≤ (n : Int) - 1 ∧ i ≤ i + n - 1 - j ∧ i + n - 1 - j ≤ (n : Int) - 1 := by
      omega
    have hc : toInt32 (toUnsigned32 (i + (n : Int) - 1 - j)) = i + n - 1 - j := by
      unfold toInt32 toUnsigned32
      split_ifs <;> omega
    rw [hc]
    exact ⟨rfl, hr, get_isSome n _ _ (by omega), fun d v hd => store_isSome d j v (by rw [hd]; omega)⟩

/-- Witness of C17 on the 2-by-2 board. -/
theorem diagonal_loops_stay_in_range_witness :
    1 ≤ 2 ∧ ∃ (m : Matrix) (s : Space), beforeDiagonals 2 = some (m, s) ∧
    2 * 2 < 2147483648 ∧ m = Matrix.mk (2 * 2) ((2 : Nat) : Int) ((2 : Nat) : Int) ∧
    toInt32 2 = ((2 : Nat) : Int) ∧
    (∃ s₁ s₂ s₃ s₄ : Space,
      postNWSELower m 2 s = some s₁ ∧ postNWSEUpper m 2 s₁ = some s₂ ∧
      postSWNEFirst m 2 s₂ = some s₃ ∧ postSWNESecond m 2 s₃ = some s₄) ∧
    (∀ i ∈ countUp 0 ((2 : Nat) : Int), ∀ j ∈ countUp 0 (sizeMinus32 2 i : Int),
      int32 (i + j) = some (i + j) ∧
      (0 ≤ i + j ∧ i + j < ((2 : Nat) : Int) ∧ 0 ≤ j ∧ j < ((2 : Nat) : Int)) ∧
      (m.get (i + j) j).isSome = true ∧
      ∀ (d : List Var) (v : Var), d.length = 2 → (IntVarArgs.store d j v).isSome = true) ∧
    (∀ i ∈ countUp 1 ((2 : Nat) : Int), ∀ j ∈ countUp 0 (sizeMinus32 2 i : Int),
      int32 (j + i) = some (j + i) ∧
      (0 ≤ j ∧ j < ((2 : Nat) : Int) ∧ 0 ≤ j + i ∧ j + i < ((2 : Nat) : Int)) ∧
      (m.get j (j + i)).isSome = true ∧
      ∀ (d : List Var) (v : Var), d.length = 2 → (IntVarArgs.store d j v).isSome = true) ∧
    (∀ i ∈ countDown (swneFirstStart32 2) 0, int32 (i + 1) = some (i + 1) ∧
      ∀ j ∈ countUp 0 (i + 1), int32 (i - j) = some (i - j) ∧
      (0 ≤ i - j ∧ i - j < ((2 : Nat) : Int) ∧ 0 ≤ j ∧ j < ((2 : Nat) : Int)) ∧
      (m.get (i - j) j).isSome = true ∧
      ∀ (d : List Var) (v : Var), d.length = 2 → (IntVarArgs.store d j v).isSome = true) ∧
    (∀ i ∈ countUp 0 ((2 : Nat) : Int),
      ∀ j ∈ countDown (toInt32 (toUnsigned32 (((2 : Nat) : Int) - 1))) i,
      toInt32 (toUnsigned32 (i + ((2 : Nat) : Int) - 1 - j)) = i + ((2 : Nat) : Int) - 1 - j ∧
      (i ≤ j ∧ j ≤ ((2 : Nat) : Int) - 1 ∧ i ≤ i + ((2 : Nat) : Int) - 1 - j
        ∧ i + ((2 : Nat) : Int) - 1 - j ≤ ((2 : Nat) : Int) - 1) ∧
      (m.get (toInt32 (toUnsigned32 (i + ((2 : Nat) : Int) - 1 - j))) j).isSome = true ∧
      ∀ (d : List Var) (v : Var), d.length = 2 → (IntVarArgs.store d j v).isSome = true) := by
  obtain ⟨m, s, h⟩ : ∃ m s, beforeDiagonals 2 = some (m, s) :=
    ⟨_, _, beforeDiagonals_eq 2 (by decide)⟩
  exact ⟨by decide, m, s, h, diagonal_loops_stay_in_range 2 (by decide) m s h⟩
/-- C19: for every n >= 0 whose square fits a 32-bit int (n*n < 2^31), line 27
creates exactly n*n variables, and for every array `x` of that many variables
the side `print` recovers, the integer part of the square root of `x.size()`,
is n: the view of `print` is the n-by-n view, its counters run over 0..n-1
and stay in [0, n), every access m(i, j) reads `x[j*n + i]`, an index inside
`x`, every variable of `x` is read by exactly one pair (i, j), and `print`
succeeds with the n lines of n fields read in that order. -/
theorem print_recovers_board_side (n : Nat) (hb : n * n < 2147483648) (x : List IntVar)
    (hx : x.length = n * n) :
    allocateX n = some (Space.init x.length) ∧
    Nat.sqrt x.length = n ∧
    Matrix.view x.length (Nat.sqrt x.length) (Nat.sqrt x.length)
      = some (Matrix.mk (n * n) n n) ∧
    (∀ i : Int, i ∈ countUp 0 ((Nat.sqrt x.length : Nat) : Int) → 0 ≤ i ∧ i < n) ∧
    (countUp 0 ((Nat.sqrt x.length : Nat) : Int)).length = n ∧
    (∀ i : Nat, i < n → ∀ j : Nat, j < n →
      (Matrix.mk (n * n) n n).index i j = some (j * n + i) ∧ j * n + i < x.length) ∧
    (∀ k : Nat, k < x.length →
      ∃! p : Nat × Nat, p.1 < n ∧ p.2 < n ∧ (Matrix.mk (n * n) n n).index p.1 p.2 = some k) ∧
    print x (OStream.mk "" 0) = some
      (OStream.mk (String.join ((List.range n).map (fun i => "\t"
          ++ String.join ((List.range n).map
              (fun j => fieldOf (x.getD (j * n + i) (IntVar.val 0)).text))
          ++ "\n"))) 0) := by
  have hs : Nat.sqrt x.length = n := by rw [hx, Nat.sqrt_eq]
  refine ⟨by rw [hx]; exact allocateX_exact n hb, hs, by rw [hs, hx]; exact view_ofNat n, ?_, ?_,
    ?_, ?_, ?_⟩
  · intro i hi
    rw [hs] at hi
    have := (mem_countUp _ _ _).1 hi
    omega
  · rw [hs]
    simp [countUp]
  · intro i hi j hj
    exact ⟨index_ofNat n i j hi hj, by rw [hx]; exact cell_index_lt n j i hj hi⟩
  · intro k hk
    rw [hx] at hk
    rcases Nat.eq_zero_or_pos n with h0 | hpos
    · subst h0
      omega
    · have hdiv : k / n < n := by
        rw [Nat.div_lt_iff_lt_mul hpos]
        exact hk
      have hmod : k % n < n := Nat.mod_lt _ hpos
      refine ⟨(k % n, k / n), ⟨hmod, hdiv, ?_⟩, ?_⟩
      · rw [index_ofNat n (k % n) (k / n) hmod hdiv]
        congr 1
        rw [Nat.mul_comm]
        exact Nat.div_add_mod k n
      · rintro ⟨i, j⟩ ⟨hi, hj, hidx⟩
        simp only at hi hj hidx
        rw [index_ofNat n i j hi hj] at hidx
        have e : j * n + i = k := Option.some.inj hidx
        have e2 : (k / n) * n + k % n = k := by
          rw [Nat.mul_comm]
          exact Nat.div_add_mod k n
        have := cell_index_inj n j i (k / n) (k % n) hi hmod (e.trans e2.symm)
        rw [this.1, this.2]
  · have := print_any_eq n x hx (OStream.mk "" 0) rfl
    simpa [empty_append] using this

/-- Witness of C19 on an array of four variables, two of them assigned. -/
theorem print_recovers_board_side_witness :
    2 * 2 < 2147483648 ∧
    [IntVar.val 0, IntVar.val 1, IntVar.range 0 1, IntVar.range 0 1].length = 2 * 2 ∧
    allocateX 2 = some (Space.init
      [IntVar.val 0, IntVar.val 1, IntVar.range 0 1, IntVar.range 0 1].length) ∧
    Nat.sqrt [IntVar.val 0, IntVar.val 1, IntVar.range 0 1, IntVar.range 0 1].length = 2 ∧
    Matrix.view [IntVar.val 0, IntVar.val 1, IntVar.range 0 1, IntVar.range 0 1].length
      (Nat.sqrt [IntVar.val 0, IntVar.val 1, IntVar.range 0 1, IntVar.range 0 1].length)
      (Nat.sqrt [IntVar.val 0, IntVar.val 1, IntVar.range 0 1, IntVar.range 0 1].length)
      = some (Matrix.mk (2 * 2) ((2 : Nat) : Int) ((2 : Nat) : Int)) ∧
    (∀ i : Int, i ∈ countUp 0
      ((Nat.sqrt [IntVar.val 0, IntVar.val 1, IntVar.range 0 1, IntVar.range 0 1].length : Nat)
        : Int) → 0 ≤ i ∧ i < ((2 : Nat) : Int)) ∧
    (countUp 0
      ((Nat.sqrt [IntVar.val 0, IntVar.val 1, IntVar.range 0 1, IntVar.range 0 1].length : Nat)
        : Int)).length = 2 ∧
    (∀ i : Nat, i < 2 → ∀ j : Nat, j < 2 →
      (Matrix.mk (2 * 2) ((2 : Nat) : Int) ((2 : Nat) : Int)).index i j = some (j * 2 + i) ∧
      j * 2 + i < [IntVar.val 0, IntVar.val 1, IntVar.range 0 1, IntVar.range 0 1].length) ∧
    (∀ k : Nat, k < [IntVar.val 0, IntVar.val 1, IntVar.range 0 1, IntVar.range 0 1].length →
      ∃! p : Nat × Nat, p.1 < 2 ∧ p.2 < 2 ∧
        (Matrix.mk (2 * 2) ((2 : Nat) : Int) ((2 : Nat) : Int)).index p.1 p.2 = some k) ∧
    print [IntVar.val 0, IntVar.val 1, IntVar.range 0 1, IntVar.range 0 1] (OStream.mk "" 0) = some
      (OStream.mk (String.join ((List.range 2).map (fun i => "\t"
          ++ String.join ((List.range 2).map
              (fun j => fieldOf
                (([IntVar.val 0, IntVar.val 1, IntVar.range 0 1, IntVar.range 0 1].getD
                  (j * 2 + i) (IntVar.val 0))).text))
          ++ "\n"))) 0) :=
  ⟨by decide, rfl,
    print_recovers_board_side 2 (by decide)
      [IntVar.val 0, IntVar.val 1, IntVar.range 0 1, IntVar.range 0 1] rfl⟩
end NQueens
